import Mathlib

/-! Verification of plasma-workspace: libtaskmanager `TasksModel` (manual sort map,
comparator, filter, launcher sync, activity task counts), the shell's `ScreenPool`
and the session's `AutoStart`.

A shallow embedding of `src/libtaskmanager/tasksmodel.cpp`, `src/shell/screenpool.cpp`
and `src/startkde/plasma-session/autostart.cpp`.

* Row numbers and list positions are `Int`, as in the C++ (`int`, with `-1` the
  "not found" / "invalid index" value).
* `QList<int>` is `List Int`; the operations whose index is asserted to be in range
  (`move`, `at`, `replace`) return `Option`, `none` standing for the failed assertion.
* The models in the proxy chain that are not part of this file (the concatenation,
  filter, grouping and flatten proxies, the launcher source, Qt's sort/filter proxy)
  are represented by the answers they give: a `Models` snapshot.
* `QHash<QString, int>` is an association list with unique keys; `std::stable_sort` is
  the merge sort of libstdc++; the static members of `TasksModel::Private` are in `Shared`.
-/

namespace TaskManager

/-! ## Data model -/

/-- The values of `TasksModel::SortMode`. -/
inductive SortMode
  | SortDisabled
  | SortManual
  | SortAlpha
  | SortVirtualDesktop
  | SortActivity
  deriving DecidableEq, Repr

/-- The values of `TasksModel::GroupMode`. -/
inductive GroupMode
  | GroupDisabled
  | GroupApplications
  deriving DecidableEq, Repr

/-- The roles of one row that `tasksmodel.cpp` reads through `index.data(role)`.
`virtualDesktop` is `none` when `QVariant::toInt` reports failure. -/
structure TaskData where
  appId : String := ""
  appName : String := ""
  display : String := ""
  launcherUrl : String := ""
  launcherUrlWithoutIcon : String := ""
  isWindow : Bool := false
  isStartup : Bool := false
  isLauncher : Bool := false
  isGroupParent : Bool := false
  isDemandingAttention : Bool := false
  isActive : Bool := false
  virtualDesktop : Option Int := none
  activities : List String := []
  deriving DecidableEq, Repr

/-- What `data()` yields on an invalid `QModelIndex`: empty variants, which convert
to `false`, the empty string and the empty list. -/
def TaskData.invalid : TaskData := {}

instance : Inhabited TaskData := ⟨TaskData.invalid⟩

/-- A valid index of the grouping proxy: a top-level row, or row `row` below the
top-level row `parentRow`. -/
inductive GroupingIndex
  | top (row : Nat)
  | child (parentRow : Nat) (row : Nat)
  deriving DecidableEq, Repr

/-- The top-level row of `QModelIndex::parent()`; `none` is the invalid index. -/
def GroupingIndex.parent : GroupingIndex → Option Nat
  | .top _ => none
  | .child p _ => some p

/-- One top-level row of the grouping proxy. `preFilterRow` is the row of
`filterProxyModel->mapToSource(groupingProxyModel->mapToSource(idx))`; `children` lists
the same for `idx.child(i, 0)`, so `groupingProxyModel->rowCount(idx)` is its length;
`isGroupParent` is `idx.data(IsGroupParent)`. -/
structure GroupNode where
  preFilterRow : Int
  children : List Int := []
  isGroupParent : Bool := false
  deriving DecidableEq, Repr

/-- One row of the `TasksModel` itself: its data and the grouping-proxy index it maps
to (`mapToSource`, followed by the flatten proxy's `mapToSource` when that proxy exists). -/
structure ShownRow where
  data : TaskData
  source : GroupingIndex
  deriving DecidableEq, Repr

/-- The launcher source (`LauncherTasksModel`), by the answers it gives.
`firstConcatRow` is the row of `concatProxyModel->mapFromSource(index(0, 0))`. -/
structure LauncherSource where
  rows : List TaskData
  launcherList : List String
  launcherPosition : String → Int
  firstConcatRow : Int

/-- A snapshot of the collaborating models: the rows of `concatProxyModel`, of
`filterProxyModel`, the top-level rows of `sourceModel()` (the grouping proxy, or the
flatten proxy in inline mode), the top-level rows of the grouping proxy and the rows of
the `TasksModel` itself. `launcherUrlOf` is the URL part of
`deserializeLauncher`, `launcherUrlsMatch` the URL comparison with `IgnoreQueryItems`,
`localeAwareCompare` is `QString::localeAwareCompare`, `windows` are the rows of
`windowTasksModel` and `runningActivities` is `activityInfo->runningActivities()`. -/
structure Models where
  concat : List TaskData
  filter : List TaskData
  source : List TaskData
  grouping : List GroupNode
  shown : List ShownRow
  launcher : Option LauncherSource
  groupMode : GroupMode
  appsMatch : TaskData → TaskData → Bool
  launcherUrlOf : String → String
  launcherUrlsMatch : String → String → Bool
  localeAwareCompare : String → String → Int
  windows : List TaskData := []
  runningActivities : List String := []

/-- The static members of `TasksModel::Private`, shared by all instances: the
instance counter, whether the shared models and the shared `ActivityInfo` exist, and the
number of instances in Activity sort mode. -/
structure Shared where
  instanceCount : Int := 0
  windowTasksModel : Bool := false
  startupTasksModel : Bool := false
  activityInfo : Bool := false
  activityInfoUsers : Int := 0
  deriving DecidableEq, Repr

/-- The fields of `TasksModel::Private` (the model pointers are in `Models`, except
for the presence of the flatten proxy). -/
structure State where
  sortMode : SortMode := SortMode.SortAlpha
  separateLaunchers : Bool := true
  launchInPlace : Bool := false
  launchersEverSet : Bool := false
  launcherSortingDirty : Bool := false
  launcherCheckNeeded : Bool := false
  launcherCount : Int := 0
  sortedPreFilterRows : List Int := []
  sortRowInsertQueue : List Int := []
  activityTaskCounts : List (String × Int) := []
  groupInline : Bool := false
  flattenGroupsProxyModel : Bool := false
  deriving DecidableEq, Repr

/-! ## `QList<int>` -/

/-- The element at position `i`, when `i` is a valid position. -/
def getRow {α : Type} (l : List α) (i : Int) : Option α :=
  if i < 0 then none else l[i.toNat]?

/-- `index(row, 0).data(...)` on a flat model: the row's data, or the data of the
invalid index when `row` is out of range. -/
def dataAt (rows : List TaskData) (row : Int) : TaskData :=
  (getRow rows row).getD TaskData.invalid

/-- `QList::indexOf`: the first position of `v`, or `-1`. -/
def indexOf : List Int → Int → Int
  | [], _ => -1
  | x :: xs, v =>
    if x = v then 0
    else
      let r := indexOf xs v
      if r = -1 then -1 else r + 1

/-- `QList::move(from, to)`: takes the item out of position `from` and puts it in at
position `to`. Both positions are asserted to be in range. -/
def qlistMove (l : List Int) (src dst : Int) : Option (List Int) :=
  if 0 ≤ src ∧ src < l.length ∧ 0 ≤ dst ∧ dst < l.length then
    match l[src.toNat]? with
    | some x => some ((l.eraseIdx src.toNat).insertIdx dst.toNat x)
    | none => none
  else none

/-- `QList::replace(i, value)`, the position asserted to be in range. -/
def qlistReplace (l : List Int) (i v : Int) : Option (List Int) :=
  if 0 ≤ i ∧ i < l.length then some (l.set i.toNat v) else none

/-- The values `lo, lo + 1, ..., hi` of a `for (int i = lo; i <= hi; ++i)` loop. -/
def intRange (lo hi : Int) : List Int :=
  (List.range (hi + 1 - lo).toNat).map (fun (k : Nat) => lo + Int.ofNat k)

/-- The map is a permutation of the pre-filter rows `0 .. n - 1`. -/
def IsRowPermutation (m : List Int) (n : Nat) : Prop :=
  List.Perm m ((List.range n).map Int.ofNat)

instance (m : List Int) (n : Nat) : Decidable (IsRowPermutation m n) := by
  unfold IsRowPermutation; infer_instance

/-! ## Concatenation proxy handlers -/

/-- The `rowsAboutToBeInserted` handler connected to `concatProxyModel` in
`initModels`. -/
def rowsAboutToBeInserted (st : State) (start stop : Int) : State :=
  if st.sortMode ≠ SortMode.SortManual then st
  else
    let delta := (stop - start) + 1
    let shifted := st.sortedPreFilterRows.map (fun v => if v ≥ start then v + delta else v)
    (intRange start stop).foldl
      (fun s i =>
        let rows := s.sortedPreFilterRows ++ [i]
        if !s.separateLaunchers then
          { s with sortedPreFilterRows := rows,
                   sortRowInsertQueue := s.sortRowInsertQueue ++ [(rows.length : Int) - 1] }
        else
          { s with sortedPreFilterRows := rows })
      { st with sortedPreFilterRows := shifted }

/-- The `rowsRemoved` handler connected to `concatProxyModel` in `initModels`. -/
def rowsRemoved (st : State) (first last : Int) : State :=
  if st.sortMode ≠ SortMode.SortManual then st
  else
    let removed := (intRange first last).foldl (fun rows i => rows.erase i) st.sortedPreFilterRows
    let delta := (last - first) + 1
    { st with sortedPreFilterRows := removed.map (fun v => if v > last then v - delta else v) }

/-! ## Group consolidation -/

/-- The loop body of `consolidateManualSortMapForGroup` for the children that remain,
`i` being the grouping row of the first of them. -/
def consolidateLoop (leaderRow : Int) : List Int → Int → List Int → Option (List Int)
  | [], _, rows => some rows
  | childRow :: rest, i, rows =>
    let leaderPos := indexOf rows leaderRow
    let childPos := indexOf rows childRow
    let insertPos := (leaderPos + i) + (if (leaderPos + i) > childPos then -1 else 0)
    match qlistMove rows childPos insertPos with
    | none => none
    | some rows1 => consolidateLoop leaderRow rest (i + 1) rows1

/-- `TasksModel::Private::consolidateManualSortMapForGroup`, given the pre-filter rows
of the group's children. -/
def consolidateManualSortMapForGroup (children : List Int) (rows : List Int) :
    Option (List Int) :=
  match children with
  | [] => some rows
  | leaderRow :: rest => consolidateLoop leaderRow rest 1 rows

/-! ## `move` -/

/-- `TasksModel::launcherPosition`. -/
def launcherPosition (m : Models) (url : String) : Int :=
  match m.launcher with
  | some l => l.launcherPosition url
  | none => -1

/-- `TasksModel::rowCount()` of the top level. -/
def rowCount (m : Models) : Int := (m.shown.length : Int)

/-- The children of the top-level grouping row `g`. -/
def groupChildren (m : Models) (g : Nat) : List Int :=
  match m.grouping[g]? with
  | some node => node.children
  | none => []

/-- The row of `filterProxyModel->mapToSource(groupingProxyModel->mapToSource(idx))`
for a grouping-proxy index; `-1` when the index does not exist. -/
def preFilterRow (m : Models) : GroupingIndex → Int
  | .top g =>
    match m.grouping[g]? with
    | some node => node.preFilterRow
    | none => -1
  | .child g i => ((groupChildren m g)[i]?).getD (-1)

/-- The `isLauncherMove` flag computed at the top of `move`. -/
def isLauncherMove (m : Models) (st : State) (idx : TaskData) : Bool :=
  if idx.isLauncher then true
  else if (st.launchInPlace || !st.separateLaunchers) && idx.isWindow then
    decide (launcherPosition m idx.launcherUrl ≠ -1)
  else false

/-- The `firstTask` barrier of `move`. -/
def firstTask (m : Models) (st : State) : Int :=
  match m.launcher with
  | some l => if st.launchInPlace then (l.rows.length : Int) else st.launcherCount
  | none => 0

/-- The backwards loop at the end of `move` that brings the rows with the moved
launcher's URL to the launcher; `k` is the loop variable plus one. -/
def moveMatchingRows (m : Models) (launcherUrl : String) :
    Nat → List Int → Int → Option (List Int × Int)
  | 0, rows, newPos => some (rows, newPos)
  | k + 1, rows, newPos =>
    match getRow rows (k : Int) with
    | none => none
    | some r =>
      if launcherUrl = (dataAt m.concat r).launcherUrlWithoutIcon then
        match qlistMove rows (k : Int) newPos with
        | none => none
        | some rows1 =>
          moveMatchingRows m launcherUrl k rows1 (if newPos > (k : Int) then newPos - 1 else newPos)
      else moveMatchingRows m launcherUrl k rows newPos

/-- The part of `move` after `forceResort()`: with launchers not separated, the
launcher travels with its task, or the tasks with their launcher. -/
def moveLauncherAlong (m : Models) (st : State) (launcherMove : Bool) (rows : List Int)
    (newPos : Int) : Option (List Int) :=
  if !st.separateLaunchers && launcherMove then
    match getRow rows newPos with
    | none => none
    | some r =>
      let idx := dataAt m.concat r
      let launcherUrl := idx.launcherUrlWithoutIcon
      if !idx.isLauncher then
        match m.launcher with
        | none => none
        | some l =>
          let launcherPos := l.launcherPosition launcherUrl
          let concatRow : Int :=
            if 0 ≤ launcherPos ∧ launcherPos < (l.rows.length : Int) then l.firstConcatRow + launcherPos
            else -1
          qlistMove rows (indexOf rows concatRow) newPos
      else
        (moveMatchingRows m launcherUrl rows.length rows newPos).map Prod.fst
  else some rows

/-- The row of `filterProxyModel->mapToSource(groupingProxyModel->mapToSource(idx))`
for a possibly invalid grouping-proxy index (`none`), whose row is `-1`. -/
def preFilterRowOf (m : Models) : Option GroupingIndex → Int
  | some g => preFilterRow m g
  | none => -1

/-- The grouping-proxy index behind row `row` of the `TasksModel`: `mapToSource(index(row, 0))`,
mapped through the flatten proxy when it exists. -/
def sourceOf (m : Models) (row : Int) : Option GroupingIndex :=
  (getRow m.shown row).map ShownRow.source

/-- The result of the sort-map update in the middle of `move`: `rejected` is the
`return false` inside the flatten branch, `moved` carries the new map and the map
position the row went to. -/
inductive MapUpdate
  | rejected
  | moved (rows : List Int) (newPos : Int)

/-- The branch of `move` taken when the flatten proxy exists. -/
def moveFlattened (m : Models) (st : State) (row newPos : Int) : Option MapUpdate :=
  let groupingRowIndex := sourceOf m row
  let groupingRowIndexParent : Option Nat := groupingRowIndex.bind GroupingIndex.parent
  let groupingNewPosIndex := sourceOf m newPos
  let groupingNewPosIndexParent : Option Nat := groupingNewPosIndex.bind GroupingIndex.parent
  if groupingRowIndexParent.isSome
      && (decide (groupingRowIndexParent.map GroupingIndex.top = groupingNewPosIndex)
        || decide (groupingRowIndexParent = groupingNewPosIndexParent)) then
    some MapUpdate.rejected
  else
    let groupingRowIndex1 : Option GroupingIndex :=
      match groupingRowIndexParent with
      | some p => some (GroupingIndex.top p)
      | none => groupingRowIndex
    let groupingNewPosIndex1 : Option GroupingIndex :=
      match groupingNewPosIndexParent with
      | some p =>
        let extra : Int := ((groupChildren m p).length : Int) - 1
        if newPos > row then
          (if extra < 0 then none else some (GroupingIndex.child p extra.toNat))
        else some (GroupingIndex.top p)
      | none => groupingNewPosIndex
    let mapRow := indexOf st.sortedPreFilterRows (preFilterRowOf m groupingRowIndex1)
    let mapNewPos := indexOf st.sortedPreFilterRows (preFilterRowOf m groupingNewPosIndex1)
    match qlistMove st.sortedPreFilterRows mapRow mapNewPos with
    | none => none
    | some rows1 =>
      match groupingRowIndexParent with
      | some p =>
        (consolidateManualSortMapForGroup (groupChildren m p) rows1).map
          (fun rows2 => MapUpdate.moved rows2 mapNewPos)
      | none => some (MapUpdate.moved rows1 mapNewPos)

/-- The branch of `move` taken without a flatten proxy. -/
def moveSingle (m : Models) (st : State) (row newPos : Int) : Option MapUpdate :=
  let groupingRowIndex := sourceOf m row
  let mapRow := indexOf st.sortedPreFilterRows (preFilterRowOf m groupingRowIndex)
  let mapNewPos := indexOf st.sortedPreFilterRows (preFilterRowOf m (sourceOf m newPos))
  match qlistMove st.sortedPreFilterRows mapRow mapNewPos with
  | none => none
  | some rows1 =>
    match groupingRowIndex with
    | some (GroupingIndex.top g) =>
      if m.groupMode ≠ GroupMode.GroupDisabled ∧ (groupChildren m g).length ≠ 0 then
        (consolidateManualSortMapForGroup (groupChildren m g) rows1).map
          (fun rows2 => MapUpdate.moved rows2 mapNewPos)
      else some (MapUpdate.moved rows1 mapNewPos)
    | _ => some (MapUpdate.moved rows1 mapNewPos)

/-- `TasksModel::move(row, newPos)`: the returned flag and the state afterwards;
`none` when an asserted list position is out of range. -/
def move (m : Models) (st : State) (row newPos : Int) : Option (Bool × State) :=
  if st.sortMode ≠ SortMode.SortManual ∨ row = newPos ∨ newPos < 0 ∨ newPos ≥ rowCount m then
    some (false, st)
  else
    match getRow m.shown row with
    | none => some (false, st)
    | some idx =>
      let launcherMove := isLauncherMove m st idx.data
      if st.separateLaunchers && launcherMove && decide (newPos ≥ firstTask m st) then
        some (false, st)
      else if st.separateLaunchers && !launcherMove && decide (newPos < firstTask m st) then
        some (false, st)
      else
        let update :=
          if st.flattenGroupsProxyModel then moveFlattened m st row newPos
          else moveSingle m st row newPos
        match update with
        | none => none
        | some MapUpdate.rejected => some (false, st)
        | some (MapUpdate.moved rows newPos1) =>
          match moveLauncherAlong m st launcherMove rows newPos1 with
          | none => none
          | some rows2 =>
            some (true, { st with sortedPreFilterRows := rows2, launcherSortingDirty := launcherMove })

/-! ## `syncLaunchers` -/

/-- `QMap<int, QString>::insert`: the keys are kept in ascending order and the value
of a key already present is replaced. -/
def qmapInsert : List (Int × String) → Int → String → List (Int × String)
  | [], k, v => [(k, v)]
  | (k0, v0) :: rest, k, v =>
    if k < k0 then (k, v) :: (k0, v0) :: rest
    else if k = k0 then (k, v) :: rest
    else (k0, v0) :: qmapInsert rest k v

/-- The inner loop of `syncLaunchers`: the first row `i` (counting from `i`) of the
launcher source whose URL matches `launcherUrl`, or `-1`. -/
def findLauncherRow (m : Models) (launcherUrl : String) : List TaskData → Int → Int
  | [], _ => -1
  | r :: rest, i =>
    if m.launcherUrlsMatch launcherUrl r.launcherUrlWithoutIcon then i
    else findLauncherRow m launcherUrl rest (i + 1)

/-- The outer loop of `syncLaunchers` filling `sortedShownLaunchers`. -/
def sortedShownLaunchers (m : Models) (l : LauncherSource) : List (Int × String) :=
  l.launcherList.foldl
    (fun acc launcherUrlStr =>
      let row := findLauncherRow m (m.launcherUrlOf launcherUrlStr) l.rows 0
      if row ≠ -1 then qmapInsert acc row launcherUrlStr else acc)
    []

/-- The write-back loop of `syncLaunchers`:
`sortedPreFilterRows.replace(sortMapIndices.at(i), preFilterRows.at(i))`. -/
def writeBackLaunchers : List Int → List Int → List Int → Option (List Int)
  | [], _, rows => some rows
  | _ :: _, [], _ => none
  | i :: is, p :: ps, rows =>
    match qlistReplace rows i p with
    | none => none
    | some rows1 => writeBackLaunchers is ps rows1

/-- `TasksModel::syncLaunchers`: the state afterwards and the list handed to
`setLauncherList` (`none` when it returns early); `none` overall when an asserted list
position is out of range. -/
def syncLaunchers (m : Models) (st : State) : Option (State × Option (List String)) :=
  match m.launcher with
  | none => some (st, none)
  | some l =>
    if !st.launcherSortingDirty then some (st, none)
    else
      let shownLaunchers := sortedShownLaunchers m l
      let preFilterRows : List Int :=
        (List.range l.rows.length).map (fun (i : Nat) => l.firstConcatRow + Int.ofNat i)
      let sortMapIndices : List Int := preFilterRows.map (indexOf st.sortedPreFilterRows)
      let rows : Option (List Int) :=
        if st.sortMode = SortMode.SortManual then
          writeBackLaunchers (sortMapIndices.insertionSort (fun a b => a ≤ b)) preFilterRows
            st.sortedPreFilterRows
        else some st.sortedPreFilterRows
      match rows with
      | none => none
      | some rows1 =>
        some ({ st with sortedPreFilterRows := rows1, launchersEverSet := true,
                        launcherSortingDirty := false },
              some (shownLaunchers.map Prod.snd))

/-! ## The comparator -/

/-- A `QModelIndex` as the comparator uses it: its row and its data. -/
structure Index where
  row : Int
  data : TaskData
  deriving DecidableEq, Repr

/-- The first part of `Private::lessThan`, under `if (separateLaunchers)`: the result
it returns, or `none` when control leaves the block. -/
def launcherOrder (m : Models) (st : State) (left right : Index) : Option Bool :=
  if st.separateLaunchers then
    let leftPos := launcherPosition m left.data.launcherUrlWithoutIcon
    let rightPos := launcherPosition m right.data.launcherUrlWithoutIcon
    if left.data.isLauncher && right.data.isLauncher then
      some (decide (left.row < right.row))
    else if left.data.isLauncher && !right.data.isLauncher then
      if st.launchInPlace && decide (rightPos ≠ -1) then some (decide (leftPos < rightPos))
      else some true
    else if !left.data.isLauncher && right.data.isLauncher then
      if st.launchInPlace && decide (leftPos ≠ -1) then some (decide (leftPos < rightPos))
      else some false
    else if st.launchInPlace then
      if leftPos ≠ -1 ∧ rightPos ≠ -1 then some (decide (leftPos < rightPos))
      else if leftPos ≠ -1 ∧ rightPos = -1 then some true
      else if leftPos = -1 ∧ rightPos ≠ -1 then some false
      else none
    else none
  else none

/-- The `case SortVirtualDesktop` block: its result, or `none` when it falls through. -/
def virtualDesktopOrder (left right : Index) : Option Bool :=
  match left.data.virtualDesktop, right.data.virtualDesktop with
  | some leftDesktop, some rightDesktop =>
    if leftDesktop ≠ rightDesktop then some (decide (leftDesktop < rightDesktop)) else none
  | some _, none => some false
  | none, some _ => some true
  | none, none => none

/-- The const `activityTaskCounts[activity]`: the stored count, `0` for a missing key. -/
def countOf (counts : List (String × Int)) (activity : String) : Int :=
  (counts.lookup activity).getD 0

/-- The score loop of `case SortActivity`: starts at `-1` and adds the count of every
activity of the row. -/
def rawActivityScore (counts : List (String × Int)) (activities : List String) : Int :=
  activities.foldl (fun score activity => score + countOf counts activity) (-1)

/-- The score of `case SortActivity` after the `-1` replacement by the sum of all counts. -/
def activityScore (counts : List (String × Int)) (activities : List String) : Int :=
  if rawActivityScore counts activities = -1 then (counts.map Prod.snd).sum
  else rawActivityScore counts activities

/-- The `case SortActivity` block: its result, or `none` when it falls through. -/
def activityOrder (st : State) (left right : Index) : Option Bool :=
  let leftScore := activityScore st.activityTaskCounts left.data.activities
  let rightScore := activityScore st.activityTaskCounts right.data.activities
  if leftScore ≠ rightScore then some (decide (leftScore > rightScore)) else none

/-- The `default` block. The source declares `rightSortString` twice; the comparison
uses the second declaration, `AppName + DisplayRole`. -/
def defaultOrder (m : Models) (st : State) (left right : Index) : Bool :=
  if st.sortMode = SortMode.SortDisabled then decide (left.row < right.row)
  else
    let leftSortString := if left.data.appName = "" then left.data.display else left.data.appName
    let rightSortString := right.data.appName ++ right.data.display
    decide (m.localeAwareCompare leftSortString rightSortString < 0)

/-- `TasksModel::Private::lessThan(left, right, sortOnlyLaunchers)`. -/
def Private.lessThan (m : Models) (st : State) (left right : Index) (sortOnlyLaunchers : Bool) :
    Bool :=
  match launcherOrder m st left right with
  | some result => result
  | none =>
    if sortOnlyLaunchers && !st.sortedPreFilterRows.isEmpty then
      decide (indexOf st.sortedPreFilterRows left.row < indexOf st.sortedPreFilterRows right.row)
    else
      match st.sortMode with
      | SortMode.SortVirtualDesktop =>
        match virtualDesktopOrder left right with
        | some result => result
        | none =>
          match activityOrder st left right with
          | some result => result
          | none => defaultOrder m st left right
      | SortMode.SortActivity =>
        match activityOrder st left right with
        | some result => result
        | none => defaultOrder m st left right
      | _ => defaultOrder m st left right

/-- `TasksModel::lessThan(left, right)`; `leftPreFilterRow` and `rightPreFilterRow` are
the rows of `d->preFilterIndex(left)` and `d->preFilterIndex(right)`. -/
def TasksModel.lessThan (m : Models) (st : State) (left right : Index)
    (leftPreFilterRow rightPreFilterRow : Int) : Bool :=
  if st.sortMode = SortMode.SortManual then
    decide (indexOf st.sortedPreFilterRows leftPreFilterRow
      < indexOf st.sortedPreFilterRows rightPreFilterRow)
  else Private.lessThan m st left right false

/-- Code-point comparison of two character sequences, as a three-way result. -/
def compareCodePoints : List Char → List Char → Int
  | [], [] => 0
  | [], _ :: _ => -1
  | _ :: _, [] => 1
  | a :: as, b :: bs =>
    if a.toNat < b.toNat then -1
    else if a.toNat > b.toNat then 1
    else compareCodePoints as bs

/-- What `QString::localeAwareCompare` computes in the C locale. -/
def codePointCompare (a b : String) : Int := compareCodePoints a.toList b.toList

/-! ## `filterAcceptsRow` -/

/-- The identity test written out in `filterAcceptsRow` and in the grouping proxy's
`rowsInserted` handler. -/
def identityMatches (appId appName : String) (other : TaskData) : Bool :=
  (!(appId = "") && appId == other.appId) || (!(appName = "") && appName == other.appName)

/-- `TasksModel::filterAcceptsRow(sourceRow, sourceParent)`; `sourceParentValid` is
`sourceParent.isValid()`. -/
def filterAcceptsRow (m : Models) (st : State) (sourceRow : Int) (sourceParentValid : Bool) :
    Bool :=
  if sourceParentValid then true
  else
    let sourceIndex := dataAt m.source sourceRow
    if st.groupInline && st.flattenGroupsProxyModel && sourceIndex.isGroupParent then false
    else if sourceIndex.isStartup
        && m.filter.any (fun filterIndex =>
          filterIndex.isWindow && identityMatches sourceIndex.appId sourceIndex.appName filterIndex) then
      false
    else if sourceIndex.isLauncher
        && m.filter.any (fun filteredIndex =>
          (filteredIndex.isWindow || filteredIndex.isStartup) && m.appsMatch sourceIndex filteredIndex) then
      false
    else true

/-- Modelled from the spec: `appsMatch` of `tasktools`, which is not among the sources:
two rows are the same application if their `AppId`s match (when present) or, failing
that, their `AppName`s match (when present). -/
def appsMatchSpec (a b : TaskData) : Bool :=
  (!(a.appId = "") && a.appId == b.appId) || (!(a.appName = "") && a.appName == b.appName)

/-! ## Sorting -/

/-! ### `std::stable_sort`

The sort is the one of libstdc++ (`bits/stl_algo.h`), followed step by step, so that the
result is the library's also for a comparator that is not a strict weak ordering, where
the C++ standard leaves it open. Ranges are lists; a loop that walks a range in steps is
a function with a counter that is at least the number of its rounds. -/

/-- `std::__unguarded_linear_insert`: `val` moves towards the front past every element it
is less than. The sorted range before `val` is given last element first, and so is the
result. -/
def unguardedLinearInsert {α : Type} (comp : α → α → Bool) (val : α) : List α → List α
  | [] => [val]
  | next :: rest =>
    if comp val next then next :: unguardedLinearInsert comp val rest else val :: next :: rest

/-- One round of the loop of `std::__insertion_sort`: an element less than the first
one of the range goes to the front, any other is inserted from the back. The sorted part
is kept last element first. -/
def insertionSortStep {α : Type} (comp : α → α → Bool) (sortedRev : List α) (val : α) : List α :=
  match sortedRev.getLast? with
  | none => [val]
  | some first =>
    if comp val first then sortedRev ++ [val] else unguardedLinearInsert comp val sortedRev

/-- `std::__insertion_sort`. -/
def insertionSort {α : Type} (comp : α → α → Bool) (l : List α) : List α :=
  (l.foldl (insertionSortStep comp) []).reverse

/-- `std::__chunk_insertion_sort`: every full chunk of `chunkSize` elements is sorted on
its own, and so is what remains. -/
def chunkInsertionSort {α : Type} (comp : α → α → Bool) (chunkSize : Nat) :
    Nat → List α → List α
  | 0, l => insertionSort comp l
  | fuel + 1, l =>
    if chunkSize ≤ l.length then
      insertionSort comp (l.take chunkSize)
        ++ chunkInsertionSort comp chunkSize fuel (l.drop chunkSize)
    else insertionSort comp l

/-- The loop of `std::__move_merge` and of `std::__move_merge_adaptive`, with the copy
of what remains: the head of the second range is taken when it is less than the head of
the first one. -/
def moveMergeLoop {α : Type} (comp : α → α → Bool) : Nat → List α → List α → List α
  | 0, l1, l2 => l1 ++ l2
  | _ + 1, [], l2 => l2
  | _ + 1, l1, [] => l1
  | fuel + 1, x :: l1, y :: l2 =>
    if comp y x then y :: moveMergeLoop comp fuel (x :: l1) l2
    else x :: moveMergeLoop comp fuel l1 (y :: l2)

/-- `std::__move_merge`, `std::__move_merge_adaptive`. -/
def moveMerge {α : Type} (comp : α → α → Bool) (l1 l2 : List α) : List α :=
  moveMergeLoop comp (l1.length + l2.length) l1 l2

/-- The loop of `std::__move_merge_adaptive_backward`, which fills the result from the
back: the last element of the first range is taken when the last element of the second
one is less than it. Both ranges, and the result, are given last element first. -/
def moveMergeBackwardLoop {α : Type} (comp : α → α → Bool) : Nat → List α → List α → List α
  | 0, r1, r2 => r2 ++ r1
  | _ + 1, [], r2 => r2
  | _ + 1, r1, [] => r1
  | fuel + 1, a :: r1, b :: r2 =>
    if comp b a then a :: moveMergeBackwardLoop comp fuel r1 (b :: r2)
    else b :: moveMergeBackwardLoop comp fuel (a :: r1) r2

/-- `std::__move_merge_adaptive_backward`. -/
def moveMergeAdaptiveBackward {α : Type} (comp : α → α → Bool) (l1 l2 : List α) : List α :=
  (moveMergeBackwardLoop comp (l1.length + l2.length) l1.reverse l2.reverse).reverse

/-- `std::__merge_adaptive` with a buffer that holds the shorter range: the first range
is buffered and merged forwards when it is not the longer one, otherwise the second range
is buffered and merged backwards. -/
def mergeAdaptive {α : Type} (comp : α → α → Bool) (l1 l2 : List α) : List α :=
  if l1.length ≤ l2.length then moveMerge comp l1 l2 else moveMergeAdaptiveBackward comp l1 l2

/-- `std::__merge_sort_loop`: neighbouring runs of `stepSize` elements are merged two by
two; what is left over, less than two runs, is merged at the end. -/
def mergeSortLoop {α : Type} (comp : α → α → Bool) (stepSize : Nat) : Nat → List α → List α
  | 0, l => moveMerge comp (l.take (min l.length stepSize)) (l.drop (min l.length stepSize))
  | fuel + 1, l =>
    if 2 * stepSize ≤ l.length then
      moveMerge comp (l.take stepSize) ((l.drop stepSize).take stepSize)
        ++ mergeSortLoop comp stepSize fuel (l.drop (2 * stepSize))
    else moveMerge comp (l.take (min l.length stepSize)) (l.drop (min l.length stepSize))

/-- The `while (__step_size < __len)` loop of `std::__merge_sort_with_buffer`: one pass
into the buffer and one pass back, the step doubling with each. -/
def mergeSortPasses {α : Type} (comp : α → α → Bool) : Nat → Nat → List α → List α
  | 0, _, l => l
  | fuel + 1, stepSize, l =>
    if stepSize < l.length then
      mergeSortPasses comp fuel (stepSize * 2 * 2)
        (mergeSortLoop comp (stepSize * 2) l.length (mergeSortLoop comp stepSize l.length l))
    else l

/-- `std::__merge_sort_with_buffer`, with `_S_chunk_size = 7`. -/
def mergeSortWithBuffer {α : Type} (comp : α → α → Bool) (l : List α) : List α :=
  mergeSortPasses comp l.length 7 (chunkInsertionSort comp 7 l.length l)

/-- `std::stable_sort(first, last, lt)`: `std::__stable_sort` with the temporary buffer
for half of the range obtained, that is `std::__stable_sort_adaptive`: the range is cut
at `(len + 1) / 2`, both halves are sorted with `std::__merge_sort_with_buffer` and then
merged with `std::__merge_adaptive`. -/
def stableSort {α : Type} (lt : α → α → Bool) (l : List α) : List α :=
  if l.isEmpty then l
  else
    let len := (l.length + 1) / 2
    mergeAdaptive lt (mergeSortWithBuffer lt (l.take len)) (mergeSortWithBuffer lt (l.drop len))

/-- The state of a range between two passes of the merge sort: runs of `stepSize`
elements, the last one possibly shorter, each ordered by `T`, with every element of a run
standing in relation `S` to the elements of the runs after it. -/
inductive SortedBlocks {α : Type} (T S : α → α → Prop) (stepSize : Nat) : List α → Prop
  | last (a : List α) : a.length ≤ stepSize → a.Pairwise T → SortedBlocks T S stepSize a
  | block (a rest : List α) : a.length = stepSize → a.Pairwise T →
      (∀ x ∈ a, ∀ y ∈ rest, S x y) → SortedBlocks T S stepSize rest →
      SortedBlocks T S stepSize (a ++ rest)

/-- A row of `sourceModel()` as `TasksModel::lessThan` sees it: the index and the row of
`d->preFilterIndex(index)`. -/
structure SourceRow where
  index : Index
  preFilterRow : Int
  deriving DecidableEq, Repr

/-- The comparator pass that `forceResort()` sets off by switching the dynamic sort
filter off and on: `QSortFilterProxyModel` sorts its current row order again, with
`std::stable_sort` and `TasksModel::lessThan`. -/
def forceResort (m : Models) (st : State) (order : List SourceRow) : List SourceRow :=
  stableSort
    (fun a b => TasksModel.lessThan m st a.index b.index a.preFilterRow b.preFilterRow) order

/-! ## `updateManualSortMap` -/

/-- `concatProxyModel->index(row, 0)`. -/
def concatIndex (m : Models) (row : Int) : Index :=
  { row := row, data := dataAt m.concat row }

/-- `TasksModelLessThan::operator()` over the rows of `concatProxyModel`. -/
def TasksModelLessThan (m : Models) (st : State) (sortOnlyLaunchers : Bool) (r1 r2 : Int) : Bool :=
  Private.lessThan m st (concatIndex m r1) (concatIndex m r2) sortOnlyLaunchers

/-- The map after the "full sort" of `updateManualSortMap` on an empty map, before the
groups are consolidated: the rows `0 .. rowCount - 1`, stably sorted with
`TasksModelLessThan lt(concatProxyModel, q, false)`. -/
def seedManualSortMap (m : Models) (st : State) : List Int :=
  stableSort (TasksModelLessThan m st false) (intRange 0 ((m.concat.length : Int) - 1))

/-- The rank by which the comparator orders a row in `Disabled` mode without
launch-in-place, ahead of the row number: `0` for a
launcher when launchers are separated, `1` otherwise. -/
def launcherRank (m : Models) (st : State) (row : Int) : Int :=
  if st.separateLaunchers && (dataAt m.concat row).isLauncher then 0 else 1

/-- The consolidation loop of `updateManualSortMap` over the top-level grouping rows. -/
def consolidateGroups : List GroupNode → List Int → Option (List Int)
  | [], rows => some rows
  | node :: rest, rows =>
    if node.isGroupParent then
      match consolidateManualSortMapForGroup node.children rows with
      | none => none
      | some rows1 => consolidateGroups rest rows1
    else consolidateGroups rest rows

/-- The search for the right-most app sibling: the loop `for (i = row - 1; i >= 0; --i)`,
`k` being `i + 1`. The result is the position found, if any. -/
def findAppSibling (m : Models) (idx : TaskData) : Nat → List Int → Option (Option Int)
  | 0, _ => some none
  | k + 1, rows =>
    match getRow rows (k : Int) with
    | none => none
    | some r =>
      if m.appsMatch (dataAt m.concat r) idx then some (some (k : Int))
      else findAppSibling m idx k rows

/-- The loop over the map entries before `row` that finds the position after the
leading launchers and launcher-backed tasks; `i` is the position of the first entry of
the list. -/
def launcherInsertPos (m : Models) : List Int → Int → Int → Option Int
  | [], _, insertPos => some insertPos
  | r :: rest, i, insertPos =>
    let concatProxyIndex := dataAt m.concat r
    if concatProxyIndex.isLauncher then launcherInsertPos m rest (i + 1) (i + 1)
    else
      match m.launcher with
      | none => none
      | some l =>
        if l.launcherPosition concatProxyIndex.launcherUrlWithoutIcon ≠ -1 then
          launcherInsertPos m rest (i + 1) (i + 1)
        else some insertPos

/-- The backwards loop that moves the windows with the new launcher's URL to the
launcher's position, the first time a launcher list is sorted in; `k` is the loop
variable plus one. -/
def moveBackedWindows (m : Models) (launcherUrl : String) :
    Nat → List Int → Int → Option (List Int × Int)
  | 0, rows, insertPos => some (rows, insertPos)
  | k + 1, rows, insertPos =>
    match getRow rows (k : Int) with
    | none => none
    | some r =>
      let concatProxyIndex := dataAt m.concat r
      if !concatProxyIndex.isLauncher && launcherUrl == concatProxyIndex.launcherUrlWithoutIcon then
        match qlistMove rows (k : Int) insertPos with
        | none => none
        | some rows1 =>
          moveBackedWindows m launcherUrl k rows1
            (if insertPos > (k : Int) then insertPos - 1 else insertPos)
      else moveBackedWindows m launcherUrl k rows insertPos

/-- The body of the `while (sortRowInsertQueue.count())` loop for the queue entry `row`. -/
def placeQueuedRow (m : Models) (st : State) (rows : List Int) (row : Int) : Option (List Int) :=
  match getRow rows row with
  | none => none
  | some r =>
    let idx := dataAt m.concat r
    let afterSibling : Option (List Int × Bool) :=
      if st.launchersEverSet && !idx.isLauncher then
        match findAppSibling m idx row.toNat rows with
        | none => none
        | some (some i) => (qlistMove rows row (i + 1)).map (fun rows1 => (rows1, true))
        | some none => some (rows, false)
      else some (rows, false)
    match afterSibling with
    | none => none
    | some (rows1, moved1) =>
      let afterLauncher : Option (List Int × Bool × Int) :=
        if !moved1 && idx.isLauncher then
          match launcherInsertPos m (rows1.take row.toNat) 0 0 with
          | none => none
          | some insertPos =>
            (qlistMove rows1 row insertPos).map (fun rows2 => (rows2, true, insertPos))
        else some (rows1, moved1, 0)
      match afterLauncher with
      | none => none
      | some (rows2, moved2, insertPos) =>
        if moved2 && !st.launchersEverSet then
          (moveBackedWindows m idx.launcherUrlWithoutIcon rows2.length rows2 insertPos).map
            Prod.fst
        else some rows2

/-- The `while (sortRowInsertQueue.count())` loop, taking the entries first to last. -/
def processInsertQueue (m : Models) (st : State) : List Int → List Int → Option (List Int)
  | [], rows => some rows
  | row :: queue, rows =>
    match placeQueuedRow m st rows row with
    | none => none
    | some rows1 => processInsertQueue m st queue rows1

/-- `TasksModel::Private::updateManualSortMap`. In the "sort only launchers" branch the
comparator reads the map as it stood when the sort began. -/
def updateManualSortMap (m : Models) (st : State) : Option State :=
  if st.sortedPreFilterRows.isEmpty then
    let sorted := seedManualSortMap m st
    let consolidated :=
      if m.groupMode ≠ GroupMode.GroupDisabled then consolidateGroups m.grouping sorted
      else some sorted
    consolidated.map (fun rows => { st with sortedPreFilterRows := rows })
  else if st.separateLaunchers then
    some { st with
      sortedPreFilterRows := stableSort (TasksModelLessThan m st true) st.sortedPreFilterRows }
  else
    (processInsertQueue m st st.sortRowInsertQueue st.sortedPreFilterRows).map
      (fun rows => { st with sortedPreFilterRows := rows, sortRowInsertQueue := [] })

/-! ## Activity task counts -/

/-- `QHash<QString, int>::insert(key, value)`: the value of a key already present is
replaced. -/
def qhashInsert : List (String × Int) → String → Int → List (String × Int)
  | [], key, value => [(key, value)]
  | (k, v) :: rest, key, value =>
    if key = k then (k, value) :: rest else (k, v) :: qhashInsert rest key value

/-- `++hash[key]`: a missing key is inserted with `0` first. -/
def qhashIncrement : List (String × Int) → String → List (String × Int)
  | [], key => [(key, 1)]
  | (k, v) :: rest, key =>
    if key = k then (k, v + 1) :: rest else (k, v) :: qhashIncrement rest key

/-- The `QMutableHashIterator` loop that adds one to every stored value. -/
def qhashIncrementAll (hash : List (String × Int)) : List (String × Int) :=
  hash.map (fun entry => (entry.1, entry.2 + 1))

/-- The body of the window loop of `updateActivityTaskCounts` for one window task. -/
def countWindow (hash : List (String × Int)) (window : TaskData) : List (String × Int) :=
  if window.activities.isEmpty then qhashIncrementAll hash
  else window.activities.foldl qhashIncrement hash

/-- `TasksModel::Private::updateActivityTaskCounts`. -/
def updateActivityTaskCounts (m : Models) (sh : Shared) (st : State) : State :=
  if !sh.windowTasksModel || !sh.activityInfo then { st with activityTaskCounts := [] }
  else
    let running := m.runningActivities.foldl (fun hash activity => qhashInsert hash activity 0) []
    { st with activityTaskCounts := m.windows.foldl countWindow running }

/-! ## `setSortMode` -/

/-- `TasksModel::setSortMode(mode)`: the shared and the instance state afterwards;
`none` when an asserted list position is out of range. -/
def setSortMode (m : Models) (sh : Shared) (st : State) (mode : SortMode) :
    Option (Shared × State) :=
  if st.sortMode ≠ mode then
    let afterMap : Option State :=
      if mode = SortMode.SortManual then updateManualSortMap m st
      else if st.sortMode = SortMode.SortManual then some { st with sortedPreFilterRows := [] }
      else some st
    match afterMap with
    | none => none
    | some st1 =>
      if mode = SortMode.SortActivity then
        let sh1 := { sh with activityInfo := true, activityInfoUsers := sh.activityInfoUsers + 1 }
        some (sh1, { updateActivityTaskCounts m sh1 st1 with sortMode := mode })
      else if st.sortMode = SortMode.SortActivity then
        let users := sh.activityInfoUsers - 1
        let sh1 := { sh with activityInfoUsers := users,
                             activityInfo := if users = 0 then false else sh.activityInfo }
        some (sh1, { st1 with activityTaskCounts := [], sortMode := mode })
      else some (sh, { st1 with sortMode := mode })
  else some (sh, st)

/-! ## Construction, destruction, the setters and the launcher requests -/

/-- `TasksModel::Private::Private` and the shared part of `initModels`: the instance is
counted, the shared window and startup models are created when missing, and the
instance starts with the default member values. -/
def construct (sh : Shared) : Shared × State :=
  ({ sh with instanceCount := sh.instanceCount + 1, windowTasksModel := true,
             startupTasksModel := true }, {})

/-- `TasksModel::Private::~Private` for an instance in state `st`. -/
def destroy (sh : Shared) (st : State) : Shared :=
  let instanceCount := sh.instanceCount - 1
  let activityInfoUsers :=
    if st.sortMode = SortMode.SortActivity then sh.activityInfoUsers - 1 else sh.activityInfoUsers
  if instanceCount = 0 then
    { instanceCount := instanceCount, windowTasksModel := false, startupTasksModel := false,
      activityInfo := false, activityInfoUsers := activityInfoUsers }
  else
    { sh with instanceCount := instanceCount, activityInfoUsers := activityInfoUsers }

/-- The `rowsInserted` handler connected to `concatProxyModel` in `initModels`; `m` holds
the models after the insertion. -/
def rowsInserted (m : Models) (st : State) : Option State :=
  if st.sortMode = SortMode.SortManual then updateManualSortMap m st else some st

/-- `TasksModel::setSeparateLaunchers(separate)`. -/
def setSeparateLaunchers (m : Models) (st : State) (separate : Bool) : Option State :=
  if st.separateLaunchers ≠ separate then
    updateManualSortMap m { st with separateLaunchers := separate }
  else some st

/-- `TasksModel::setLaunchInPlace(launchInPlace)`. -/
def setLaunchInPlace (st : State) (launchInPlace : Bool) : State :=
  if st.launchInPlace ≠ launchInPlace then { st with launchInPlace := launchInPlace } else st

/-- `TasksModel::requestAddLauncher(url)` and `requestAddLauncherToActivity`; `added` is
what the launcher source answers, `m` holds the models after the request. -/
def requestAddLauncher (m : Models) (st : State) (added : Bool) : Option (Bool × State) :=
  if added && decide (st.sortMode = SortMode.SortManual)
      && (st.launchInPlace || !st.separateLaunchers) then
    (updateManualSortMap m st).map (fun st1 => (added, st1))
  else some (added, st)

/-- `TasksModel::requestRemoveLauncher(url)` and `requestRemoveLauncherFromActivity`;
`removed` is what the launcher source answers, `m` holds the models after the request. -/
def requestRemoveLauncher (m : Models) (st : State) (removed : Bool) : Option (Bool × State) :=
  match m.launcher with
  | none => some (false, st)
  | some _ =>
    if removed && decide (st.sortMode = SortMode.SortManual)
        && (st.launchInPlace || !st.separateLaunchers) then
      (updateManualSortMap m st).map (fun st1 => (removed, st1))
    else some (removed, st)

/-- What a sort-map update of `move` that went through yields: a rearrangement of `rows`. -/
def MapUpdate.PermOf (rows : List Int) : MapUpdate → Prop
  | MapUpdate.rejected => True
  | MapUpdate.moved rows1 _ => List.Perm rows1 rows

/-! ## Example rows, models and states -/

/-- A pinned launcher for application A. -/
def launcherA : TaskData :=
  { appId := "a", appName := "A", launcherUrl := "applications:a.desktop",
    launcherUrlWithoutIcon := "applications:a.desktop", isLauncher := true }

/-- A pinned launcher for application B. -/
def launcherB : TaskData :=
  { appId := "b", appName := "B", launcherUrl := "applications:b.desktop",
    launcherUrlWithoutIcon := "applications:b.desktop", isLauncher := true }

/-- A window of an application without a launcher. -/
def windowW : TaskData := { appId := "w", appName := "W", display := "W - document", isWindow := true }

/-- The launcher position in the list `[A, B]`. -/
def examplePosition (url : String) : Int :=
  if url = "applications:a.desktop" then 0
  else if url = "applications:b.desktop" then 1
  else -1

/-- The launcher source holding the launcher list `[A, B]`, added to the concatenation
after one window row. -/
def exampleLauncherSource : LauncherSource :=
  { rows := [launcherA, launcherB]
    launcherList := ["applications:a.desktop", "applications:b.desktop"]
    launcherPosition := examplePosition
    firstConcatRow := 1 }

/-- One window (pre-filter row 0) and the launchers A, B (pre-filter rows 1, 2), shown
as A, B, W. -/
def exampleModels : Models :=
  { concat := [windowW, launcherA, launcherB]
    filter := [windowW, launcherA, launcherB]
    source := [windowW, launcherA, launcherB]
    grouping := [{ preFilterRow := 0 }, { preFilterRow := 1 }, { preFilterRow := 2 }]
    shown := [{ data := launcherA, source := GroupingIndex.top 1 },
              { data := launcherB, source := GroupingIndex.top 2 },
              { data := windowW, source := GroupingIndex.top 0 }]
    launcher := some exampleLauncherSource
    groupMode := GroupMode.GroupDisabled
    appsMatch := appsMatchSpec
    launcherUrlOf := id
    launcherUrlsMatch := fun a b => a == b
    localeAwareCompare := codePointCompare }

/-- Manual sort mode with separate launchers; the map shows A, B, W. -/
def exampleState : State :=
  { sortMode := SortMode.SortManual, launcherCount := 2, sortedPreFilterRows := [1, 2, 0] }

/-- The state `move(0, 1)` leaves behind: launcher A moved behind launcher B. -/
def movedState : State :=
  { sortMode := SortMode.SortManual, launcherCount := 2, sortedPreFilterRows := [2, 1, 0],
    launcherSortingDirty := true }

/-- The models after the resort that follows `move(0, 1)`: the rows are shown as B, A, W. -/
def movedModels : Models :=
  { exampleModels with
    shown := [{ data := launcherB, source := GroupingIndex.top 2 },
              { data := launcherA, source := GroupingIndex.top 1 },
              { data := windowW, source := GroupingIndex.top 0 }] }

/-- Two windows of one application, grouped and shown inline. -/
def inlineModels : Models :=
  { concat := [windowW, windowW]
    filter := [windowW, windowW]
    source := [windowW, windowW]
    grouping := [{ preFilterRow := 0, children := [0, 1], isGroupParent := true }]
    shown := [{ data := windowW, source := GroupingIndex.child 0 0 },
              { data := windowW, source := GroupingIndex.child 0 1 }]
    launcher := none
    groupMode := GroupMode.GroupApplications
    appsMatch := appsMatchSpec
    launcherUrlOf := id
    launcherUrlsMatch := fun a b => a == b
    localeAwareCompare := codePointCompare }

/-- Manual sort mode with inline grouping and launchers not separated. -/
def inlineState : State :=
  { sortMode := SortMode.SortManual, separateLaunchers := false, groupInline := true,
    flattenGroupsProxyModel := true, sortedPreFilterRows := [0, 1] }

/-- Alphabetical sort mode, the defaults otherwise. -/
def alphaState : State := { sortMode := SortMode.SortAlpha }

/-- A Firefox window, the first row of the source. -/
def firefoxWikipedia : Index :=
  { row := 0, data := { appId := "firefox", appName := "Firefox",
                        display := "Wikipedia - Mozilla Firefox", isWindow := true } }

/-- A second Firefox window, created later. -/
def firefoxKde : Index :=
  { row := 1, data := { appId := "firefox", appName := "Firefox",
                        display := "KDE - Mozilla Firefox", isWindow := true } }

/-- A window of another application whose name starts with "Firefox". -/
def firefoxDeveloper : Index :=
  { row := 1, data := { appId := "firefox-dev", appName := "Firefox Developer Edition",
                        display := "Inspector - Firefox Developer Edition", isWindow := true } }

/-- A startup notification of Dolphin. -/
def dolphinStartup : TaskData :=
  { appId := "org.kde.dolphin", appName := "Dolphin", display := "Dolphin", isStartup := true }

/-- A Dolphin window. -/
def dolphinWindow : TaskData :=
  { appId := "org.kde.dolphin", appName := "Dolphin", display := "Home - Dolphin", isWindow := true }

/-- A pinned Dolphin launcher. -/
def dolphinLauncher : TaskData :=
  { appId := "org.kde.dolphin", appName := "Dolphin", display := "Dolphin",
    launcherUrl := "applications:org.kde.dolphin.desktop",
    launcherUrlWithoutIcon := "applications:org.kde.dolphin.desktop", isLauncher := true }

/-- A Dolphin window, its startup notification and its launcher, all past the filter
stage; the source rows are the startup (row 0), the launcher (row 1) and the window. -/
def dolphinModels : Models :=
  { exampleModels with
    concat := [dolphinWindow, dolphinStartup, dolphinLauncher]
    filter := [dolphinWindow, dolphinStartup, dolphinLauncher]
    source := [dolphinStartup, dolphinLauncher, dolphinWindow] }

/-! ## Example rows and states for the comparator and the seeded map -/

/-- A window of application A, whose launcher is in the launcher list. -/
def windowOfA : Index :=
  { row := 0, data := { appId := "a", appName := "A", display := "A - document",
                        launcherUrl := "applications:a.desktop",
                        launcherUrlWithoutIcon := "applications:a.desktop", isWindow := true } }

/-- Launch-in-place sorting with separate launchers, Alpha mode. -/
def launchInPlaceState : State := { sortMode := SortMode.SortAlpha, launchInPlace := true }

/-- VirtualDesktop sort mode, the defaults otherwise. -/
def virtualDesktopState : State := { sortMode := SortMode.SortVirtualDesktop }

/-- A window on desktop 1. -/
def windowOnDesktopOne : Index :=
  { row := 0, data := { appId := "kate", appName := "Kate", display := "notes - Kate",
                        isWindow := true, virtualDesktop := some 1 } }

/-- A window on desktop 2. -/
def windowOnDesktopTwo : Index :=
  { row := 2, data := { appId := "okular", appName := "Okular", display := "paper - Okular",
                        isWindow := true, virtualDesktop := some 2 } }

/-- A startup notification, which has no desktop. -/
def startupWithoutDesktop : Index :=
  { row := 1, data := { appId := "konsole", appName := "Konsole", display := "Konsole",
                        isStartup := true } }

/-- Activity sort mode with launchers not separated; one window is on "work", none
on "home". -/
def activityState : State :=
  { sortMode := SortMode.SortActivity, separateLaunchers := false,
    activityTaskCounts := [("work", 1), ("home", 0)] }

/-- The window on the activity "work". -/
def windowOnWork : Index :=
  { row := 0, data := { appId := "kate", appName := "Kate", display := "notes - Kate",
                        isWindow := true, activities := ["work"] } }

/-- A launcher pinned on the activity "home". -/
def launcherOnHome : Index :=
  { row := 1, data := { appId := "okular", appName := "Okular", display := "Okular",
                        launcherUrl := "applications:okular.desktop",
                        launcherUrlWithoutIcon := "applications:okular.desktop",
                        isLauncher := true, activities := ["home"] } }

/-- Activity sort mode; the only running activity "work" counts two window tasks: one
assigned to it and one without activities. -/
def totalState : State :=
  { sortMode := SortMode.SortActivity, activityTaskCounts := [("work", 2)] }

/-- The window without activities. -/
def unassignedWindow : Index :=
  { row := 0, data := { appId := "zim", appName := "Zim", display := "notes - Zim",
                        isWindow := true } }

/-- The window assigned to "work", the only activity. -/
def assignedWindow : Index :=
  { row := 1, data := { appId := "ark", appName := "Ark", display := "files - Ark",
                        isWindow := true, activities := ["work"] } }

/-- The window source and the running activities behind `totalState`. -/
def totalModels : Models :=
  { exampleModels with
    windows := [unassignedWindow.data, assignedWindow.data]
    runningActivities := ["work"] }

/-- The shared state with the window source and the activity info present. -/
def activityShared : Shared :=
  { instanceCount := 1, windowTasksModel := true, startupTasksModel := true,
    activityInfo := true, activityInfoUsers := 1 }

/-- Sorting disabled, the defaults otherwise (launchers are separated). -/
def disabledState : State := { sortMode := SortMode.SortDisabled }

/-- Two windows in the window source, Firefox created before Dolphin; no launchers,
no grouping. -/
def browserModels : Models :=
  { concat := [firefoxWikipedia.data, dolphinWindow]
    filter := [firefoxWikipedia.data, dolphinWindow]
    source := [firefoxWikipedia.data, dolphinWindow]
    grouping := [{ preFilterRow := 0 }, { preFilterRow := 1 }]
    shown := [{ data := dolphinWindow, source := GroupingIndex.top 1 },
              { data := firefoxWikipedia.data, source := GroupingIndex.top 0 }]
    launcher := none
    groupMode := GroupMode.GroupDisabled
    appsMatch := appsMatchSpec
    launcherUrlOf := id
    launcherUrlsMatch := fun a b => a == b
    localeAwareCompare := codePointCompare
    windows := [firefoxWikipedia.data, dolphinWindow] }

/-- Three windows of three applications: Firefox (row 0), W (row 1) and Dolphin
(row 2); no launchers, no grouping. -/
def threeWindowModels : Models :=
  { browserModels with
    concat := [firefoxWikipedia.data, windowW, dolphinWindow]
    windows := [firefoxWikipedia.data, windowW, dolphinWindow] }

/-- Three windows whose application names and titles run into each other: "Fire" with
the title "fox" (row 0), "Fire" with the title "wall" (row 1) and "Firefox" with the
title "B" (row 2). -/
def fireModels : Models :=
  { browserModels with
    concat := [{ appId := "fire", appName := "Fire", display := "fox", isWindow := true },
               { appId := "fire", appName := "Fire", display := "wall", isWindow := true },
               { appId := "firefox", appName := "Firefox", display := "B", isWindow := true }] }

/-- The shared state of one instance that is not in Activity mode. -/
def plainShared : Shared :=
  { instanceCount := 1, windowTasksModel := true, startupTasksModel := true }

/-- The two Firefox windows in source order, as rows of the source model. -/
def firefoxOrder : List SourceRow :=
  [{ index := firefoxWikipedia, preFilterRow := 0 }, { index := firefoxKde, preFilterRow := 1 }]

/-! ## Example models and states for moves, insertions and the setters -/

/-- A Firefox window on another virtual desktop, backed by the Firefox launcher. -/
def hiddenFirefoxWindow : TaskData :=
  { appId := "firefox", appName := "Firefox", display := "KDE - Mozilla Firefox",
    launcherUrl := "applications:firefox.desktop",
    launcherUrlWithoutIcon := "applications:firefox.desktop", isWindow := true }

/-- The pinned Firefox launcher. -/
def firefoxLauncher : TaskData :=
  { appId := "firefox", appName := "Firefox", display := "Firefox",
    launcherUrl := "applications:firefox.desktop",
    launcherUrlWithoutIcon := "applications:firefox.desktop", isLauncher := true }

/-- Two Firefox windows on another desktop (pre-filter rows 0 and 1), window W (row 2)
and the Firefox launcher (row 3); only W and the launcher pass the filter and are shown,
in that order. -/
def followModels : Models :=
  { concat := [hiddenFirefoxWindow, hiddenFirefoxWindow, windowW, firefoxLauncher]
    filter := [windowW, firefoxLauncher]
    source := [windowW, firefoxLauncher]
    grouping := [{ preFilterRow := 2 }, { preFilterRow := 3 }]
    shown := [{ data := windowW, source := GroupingIndex.top 0 },
              { data := firefoxLauncher, source := GroupingIndex.top 1 }]
    launcher := some
      { rows := [firefoxLauncher]
        launcherList := ["applications:firefox.desktop"]
        launcherPosition := fun url => if url = "applications:firefox.desktop" then 0 else -1
        firstConcatRow := 3 }
    groupMode := GroupMode.GroupDisabled
    appsMatch := appsMatchSpec
    launcherUrlOf := id
    launcherUrlsMatch := fun a b => a == b
    localeAwareCompare := codePointCompare
    windows := [hiddenFirefoxWindow, hiddenFirefoxWindow, windowW] }

/-- Manual mode, launchers not separated; the map holds W, the launcher and the two
hidden Firefox windows, in that order. -/
def followState : State :=
  { sortMode := SortMode.SortManual, separateLaunchers := false, launchersEverSet := true,
    launcherCount := 1, sortedPreFilterRows := [2, 3, 0, 1] }

/-- A second window, of another application without a launcher. -/
def windowV : TaskData := { appId := "v", appName := "V", display := "V - document", isWindow := true }

/-- Windows W and V (pre-filter rows 0 and 1) and the launchers A and B (rows 2 and 3),
shown as A, B, W, V. -/
def fourModels : Models :=
  { concat := [windowW, windowV, launcherA, launcherB]
    filter := [windowW, windowV, launcherA, launcherB]
    source := [windowW, windowV, launcherA, launcherB]
    grouping := [{ preFilterRow := 0 }, { preFilterRow := 1 }, { preFilterRow := 2 },
                 { preFilterRow := 3 }]
    shown := [{ data := launcherA, source := GroupingIndex.top 2 },
              { data := launcherB, source := GroupingIndex.top 3 },
              { data := windowW, source := GroupingIndex.top 0 },
              { data := windowV, source := GroupingIndex.top 1 }]
    launcher := some { exampleLauncherSource with firstConcatRow := 2 }
    groupMode := GroupMode.GroupDisabled
    appsMatch := appsMatchSpec
    launcherUrlOf := id
    launcherUrlsMatch := fun a b => a == b
    localeAwareCompare := codePointCompare
    windows := [windowW, windowV] }

/-- Manual mode with separate launchers; the map shows A, B, W, V. -/
def fourState : State :=
  { sortMode := SortMode.SortManual, launchersEverSet := true, launcherCount := 2,
    sortedPreFilterRows := [2, 3, 0, 1] }

/-- The models of `fourModels` after launcher A was moved behind launcher B: the rows
are shown as B, A, W, V. -/
def fourModelsMoved : Models :=
  { fourModels with
    shown := [{ data := launcherB, source := GroupingIndex.top 3 },
              { data := launcherA, source := GroupingIndex.top 2 },
              { data := windowW, source := GroupingIndex.top 0 },
              { data := windowV, source := GroupingIndex.top 1 }] }

/-- A Firefox window, a Dolphin window and a second Firefox window that has just been
inserted as the last row of the concatenation. -/
def insertedModels : Models :=
  { browserModels with
    concat := [firefoxWikipedia.data, dolphinWindow, firefoxKde.data]
    windows := [firefoxWikipedia.data, dolphinWindow, firefoxKde.data] }

/-- Manual mode with launchers not separated and no launcher list ever set; the map
holds the two rows that exist before the insertion. -/
def neverSetState : State :=
  { sortMode := SortMode.SortManual, separateLaunchers := false, sortedPreFilterRows := [0, 1] }

end TaskManager

/-! # `ScreenPool` (`src/shell/screenpool.cpp`) -/

/-- The members of `ScreenPool`: `m_connectorForId` is a `QMap<int, QString>` (an
association list with ascending keys), `m_idForConnector` a hash from connector to id,
`config` the entries of the "ScreenConnectors" configuration group. -/
structure ScreenPool where
  primaryConnector : String := ""
  connectorForId : List (Int × String) := []
  idForConnector : List (String × Int) := []
  config : List (String × String) := []
  deriving DecidableEq, Repr

/-- The loop of `firstAvailableId` over the remaining keys, `i` being the counter. -/
def ScreenPool.firstAvailableIdLoop : List Int → Int → Int
  | [], i => i
  | existingId :: rest, i =>
    if i ≠ existingId then i else ScreenPool.firstAvailableIdLoop rest (i + 1)

/-- `ScreenPool::firstAvailableId`. -/
def ScreenPool.firstAvailableId (p : ScreenPool) : Int :=
  ScreenPool.firstAvailableIdLoop (p.connectorForId.map Prod.fst) 0

/-- `KConfigGroup::writeEntry(key, value)`. -/
def ScreenPool.writeEntry : List (String × String) → String → String → List (String × String)
  | [], key, value => [(key, value)]
  | (k, v) :: rest, key, value =>
    if key = k then (k, value) :: rest else (k, v) :: ScreenPool.writeEntry rest key value

/-- `ScreenPool::save`: every id-to-connector pair is written to the configuration
group; `number` is `QString::number`. -/
def ScreenPool.save (number : Int → String) (p : ScreenPool) : ScreenPool :=
  { p with
    config := p.connectorForId.foldl
      (fun config entry => ScreenPool.writeEntry config (number entry.1) entry.2) p.config }

/-- `ScreenPool::insertScreenMapping(id, connector)`; `none` when one of its two
assertions fails. -/
def ScreenPool.insertScreenMapping (number : Int → String) (p : ScreenPool) (id : Int)
    (connector : String) : Option ScreenPool :=
  if (p.connectorForId.lookup id = none ∨ p.connectorForId.lookup id = some connector)
      ∧ (p.idForConnector.lookup connector = none ∨ p.idForConnector.lookup connector = some id) then
    some (ScreenPool.save number
      { p with
        primaryConnector := if id = 0 then connector else p.primaryConnector
        connectorForId := TaskManager.qmapInsert p.connectorForId id connector
        idForConnector := TaskManager.qhashInsert p.idForConnector connector id })
  else none

/-- The body of the loop of `load` that restores the known mappings, for one key of the
configuration group; `toInt` is `QString::toInt`. -/
def ScreenPool.restoreKey (toInt : String → Int) (p : ScreenPool) (key : String) : ScreenPool :=
  let connector := (p.config.lookup key).getD ""
  if key ≠ "" ∧ connector ≠ "" ∧ p.connectorForId.lookup (toInt key) = none
      ∧ p.idForConnector.lookup connector = none then
    { p with
      connectorForId := TaskManager.qmapInsert p.connectorForId (toInt key) connector
      idForConnector := TaskManager.qhashInsert p.idForConnector connector (toInt key) }
  else if (p.idForConnector.lookup connector).getD 0 ≠ toInt key then
    { p with config := p.config.filter (fun entry => entry.1 ≠ key) }
  else p

/-- The last loop of `load`: every connected screen without an id gets the first
available one. -/
def ScreenPool.mapScreens (number : Int → String) : List String → ScreenPool → Option ScreenPool
  | [], p => some p
  | screen :: rest, p =>
    if p.idForConnector.lookup screen = none then
      match ScreenPool.insertScreenMapping number p p.firstAvailableId screen with
      | none => none
      | some p1 => ScreenPool.mapScreens number rest p1
    else ScreenPool.mapScreens number rest p

/-- The part of `ScreenPool::load` before the connected screens are mapped: the maps
are cleared, the primary screen (if any, `primary` being its name) gets id 0 and the
mappings of the configuration group are restored. -/
def ScreenPool.restore (toInt : String → Int) (p : ScreenPool) (primary : Option String) :
    ScreenPool :=
  let cleared : ScreenPool :=
    match primary with
    | some name =>
      if name ≠ "" then
        { p with primaryConnector := name, connectorForId := [(0, name)],
                 idForConnector := [(name, 0)] }
      else { p with primaryConnector := name, connectorForId := [], idForConnector := [] }
    | none => { p with primaryConnector := "", connectorForId := [], idForConnector := [] }
  (cleared.config.map Prod.fst).foldl (ScreenPool.restoreKey toInt) cleared

/-- `ScreenPool::load`; `primary` is the name of the primary screen, `screens` are the
names of the connected screens. -/
def ScreenPool.load (toInt : String → Int) (number : Int → String) (p : ScreenPool)
    (primary : Option String) (screens : List String) : Option ScreenPool :=
  ScreenPool.mapScreens number screens (ScreenPool.restore toInt p primary)

/-- The value of a string of decimal digits. -/
def ScreenPool.digitsValue : List Char → Nat → Option Nat
  | [], acc => some acc
  | c :: rest, acc =>
    if 48 ≤ c.toNat ∧ c.toNat ≤ 57 then ScreenPool.digitsValue rest (10 * acc + (c.toNat - 48))
    else none

/-- What `QString::toInt` yields on plain decimal numbers with an optional minus sign,
and `0` on strings that are not of that form. -/
def ScreenPool.decimalToInt (s : String) : Int :=
  match s.toList with
  | [] => 0
  | '-' :: c :: rest =>
    match ScreenPool.digitsValue (c :: rest) 0 with
    | some n => - (n : Int)
    | none => 0
  | c :: rest =>
    match ScreenPool.digitsValue (c :: rest) 0 with
    | some n => (n : Int)
    | none => 0

/-- A configuration group that holds the mapping of id -1 to the connector "DP-9". -/
def ScreenPool.negativeKeyPool : ScreenPool := { config := [("-1", "DP-9")] }

/-! # `AutoStart` (`src/startkde/plasma-session/autostart.cpp`) -/

/-- `AutoStartItem`. -/
structure AutoStartItem where
  name : String
  service : String
  startAfter : String
  phase : Int
  deriving DecidableEq, Repr

/-- The members of `AutoStart`. -/
structure AutoStart where
  startList : List AutoStartItem := []
  started : List String := []
  phase : Int := -1
  phasedone : Bool := false
  deriving DecidableEq, Repr

/-- `AutoStart::setPhase(phase)`. -/
def AutoStart.setPhase (a : AutoStart) (phase : Int) : AutoStart :=
  if phase > a.phase then { a with phase := phase, phasedone := false } else a

/-- `AutoStart::setPhaseDone`. -/
def AutoStart.setPhaseDone (a : AutoStart) : AutoStart := { a with phasedone := true }

/-- One `QMutableVectorIterator` loop of `startService`: the first item that satisfies
the test, and the list with that item removed. -/
def AutoStart.takeFirst (test : AutoStartItem → Bool) :
    List AutoStartItem → Option (AutoStartItem × List AutoStartItem)
  | [] => none
  | item :: rest =>
    if test item then some (item, rest)
    else
      match AutoStart.takeFirst test rest with
      | some (found, rest1) => some (found, item :: rest1)
      | none => none

/-- The `while (!m_started.isEmpty())` loop of `startService`: `m_started` when the
loop is left, and the item found that depends on a started one, if any, with the list
it was removed from. -/
def AutoStart.startDependent (phase : Int) (startList : List AutoStartItem) :
    List String → List String × Option (AutoStartItem × List AutoStartItem)
  | [] => ([], none)
  | lastItem :: started =>
    match AutoStart.takeFirst
        (fun item => decide (item.phase = phase) && decide (item.startAfter = lastItem))
        startList with
    | some found => (lastItem :: started, some found)
    | none => AutoStart.startDependent phase startList started

/-- `AutoStart::startService`: the returned service and the members afterwards. -/
def AutoStart.startService (a : AutoStart) : String × AutoStart :=
  if a.startList.isEmpty then ("", a)
  else
    match AutoStart.startDependent a.phase a.startList a.started with
    | (started, some (item, rest)) =>
      (item.service, { a with started := item.name :: started, startList := rest })
    | (started, none) =>
      match AutoStart.takeFirst
          (fun item => decide (item.phase = a.phase) && item.startAfter.isEmpty) a.startList with
      | some (item, rest) =>
        (item.service, { a with started := item.name :: started, startList := rest })
      | none =>
        match AutoStart.takeFirst (fun item => decide (item.phase = a.phase)) a.startList with
        | some (item, rest) =>
          (item.service, { a with started := item.name :: started, startList := rest })
        | none => ("", { a with started := started })

/-- The services returned by `n` calls of `startService` one after the other, and the
members after the last call. -/
def AutoStart.startServices : Nat → AutoStart → List String × AutoStart
  | 0, a => ([], a)
  | n + 1, a =>
    let first := AutoStart.startService a
    let others := AutoStart.startServices n first.2
    (first.1 :: others.1, others.2)

/-- The items of the start list that belong to the current phase. -/
def AutoStart.inPhase (a : AutoStart) : List AutoStartItem :=
  a.startList.filter (fun item => decide (item.phase = a.phase))

/-- Phase 1 with three items: two of phase 1, one of which waits for an item that is
never started, and one of phase 2. -/
def AutoStart.threeItems : AutoStart :=
  { phase := 1
    startList :=
      [{ name := "baloo", service := "/etc/xdg/autostart/baloo.desktop",
         startAfter := "missing", phase := 1 },
       { name := "kmix", service := "/etc/xdg/autostart/kmix.desktop",
         startAfter := "", phase := 2 },
       { name := "klipper", service := "/etc/xdg/autostart/klipper.desktop",
         startAfter := "", phase := 1 }] }

namespace TaskManager

/-! ## Lemmas: list moves rearrange the map -/


theorem cons_eraseIdx_perm {α : Type} (l : List α) (k : Nat) (x : α) (h : l[k]? = some x) :
    List.Perm (x :: l.eraseIdx k) l := by
  induction l generalizing k with
  | nil => simp at h
  | cons y ys ih =>
    cases k with
    | zero =>
      simp at h
      subst h
      simp
    | succ k =>
      simp at h
      simp only [List.eraseIdx_cons_succ]
      exact (List.Perm.swap y x _).trans ((ih k h).cons y)

theorem qlistMove_perm (l l1 : List Int) (src dst : Int) (h : qlistMove l src dst = some l1) :
    List.Perm l1 l := by
  unfold qlistMove at h
  split at h
  · rename_i hr
    split at h
    · rename_i x hx
      simp only [Option.some.injEq] at h
      subst h
      have hlen : dst.toNat ≤ (l.eraseIdx src.toNat).length := by
        rw [List.length_eraseIdx]
        split <;> omega
      exact (List.perm_insertIdx x _ hlen).trans (cons_eraseIdx_perm l _ x hx)
    · simp at h
  · simp at h

theorem consolidateLoop_perm (leaderRow : Int) (children : List Int) :
    ∀ (i : Int) (rows rows1 : List Int),
      consolidateLoop leaderRow children i rows = some rows1 → List.Perm rows1 rows := by
  induction children with
  | nil =>
    intro i rows rows1 h
    simp [consolidateLoop] at h
    subst h
    exact List.Perm.refl _
  | cons c rest ih =>
    intro i rows rows1 h
    simp only [consolidateLoop] at h
    split at h
    · simp at h
    · rename_i rows2 hmove
      exact (ih _ _ _ h).trans (qlistMove_perm _ _ _ _ hmove)

theorem consolidateManualSortMapForGroup_perm (children rows rows1 : List Int)
    (h : consolidateManualSortMapForGroup children rows = some rows1) : List.Perm rows1 rows := by
  unfold consolidateManualSortMapForGroup at h
  split at h
  · simp at h
    subst h
    exact List.Perm.refl _
  · exact consolidateLoop_perm _ _ _ _ _ h

theorem moveMatchingRows_perm (m : Models) (url : String) :
    ∀ (k : Nat) (rows : List Int) (newPos : Int) (r : List Int × Int),
      moveMatchingRows m url k rows newPos = some r → List.Perm r.1 rows := by
  intro k
  induction k with
  | zero =>
    intro rows newPos r h
    simp [moveMatchingRows] at h
    subst h
    exact List.Perm.refl _
  | succ k ih =>
    intro rows newPos r h
    simp only [moveMatchingRows] at h
    split at h
    · simp at h
    · split at h
      · split at h
        · simp at h
        · rename_i rows1 hmove
          exact (ih _ _ _ h).trans (qlistMove_perm _ _ _ _ hmove)
      · exact ih _ _ _ h

theorem moveLauncherAlong_perm (m : Models) (st : State) (b : Bool) (rows rows1 : List Int)
    (newPos : Int) (h : moveLauncherAlong m st b rows newPos = some rows1) :
    List.Perm rows1 rows := by
  unfold moveLauncherAlong at h
  by_cases hc : (!st.separateLaunchers && b) = true
  · rw [if_pos hc] at h
    cases hr : getRow rows newPos with
    | none => rw [hr] at h; simp at h
    | some r =>
      rw [hr] at h
      simp only [] at h
      by_cases hl : (!(dataAt m.concat r).isLauncher) = true
      · rw [if_pos hl] at h
        cases hL : m.launcher with
        | none => rw [hL] at h; simp at h
        | some l =>
          rw [hL] at h
          exact qlistMove_perm _ _ _ _ h
      · rw [if_neg hl] at h
        simp only [Option.map_eq_some'] at h
        obtain ⟨r1, hr1, hfst⟩ := h
        subst hfst
        exact moveMatchingRows_perm _ _ _ _ _ _ hr1
  · rw [if_neg hc] at h
    simp only [Option.some.injEq] at h
    subst h
    exact List.Perm.refl _

theorem moveFlattened_perm (m : Models) (st : State) (row newPos : Int) (u : MapUpdate)
    (h : moveFlattened m st row newPos = some u) : u.PermOf st.sortedPreFilterRows := by
  unfold moveFlattened at h
  simp only [] at h
  split at h
  · simp only [Option.some.injEq] at h
    subst h
    trivial
  · split at h
    · simp at h
    · rename_i rows1 hmove
      have hp := qlistMove_perm _ _ _ _ hmove
      split at h
      · simp only [Option.map_eq_some'] at h
        obtain ⟨rows2, hcons, hu⟩ := h
        subst hu
        exact (consolidateManualSortMapForGroup_perm _ _ _ hcons).trans hp
      · simp only [Option.some.injEq] at h
        subst h
        exact hp

theorem moveSingle_perm (m : Models) (st : State) (row newPos : Int) (u : MapUpdate)
    (h : moveSingle m st row newPos = some u) : u.PermOf st.sortedPreFilterRows := by
  unfold moveSingle at h
  simp only [] at h
  split at h
  · simp at h
  · rename_i rows1 hmove
    have hp := qlistMove_perm _ _ _ _ hmove
    split at h
    · split at h
      · simp only [Option.map_eq_some'] at h
        obtain ⟨rows2, hcons, hu⟩ := h
        subst hu
        exact (consolidateManualSortMapForGroup_perm _ _ _ hcons).trans hp
      · simp only [Option.some.injEq] at h
        subst h
        exact hp
    · simp only [Option.some.injEq] at h
      subst h
      exact hp

theorem move_true_perm (m : Models) (st st1 : State) (row newPos : Int)
    (h : move m st row newPos = some (true, st1)) :
    List.Perm st1.sortedPreFilterRows st.sortedPreFilterRows := by
  unfold move at h
  split at h
  · simp at h
  · split at h
    · simp at h
    · simp only [] at h
      split at h
      · simp at h
      · split at h
        · simp at h
        · split at h
          · simp at h
          · simp at h
          · rename_i rows newPos1 hupd
            have hp : MapUpdate.PermOf st.sortedPreFilterRows (MapUpdate.moved rows newPos1) := by
              by_cases hf : st.flattenGroupsProxyModel = true
              · rw [if_pos hf] at hupd
                exact moveFlattened_perm _ _ _ _ _ hupd
              · rw [if_neg hf] at hupd
                exact moveSingle_perm _ _ _ _ _ hupd
            split at h
            · simp at h
            · rename_i rows2 hla
              simp only [Option.some.injEq, Prod.mk.injEq, true_and] at h
              subst h
              exact (moveLauncherAlong_perm _ _ _ _ _ _ hla).trans hp

/-! ## Lemmas: permutations of the row range -/

theorem mem_rowRange (n : Nat) (v : Int) :
    v ∈ (List.range n).map Int.ofNat ↔ (0 ≤ v ∧ v < n) := by
  simp only [List.mem_map, List.mem_range, Int.ofNat_eq_coe]
  constructor
  · rintro ⟨k, hk, rfl⟩
    omega
  · rintro ⟨h0, hn⟩
    exact ⟨v.toNat, by omega, by omega⟩

theorem nodup_rowRange (n : Nat) : ((List.range n).map Int.ofNat).Nodup :=
  List.Nodup.map (fun a b h => by simpa using h) (List.nodup_range n)

theorem isRowPermutation_iff (rows : List Int) (n : Nat) :
    IsRowPermutation rows n ↔ rows.Nodup ∧ ∀ v : Int, v ∈ rows ↔ (0 ≤ v ∧ v < n) := by
  unfold IsRowPermutation
  constructor
  · intro h
    refine ⟨(h.nodup_iff).2 (nodup_rowRange n), fun v => ?_⟩
    rw [h.mem_iff, mem_rowRange]
  · rintro ⟨hnd, hmem⟩
    rw [List.perm_ext_iff_of_nodup hnd (nodup_rowRange n)]
    intro v
    rw [hmem, mem_rowRange]

theorem isRowPermutation_length (rows : List Int) (n : Nat) (h : IsRowPermutation rows n) :
    rows.length = n := by
  have := List.Perm.length_eq h
  simpa [IsRowPermutation] using this

theorem mem_intRange (lo hi v : Int) : v ∈ intRange lo hi ↔ (lo ≤ v ∧ v ≤ hi) := by
  unfold intRange
  simp only [List.mem_map, List.mem_range, Int.ofNat_eq_coe]
  constructor
  · rintro ⟨k, hk, rfl⟩
    omega
  · rintro ⟨h0, hn⟩
    exact ⟨(v - lo).toNat, by omega, by omega⟩

theorem nodup_intRange (lo hi : Int) : (intRange lo hi).Nodup :=
  List.Nodup.map (fun a b h => by simpa using h) (List.nodup_range _)

theorem rowsAboutToBeInserted_rows (st : State) (start stop : Int)
    (hmode : st.sortMode = SortMode.SortManual) :
    (rowsAboutToBeInserted st start stop).sortedPreFilterRows
      = st.sortedPreFilterRows.map (fun v => if v ≥ start then v + ((stop - start) + 1) else v)
        ++ intRange start stop := by
  have key : ∀ (l : List Int) (s : State),
      (l.foldl
        (fun s i =>
          let rows := s.sortedPreFilterRows ++ [i]
          if !s.separateLaunchers then
            { s with sortedPreFilterRows := rows,
                     sortRowInsertQueue := s.sortRowInsertQueue ++ [(rows.length : Int) - 1] }
          else
            { s with sortedPreFilterRows := rows }) s).sortedPreFilterRows
        = s.sortedPreFilterRows ++ l := by
    intro l
    induction l with
    | nil => intro s; simp
    | cons a l ih =>
      intro s
      rw [List.foldl_cons, ih]
      by_cases hs : (!s.separateLaunchers) = true <;> simp [hs]
  unfold rowsAboutToBeInserted
  rw [if_neg (by simp [hmode])]
  simp only []
  rw [key]

theorem rowsAboutToBeInserted_permutation (st : State) (n : Nat) (start stop : Int)
    (hmode : st.sortMode = SortMode.SortManual)
    (hperm : IsRowPermutation st.sortedPreFilterRows n)
    (h0 : 0 ≤ start) (hn : start ≤ n) (hse : start ≤ stop) :
    IsRowPermutation (rowsAboutToBeInserted st start stop).sortedPreFilterRows
      (n + (stop - start + 1).toNat) := by
  rw [rowsAboutToBeInserted_rows st start stop hmode]
  rw [isRowPermutation_iff] at hperm ⊢
  obtain ⟨hnd, hmem⟩ := hperm
  refine ⟨?_, ?_⟩
  · rw [List.nodup_append]
    refine ⟨?_, nodup_intRange _ _, ?_⟩
    · apply List.Nodup.map _ hnd
      intro a b hab
      simp only at hab
      split_ifs at hab <;> omega
    · intro v hv hv2
      rw [mem_intRange] at hv2
      simp only [List.mem_map] at hv
      obtain ⟨u, _, hu⟩ := hv
      split_ifs at hu <;> omega
  · intro v
    simp only [List.mem_append, List.mem_map, mem_intRange]
    constructor
    · rintro (⟨u, hu, huv⟩ | ⟨h1, h2⟩)
      · have := (hmem u).1 hu
        split_ifs at huv <;> omega
      · omega
    · rintro ⟨hv0, hvn⟩
      by_cases c1 : v < start
      · left
        refine ⟨v, (hmem v).2 ⟨hv0, by omega⟩, ?_⟩
        rw [if_neg (by omega)]
      · by_cases c2 : v ≤ stop
        · right
          omega
        · left
          refine ⟨v - (stop - start + 1), (hmem _).2 ⟨by omega, by omega⟩, ?_⟩
          rw [if_pos (by omega)]
          omega

theorem foldl_erase_nodup (l : List Int) :
    ∀ rows : List Int, rows.Nodup →
      (l.foldl (fun rows i => rows.erase i) rows).Nodup
        ∧ ∀ v, v ∈ l.foldl (fun rows i => rows.erase i) rows ↔ (v ∈ rows ∧ v ∉ l) := by
  induction l with
  | nil => intro rows h; simp [h]
  | cons a l ih =>
    intro rows h
    rw [List.foldl_cons]
    obtain ⟨h1, h2⟩ := ih (rows.erase a) (h.erase a)
    refine ⟨h1, fun v => ?_⟩
    rw [h2, h.mem_erase_iff]
    simp only [List.mem_cons, not_or]
    tauto

theorem rowsRemoved_permutation (st : State) (n : Nat) (first last : Int)
    (hmode : st.sortMode = SortMode.SortManual)
    (hperm : IsRowPermutation st.sortedPreFilterRows n)
    (h0 : 0 ≤ first) (hfl : first ≤ last) (hn : last < n) :
    IsRowPermutation (rowsRemoved st first last).sortedPreFilterRows
      (n - (last - first + 1).toNat) := by
  unfold rowsRemoved
  rw [if_neg (by simp [hmode])]
  simp only []
  rw [isRowPermutation_iff] at hperm ⊢
  obtain ⟨hnd, hmem⟩ := hperm
  obtain ⟨h1, h2⟩ := foldl_erase_nodup (intRange first last) _ hnd
  have hm : ∀ v, v ∈ (intRange first last).foldl (fun rows i => rows.erase i) st.sortedPreFilterRows
      ↔ (0 ≤ v ∧ v < n ∧ (v < first ∨ last < v)) := by
    intro v
    rw [h2, hmem, mem_intRange]
    constructor
    · rintro ⟨⟨a, b⟩, c⟩
      refine ⟨a, b, ?_⟩
      by_contra hc
      exact c ⟨by omega, by omega⟩
    · rintro ⟨a, b, c⟩
      exact ⟨⟨a, b⟩, by omega⟩
  refine ⟨?_, ?_⟩
  · apply List.Nodup.map_on _ h1
    intro a ha b hb hab
    have ha1 := (hm a).1 ha
    have hb1 := (hm b).1 hb
    split_ifs at hab <;> omega
  · intro v
    simp only [List.mem_map]
    constructor
    · rintro ⟨u, hu, huv⟩
      have := (hm u).1 hu
      split_ifs at huv <;> omega
    · rintro ⟨hv0, hvn⟩
      by_cases c1 : v < first
      · refine ⟨v, (hm v).2 ⟨hv0, by omega, Or.inl c1⟩, ?_⟩
        rw [if_neg (by omega)]
      · refine ⟨v + (last - first + 1), (hm _).2 ⟨by omega, by omega, Or.inr (by omega)⟩, ?_⟩
        rw [if_pos (by omega)]
        omega

/-! ## Lemmas: rejected moves -/

theorem move_false_state (m : Models) (st st1 : State) (row newPos : Int)
    (h : move m st row newPos = some (false, st1)) : st1 = st := by
  unfold move at h
  split at h
  · simp only [Option.some.injEq, Prod.mk.injEq, true_and] at h
    exact h.symm
  · split at h
    · simp only [Option.some.injEq, Prod.mk.injEq, true_and] at h
      exact h.symm
    · simp only [] at h
      split at h
      · simp only [Option.some.injEq, Prod.mk.injEq, true_and] at h
        exact h.symm
      · split at h
        · simp only [Option.some.injEq, Prod.mk.injEq, true_and] at h
          exact h.symm
        · split at h
          · simp at h
          · simp only [Option.some.injEq, Prod.mk.injEq, true_and] at h
            exact h.symm
          · split at h
            · simp at h
            · simp at h

theorem isLauncherMove_separate (m : Models) (st : State) (idx : TaskData)
    (hsep : st.separateLaunchers = true) :
    isLauncherMove m st idx = true ↔
      (idx.isLauncher = true ∨
        (st.launchInPlace = true ∧ idx.isWindow = true ∧ launcherPosition m idx.launcherUrl ≠ -1)) := by
  unfold isLauncherMove
  rw [hsep]
  cases idx.isLauncher <;> cases st.launchInPlace <;> cases idx.isWindow <;> simp


/-! ## Lemmas: `move` returns -/

theorem indexOf_of_mem (rows : List Int) (v : Int) (h : v ∈ rows) :
    0 ≤ indexOf rows v ∧ indexOf rows v < rows.length := by
  induction rows with
  | nil => simp at h
  | cons x xs ih =>
    unfold indexOf
    by_cases hx : x = v
    · rw [if_pos hx]
      simp
    · rw [if_neg hx]
      have hv : v ∈ xs := by
        rcases List.mem_cons.1 h with h1 | h1
        · exact absurd h1.symm hx
        · exact h1
      obtain ⟨h0, h1⟩ := ih hv
      simp only []
      rw [if_neg (by omega)]
      simp only [List.length_cons, Nat.cast_add, Nat.cast_one]
      omega

theorem qlistMove_isSome (rows : List Int) (src dst : Int)
    (hs : 0 ≤ src ∧ src < rows.length) (hd : 0 ≤ dst ∧ dst < rows.length) :
    ∃ rows1, qlistMove rows src dst = some rows1 := by
  unfold qlistMove
  rw [if_pos ⟨hs.1, hs.2, hd.1, hd.2⟩]
  have hlt : src.toNat < rows.length := by omega
  rw [List.getElem?_eq_getElem hlt]
  exact ⟨_, rfl⟩

/-- With separate launchers, no flatten proxy and grouping disabled, `move` returns a
result whenever the map holds the pre-filter rows behind `row` and `newPos`. -/
theorem move_returns (m : Models) (st : State) (row newPos : Int)
    (hsep : st.separateLaunchers = true)
    (hflat : st.flattenGroupsProxyModel = false)
    (hgroup : m.groupMode = GroupMode.GroupDisabled)
    (hrow : preFilterRowOf m (sourceOf m row) ∈ st.sortedPreFilterRows)
    (hnew : preFilterRowOf m (sourceOf m newPos) ∈ st.sortedPreFilterRows) :
    ∃ r, move m st row newPos = some r := by
  unfold move
  split
  · exact ⟨_, rfl⟩
  · split
    · exact ⟨_, rfl⟩
    · simp only []
      split
      · exact ⟨_, rfl⟩
      · split
        · exact ⟨_, rfl⟩
        · obtain ⟨rows1, h1⟩ := qlistMove_isSome st.sortedPreFilterRows _ _
            (indexOf_of_mem _ _ hrow) (indexOf_of_mem _ _ hnew)
          have hupd : (if st.flattenGroupsProxyModel = true then moveFlattened m st row newPos
              else moveSingle m st row newPos)
              = some (MapUpdate.moved rows1
                  (indexOf st.sortedPreFilterRows (preFilterRowOf m (sourceOf m newPos)))) := by
            rw [if_neg (by simp [hflat])]
            unfold moveSingle
            simp only []
            rw [h1]
            simp only []
            split
            · rw [if_neg (by simp [hgroup])]
            · rfl
          rw [hupd]
          simp only []
          have hla : ∀ b, moveLauncherAlong m st b rows1
              (indexOf st.sortedPreFilterRows (preFilterRowOf m (sourceOf m newPos))) = some rows1 := by
            intro b
            unfold moveLauncherAlong
            rw [if_neg (by simp [hsep])]
          rw [hla]
          exact ⟨_, rfl⟩

/-! ## The manual sort map under insertions, removals and moves -/

/-- C1: in Manual sort mode, if the manual sort map is a permutation of the pre-filter
rows `0 .. n - 1`, then it is a permutation of the rows of the new count after the
rows-about-to-be-inserted handler for a range `[start, stop]` with `0 ≤ start ≤ n`,
after the rows-removed handler for a range `[first, last]` with
`0 ≤ first ≤ last < n`, and after every `move` that returns `true`. -/
theorem manualSortMap_stays_permutation (m : Models) (st : State) (n : Nat)
    (hmode : st.sortMode = SortMode.SortManual)
    (hperm : IsRowPermutation st.sortedPreFilterRows n) :
    (∀ start stop : Int, 0 ≤ start → start ≤ n → start ≤ stop →
      IsRowPermutation (rowsAboutToBeInserted st start stop).sortedPreFilterRows
        (n + (stop - start + 1).toNat))
    ∧ (∀ first last : Int, 0 ≤ first → first ≤ last → last < n →
      IsRowPermutation (rowsRemoved st first last).sortedPreFilterRows
        (n - (last - first + 1).toNat))
    ∧ (∀ (row newPos : Int) (st1 : State), move m st row newPos = some (true, st1) →
      IsRowPermutation st1.sortedPreFilterRows n) := by
  refine ⟨?_, ?_, ?_⟩
  · intro start stop h0 hn hse
    exact rowsAboutToBeInserted_permutation st n start stop hmode hperm h0 hn hse
  · intro first last h0 hfl hn
    exact rowsRemoved_permutation st n first last hmode hperm h0 hfl hn
  · intro row newPos st1 hmove
    exact (move_true_perm m st st1 row newPos hmove).trans hperm

/-- Witness for C1: two rows inserted at row 1, rows 0 and 1 removed, and launcher A
moved behind launcher B, each starting from the map `[1, 2, 0]` over three rows. -/
theorem manualSortMap_stays_permutation_witness :
    IsRowPermutation (rowsAboutToBeInserted exampleState 1 2).sortedPreFilterRows 5
    ∧ IsRowPermutation (rowsRemoved exampleState 0 1).sortedPreFilterRows 1
    ∧ move exampleModels exampleState 0 1 = some (true, movedState)
    ∧ IsRowPermutation movedState.sortedPreFilterRows 3 :=
  have h := manualSortMap_stays_permutation exampleModels exampleState 3 rfl (by decide)
  ⟨h.1 1 2 (by decide) (by decide) (by decide),
   h.2.1 0 1 (by decide) (by decide) (by decide),
   by decide,
   h.2.2 0 1 movedState (by decide)⟩

/-! ## Rejected moves -/

/-- C2: `move(row, newPos)` returns `false` whenever the sort mode is not Manual, or
`row == newPos`, or `newPos < 0`, or `newPos >= rowCount()`. -/
theorem move_rejects_invalid_request (m : Models) (st : State) (row newPos : Int)
    (h : st.sortMode ≠ SortMode.SortManual ∨ row = newPos ∨ newPos < 0 ∨ newPos ≥ rowCount m) :
    (move m st row newPos).map Prod.fst = some false := by
  unfold move
  rw [if_pos h]
  rfl

/-- Witness for C2: a target position past the last of three rows. -/
theorem move_rejects_invalid_request_witness :
    (move exampleModels exampleState 0 3).map Prod.fst = some false :=
  move_rejects_invalid_request exampleModels exampleState 0 3 (by decide)

/-- C3: with `separateLaunchers` on, `move(row, newPos)` returns `false` when it would
cross the launcher/task boundary `firstTask` (the launcher source's row count under
`launchInPlace`, the launcher count otherwise, `0` without a launcher source): a launcher
move (a launcher row, or under `launchInPlace` a window with a known launcher position)
to `newPos >= firstTask`, and any other move to `newPos < firstTask`. -/
theorem move_rejects_boundary_crossing (m : Models) (st : State) (row newPos : Int)
    (idx : ShownRow)
    (hsep : st.separateLaunchers = true)
    (hidx : getRow m.shown row = some idx)
    (hcross :
      ((idx.data.isLauncher = true ∨
          (st.launchInPlace = true ∧ idx.data.isWindow = true
            ∧ launcherPosition m idx.data.launcherUrl ≠ -1))
        ∧ newPos ≥ firstTask m st)
      ∨ (¬ (idx.data.isLauncher = true ∨
          (st.launchInPlace = true ∧ idx.data.isWindow = true
            ∧ launcherPosition m idx.data.launcherUrl ≠ -1))
        ∧ newPos < firstTask m st)) :
    (move m st row newPos).map Prod.fst = some false := by
  rw [← isLauncherMove_separate m st idx.data hsep] at hcross
  unfold move
  split
  · rfl
  · rw [hidx]
    simp only []
    rcases hcross with ⟨h1, h2⟩ | ⟨h1, h2⟩
    · rw [if_pos (by simp [hsep, h1, h2])]
      rfl
    · have h1' : isLauncherMove m st idx.data = false := by simpa using h1
      rw [if_neg (by simp [hsep, h1']), if_pos (by simp [hsep, h1', h2])]
      rfl

/-- Witness for C3: launcher list `[A, B]`, Manual mode, separate launchers; moving
the task in row 2 to position 0, inside the launchers, is rejected. -/
theorem move_rejects_boundary_crossing_witness :
    exampleState.sortMode = SortMode.SortManual
    ∧ firstTask exampleModels exampleState = 2
    ∧ (move exampleModels exampleState 2 0).map Prod.fst = some false :=
  ⟨rfl, by decide,
   move_rejects_boundary_crossing exampleModels exampleState 2 0
    { data := windowW, source := GroupingIndex.top 0 } rfl (by decide) (by decide)⟩

/-- C4: whenever `move(row, newPos)` returns `false`, for any of its rejection reasons,
the manual sort map and the launcher-sorting dirty flag (and the rest of the state) are
what they were before the call. -/
theorem move_false_changes_nothing (m : Models) (st st1 : State) (row newPos : Int)
    (h : move m st row newPos = some (false, st1)) :
    st1.sortedPreFilterRows = st.sortedPreFilterRows
    ∧ st1.launcherSortingDirty = st.launcherSortingDirty
    ∧ st1 = st := by
  have hst := move_false_state m st st1 row newPos h
  subst hst
  exact ⟨rfl, rfl, rfl⟩

/-- Witness for C4: a move inside one inline-flattened group is rejected and leaves
the map `[0, 1]` and the clear dirty flag in place. -/
theorem move_false_changes_nothing_witness :
    move inlineModels inlineState 0 1 = some (false, inlineState)
    ∧ inlineState.sortedPreFilterRows = [0, 1]
    ∧ inlineState.launcherSortingDirty = false :=
  ⟨by decide,
   (move_false_changes_nothing inlineModels inlineState inlineState 0 1 (by decide)).1,
   (move_false_changes_nothing inlineModels inlineState inlineState 0 1 (by decide)).2.1⟩

/-! ## `syncLaunchers` -/

/-- C5 (evaluation of the code): launcher list `[A, B]`; `move(0, 1)` puts launcher A
behind launcher B, the rows are then shown as B, A, W, and `syncLaunchers` still hands
the list `[A, B]`, the launcher source's order, to `setLauncherList`, and puts the map
back to that order; the result is the same whatever rows the model shows. -/
theorem syncLaunchers_hands_over_source_order :
    move exampleModels exampleState 0 1 = some (true, movedState)
    ∧ movedModels.shown.map (fun r => r.data.launcherUrlWithoutIcon)
        = ["applications:b.desktop", "applications:a.desktop", ""]
    ∧ TasksModel.lessThan movedModels movedState
        { row := 2, data := launcherB } { row := 1, data := launcherA } 2 1 = true
    ∧ (syncLaunchers movedModels movedState).map Prod.snd
        = some (some ["applications:a.desktop", "applications:b.desktop"])
    ∧ (syncLaunchers movedModels movedState).map (fun r => r.1.sortedPreFilterRows)
        = some [1, 2, 0]
    ∧ (∀ shown : List ShownRow,
        syncLaunchers { movedModels with shown := shown } movedState
          = syncLaunchers movedModels movedState) := by
  refine ⟨by decide, by decide, by decide, by decide, by decide, fun _ => rfl⟩

/-! ## Alphabetical order -/

/-- C6 (evaluation of the code): in Alpha mode, with the launcher rules not applying,
"Firefox" compares smaller than "Firefox Developer Edition", and yet `lessThan` holds
in both directions between a window of the one and a window of the other. -/
theorem lessThan_alpha_both_directions :
    launcherOrder exampleModels alphaState firefoxWikipedia firefoxDeveloper = none
    ∧ launcherOrder exampleModels alphaState firefoxDeveloper firefoxWikipedia = none
    ∧ exampleModels.localeAwareCompare firefoxWikipedia.data.appName
        firefoxDeveloper.data.appName < 0
    ∧ Private.lessThan exampleModels alphaState firefoxWikipedia firefoxDeveloper false = true
    ∧ Private.lessThan exampleModels alphaState firefoxDeveloper firefoxWikipedia false = true := by
  refine ⟨by decide, by decide, by decide, by decide, by decide⟩

/-- C7 (evaluation of the code): in Alpha mode two windows with the same AppName
"Firefox", source rows 0 and 1: `lessThan` holds from the later row to the earlier one,
and with the later row's title emptied it no longer holds from the earlier row to the
later one. -/
theorem lessThan_alpha_same_name_uses_title :
    launcherOrder exampleModels alphaState firefoxWikipedia firefoxKde = none
    ∧ firefoxWikipedia.data.appName = firefoxKde.data.appName
    ∧ firefoxWikipedia.row < firefoxKde.row
    ∧ Private.lessThan exampleModels alphaState firefoxKde firefoxWikipedia false = true
    ∧ Private.lessThan exampleModels alphaState firefoxWikipedia firefoxKde false = true
    ∧ Private.lessThan exampleModels alphaState firefoxWikipedia
        { firefoxKde with data := { firefoxKde.data with display := "" } } false = false := by
  refine ⟨by decide, by decide, by decide, by decide, by decide, by decide⟩

/-! ## `filterAcceptsRow` -/

/-- C8: a top-level Startup row `s` (`IsStartup` set, not a launcher, not a group
parent hidden by inline grouping) is rejected by `filterAcceptsRow` exactly when some
Window row `w` of the filter stage's output has `AppId(s)` non-empty and equal to
`AppId(w)`, or `AppName(s)` non-empty and equal to `AppName(w)`. The function only
computes the answer; the models and the state are its inputs. -/
theorem filterAcceptsRow_startup (m : Models) (st : State) (sourceRow : Int)
    (hStartup : (dataAt m.source sourceRow).isStartup = true)
    (hLauncher : (dataAt m.source sourceRow).isLauncher = false)
    (hParent : (st.groupInline && st.flattenGroupsProxyModel
      && (dataAt m.source sourceRow).isGroupParent) = false) :
    filterAcceptsRow m st sourceRow false = false ↔
      ∃ w ∈ m.filter, w.isWindow = true ∧
        (((dataAt m.source sourceRow).appId ≠ "" ∧ (dataAt m.source sourceRow).appId = w.appId)
          ∨ ((dataAt m.source sourceRow).appName ≠ ""
            ∧ (dataAt m.source sourceRow).appName = w.appName)) := by
  unfold filterAcceptsRow
  simp only [Bool.false_eq_true, if_false]
  rw [hParent]
  simp only [Bool.false_eq_true, if_false, hStartup, hLauncher, Bool.true_and, Bool.false_and]
  simp [identityMatches, List.any_eq_true]

/-- Witness for C8: the Dolphin startup row is rejected once a Dolphin window is in
the filter stage's output. -/
theorem filterAcceptsRow_startup_witness :
    filterAcceptsRow dolphinModels alphaState 0 false = false :=
  (filterAcceptsRow_startup dolphinModels alphaState 0 (by decide) (by decide) (by decide)).2
    ⟨dolphinWindow, by decide, by decide, Or.inl ⟨by decide, by decide⟩⟩

/-- C9: a top-level Launcher row `l` (`IsLauncher` set, not a startup, not a group
parent hidden by inline grouping) is rejected by `filterAcceptsRow` exactly when some
Window or Startup row of the filter stage's output satisfies `appsMatch` with `l`; when
no row of the filter output is a Window or a Startup, the launcher is accepted. -/
theorem filterAcceptsRow_launcher (m : Models) (st : State) (sourceRow : Int)
    (hLauncher : (dataAt m.source sourceRow).isLauncher = true)
    (hStartup : (dataAt m.source sourceRow).isStartup = false)
    (hParent : (st.groupInline && st.flattenGroupsProxyModel
      && (dataAt m.source sourceRow).isGroupParent) = false) :
    (filterAcceptsRow m st sourceRow false = false ↔
      ∃ f ∈ m.filter, (f.isWindow = true ∨ f.isStartup = true)
        ∧ m.appsMatch (dataAt m.source sourceRow) f = true)
    ∧ ((∀ f ∈ m.filter, f.isWindow = false ∧ f.isStartup = false) →
        filterAcceptsRow m st sourceRow false = true) := by
  have key : filterAcceptsRow m st sourceRow false = false ↔
      ∃ f ∈ m.filter, (f.isWindow = true ∨ f.isStartup = true)
        ∧ m.appsMatch (dataAt m.source sourceRow) f = true := by
    unfold filterAcceptsRow
    simp only [Bool.false_eq_true, if_false]
    rw [hParent]
    simp only [Bool.false_eq_true, if_false, hStartup, hLauncher, Bool.true_and, Bool.false_and]
    simp [List.any_eq_true]
  refine ⟨key, fun hall => ?_⟩
  by_contra hne
  have hf : filterAcceptsRow m st sourceRow false = false := by simpa using hne
  obtain ⟨f, hf1, hf2, _⟩ := key.1 hf
  have := hall f hf1
  rcases hf2 with h | h
  · rw [this.1] at h; exact Bool.noConfusion h
  · rw [this.2] at h; exact Bool.noConfusion h

/-- Witness for C9: the Dolphin launcher is rejected while a Dolphin window is in the
filter stage's output. -/
theorem filterAcceptsRow_launcher_witness :
    filterAcceptsRow dolphinModels alphaState 1 false = false :=
  (filterAcceptsRow_launcher dolphinModels alphaState 1 (by decide) (by decide) (by decide)).1.2
    ⟨dolphinWindow, by decide, Or.inl (by decide), by decide⟩

/-- C10: `filterAcceptsRow` returns `true` for every row whose parent index is valid,
whatever the row's data and the inline-grouping state. -/
theorem filterAcceptsRow_child (m : Models) (st : State) (sourceRow : Int) :
    filterAcceptsRow m st sourceRow true = true := by
  unfold filterAcceptsRow
  simp


/-! ## Lemmas: the comparator -/

theorem launcherOrder_none_of_separate_off (m : Models) (st : State) (l r : Index)
    (h : st.separateLaunchers = false) : launcherOrder m st l r = none := by
  unfold launcherOrder
  simp [h]

theorem lessThan_of_launcherOrder_none (m : Models) (st : State) (l r : Index)
    (h : launcherOrder m st l r = none) :
    Private.lessThan m st l r false =
      (match st.sortMode with
      | SortMode.SortVirtualDesktop =>
        match virtualDesktopOrder l r with
        | some result => result
        | none =>
          match activityOrder st l r with
          | some result => result
          | none => defaultOrder m st l r
      | SortMode.SortActivity =>
        match activityOrder st l r with
        | some result => result
        | none => defaultOrder m st l r
      | _ => defaultOrder m st l r) := by
  unfold Private.lessThan
  rw [h]
  simp

/-! ## Lemmas: `std::stable_sort` rearranges -/

theorem unguardedLinearInsert_perm {α : Type} (comp : α → α → Bool) (val : α) (l : List α) :
    (unguardedLinearInsert comp val l).Perm (val :: l) := by
  induction l with
  | nil => exact List.Perm.refl _
  | cons next rest ih =>
    unfold unguardedLinearInsert
    by_cases h : comp val next = true
    · rw [if_pos h]
      exact (List.Perm.cons next ih).trans (List.Perm.swap val next rest)
    · rw [if_neg h]

theorem insertionSortStep_perm {α : Type} (comp : α → α → Bool) (acc : List α) (val : α) :
    (insertionSortStep comp acc val).Perm (val :: acc) := by
  unfold insertionSortStep
  cases h : acc.getLast? with
  | none =>
    have hnil : acc = [] := List.getLast?_eq_none_iff.1 h
    subst hnil
    exact List.Perm.refl _
  | some first =>
    simp only []
    by_cases hc : comp val first = true
    · rw [if_pos hc]
      exact List.perm_append_comm
    · rw [if_neg hc]
      exact unguardedLinearInsert_perm comp val acc

theorem foldl_insertionSortStep_perm {α : Type} (comp : α → α → Bool) (l acc : List α) :
    (l.foldl (insertionSortStep comp) acc).Perm (acc ++ l) := by
  induction l generalizing acc with
  | nil => simp
  | cons val rest ih =>
    rw [List.foldl_cons]
    refine (ih _).trans ?_
    exact ((insertionSortStep_perm comp acc val).append_right rest).trans List.perm_middle.symm

theorem insertionSort_perm {α : Type} (comp : α → α → Bool) (l : List α) :
    (insertionSort comp l).Perm l := by
  unfold insertionSort
  exact (List.reverse_perm _).trans (by simpa using foldl_insertionSortStep_perm comp l [])

theorem chunkInsertionSort_perm {α : Type} (comp : α → α → Bool) (chunkSize fuel : Nat)
    (l : List α) : (chunkInsertionSort comp chunkSize fuel l).Perm l := by
  induction fuel generalizing l with
  | zero => exact insertionSort_perm comp l
  | succ fuel ih =>
    unfold chunkInsertionSort
    by_cases h : chunkSize ≤ l.length
    · rw [if_pos h]
      exact ((insertionSort_perm comp _).append (ih _)).trans
        (by rw [List.take_append_drop])
    · rw [if_neg h]
      exact insertionSort_perm comp l

theorem moveMergeLoop_perm {α : Type} (comp : α → α → Bool) (fuel : Nat) (l1 l2 : List α) :
    (moveMergeLoop comp fuel l1 l2).Perm (l1 ++ l2) := by
  induction fuel generalizing l1 l2 with
  | zero => simp [moveMergeLoop]
  | succ fuel ih =>
    cases l1 with
    | nil => simp [moveMergeLoop]
    | cons x l1 =>
      cases l2 with
      | nil => simp [moveMergeLoop]
      | cons y l2 =>
        simp only [moveMergeLoop]
        by_cases h : comp y x = true
        · rw [if_pos h]
          exact (List.Perm.cons y (ih (x :: l1) l2)).trans List.perm_middle.symm
        · rw [if_neg h]
          exact List.Perm.cons x (ih l1 (y :: l2))

theorem moveMerge_perm {α : Type} (comp : α → α → Bool) (l1 l2 : List α) :
    (moveMerge comp l1 l2).Perm (l1 ++ l2) :=
  moveMergeLoop_perm comp _ l1 l2

theorem moveMergeBackwardLoop_eq {α : Type} (comp : α → α → Bool) (fuel : Nat)
    (r1 r2 : List α) :
    moveMergeBackwardLoop comp fuel r1 r2 = moveMergeLoop (fun a b => comp b a) fuel r2 r1 := by
  induction fuel generalizing r1 r2 with
  | zero => simp [moveMergeBackwardLoop, moveMergeLoop]
  | succ fuel ih =>
    cases r1 with
    | nil => cases r2 <;> simp [moveMergeBackwardLoop, moveMergeLoop]
    | cons a r1 =>
      cases r2 with
      | nil => simp [moveMergeBackwardLoop, moveMergeLoop]
      | cons b r2 =>
        simp only [moveMergeBackwardLoop, moveMergeLoop]
        rw [ih r1 (b :: r2), ih (a :: r1) r2]

theorem moveMergeAdaptiveBackward_perm {α : Type} (comp : α → α → Bool) (l1 l2 : List α) :
    (moveMergeAdaptiveBackward comp l1 l2).Perm (l1 ++ l2) := by
  unfold moveMergeAdaptiveBackward
  rw [moveMergeBackwardLoop_eq]
  refine (List.reverse_perm _).trans ((moveMergeLoop_perm _ _ _ _).trans ?_)
  exact List.perm_append_comm.trans
    ((List.reverse_perm l1).append (List.reverse_perm l2))

theorem mergeAdaptive_perm {α : Type} (comp : α → α → Bool) (l1 l2 : List α) :
    (mergeAdaptive comp l1 l2).Perm (l1 ++ l2) := by
  unfold mergeAdaptive
  by_cases h : l1.length ≤ l2.length
  · rw [if_pos h]
    exact moveMerge_perm comp l1 l2
  · rw [if_neg h]
    exact moveMergeAdaptiveBackward_perm comp l1 l2

theorem mergeSortLoop_perm {α : Type} (comp : α → α → Bool) (stepSize fuel : Nat)
    (l : List α) : (mergeSortLoop comp stepSize fuel l).Perm l := by
  induction fuel generalizing l with
  | zero =>
    unfold mergeSortLoop
    exact (moveMerge_perm comp _ _).trans (by rw [List.take_append_drop])
  | succ fuel ih =>
    unfold mergeSortLoop
    by_cases h : 2 * stepSize ≤ l.length
    · rw [if_pos h]
      refine ((moveMerge_perm comp _ _).append (ih _)).trans ?_
      have h2 : l.drop (2 * stepSize) = (l.drop stepSize).drop stepSize := by
        rw [List.drop_drop]
        congr 1
        omega
      rw [h2, List.append_assoc, List.take_append_drop, List.take_append_drop]
    · rw [if_neg h]
      exact (moveMerge_perm comp _ _).trans (by rw [List.take_append_drop])

theorem mergeSortPasses_perm {α : Type} (comp : α → α → Bool) (fuel stepSize : Nat)
    (l : List α) : (mergeSortPasses comp fuel stepSize l).Perm l := by
  induction fuel generalizing stepSize l with
  | zero => exact List.Perm.refl _
  | succ fuel ih =>
    unfold mergeSortPasses
    by_cases h : stepSize < l.length
    · rw [if_pos h]
      exact (ih _ _).trans ((mergeSortLoop_perm comp _ _ _).trans (mergeSortLoop_perm comp _ _ _))
    · rw [if_neg h]

theorem mergeSortWithBuffer_perm {α : Type} (comp : α → α → Bool) (l : List α) :
    (mergeSortWithBuffer comp l).Perm l := by
  unfold mergeSortWithBuffer
  exact (mergeSortPasses_perm comp _ _ _).trans (chunkInsertionSort_perm comp _ _ l)

theorem stableSort_perm {α : Type} (lt : α → α → Bool) (l : List α) :
    List.Perm (stableSort lt l) l := by
  unfold stableSort
  by_cases h : l.isEmpty = true
  · rw [if_pos h]
  · rw [if_neg h]
    simp only []
    refine (mergeAdaptive_perm lt _ _).trans ?_
    exact ((mergeSortWithBuffer_perm lt _).append (mergeSortWithBuffer_perm lt _)).trans
      (by rw [List.take_append_drop])

/-! ## Lemmas: `std::stable_sort` sorts

`S a b` says that `a` stands before `b` in the range given to the sort, `T a b` that `a`
may stand before `b` in the result. Every comparison the sort makes is `comp later earlier`. -/

theorem unguardedLinearInsert_sorted {α : Type} (comp : α → α → Bool) (T S : α → α → Prop)
    (hT : ∀ a b c, T a b → T b c → T a c)
    (hlt : ∀ a b, S a b → comp b a = true → T b a)
    (hnlt : ∀ a b, S a b → comp b a = false → T a b)
    (val : α) (acc : List α) (hacc : acc.Pairwise (fun a b => T b a))
    (hS : ∀ x ∈ acc, S x val) :
    (unguardedLinearInsert comp val acc).Pairwise (fun a b => T b a) := by
  induction acc with
  | nil => simp [unguardedLinearInsert]
  | cons next rest ih =>
    have hnext : S next val := hS next (List.mem_cons_self _ _)
    have hrest : ∀ x ∈ rest, S x val := fun x hx => hS x (List.mem_cons_of_mem _ hx)
    rw [List.pairwise_cons] at hacc
    unfold unguardedLinearInsert
    by_cases h : comp val next = true
    · rw [if_pos h]
      rw [List.pairwise_cons]
      refine ⟨?_, ih hacc.2 hrest⟩
      intro z hz
      have hz1 := (unguardedLinearInsert_perm comp val rest).mem_iff.1 hz
      rcases List.mem_cons.1 hz1 with hz2 | hz2
      · rw [hz2]
        exact hlt next val hnext h
      · exact hacc.1 z hz2
    · rw [if_neg h]
      have hf : comp val next = false := by simpa using h
      have hnv : T next val := hnlt next val hnext hf
      rw [List.pairwise_cons]
      refine ⟨?_, List.pairwise_cons.2 hacc⟩
      intro z hz
      rcases List.mem_cons.1 hz with hz2 | hz2
      · rw [hz2]
        exact hnv
      · exact hT z next val (hacc.1 z hz2) hnv

theorem insertionSortStep_sorted {α : Type} (comp : α → α → Bool) (T S : α → α → Prop)
    (hT : ∀ a b c, T a b → T b c → T a c)
    (hlt : ∀ a b, S a b → comp b a = true → T b a)
    (hnlt : ∀ a b, S a b → comp b a = false → T a b)
    (val : α) (acc : List α) (hacc : acc.Pairwise (fun a b => T b a))
    (hS : ∀ x ∈ acc, S x val) :
    (insertionSortStep comp acc val).Pairwise (fun a b => T b a) := by
  unfold insertionSortStep
  cases h : acc.getLast? with
  | none => simp
  | some first =>
    simp only []
    by_cases hc : comp val first = true
    · rw [if_pos hc]
      have hfirst : first ∈ acc := List.mem_of_getLast?_eq_some h
      have hvf : T val first := hlt first val (hS first hfirst) hc
      rw [List.pairwise_append]
      refine ⟨hacc, List.pairwise_singleton _ _, ?_⟩
      intro x hx y hy
      rw [List.mem_singleton.1 hy]
      obtain ⟨front, hfront⟩ : ∃ front, acc = front ++ [first] := by
        rcases List.getLast?_eq_some_iff.1 h with ⟨front, hfront⟩
        exact ⟨front, hfront⟩
      rw [hfront] at hx hacc
      rcases List.mem_append.1 hx with hx1 | hx1
      · have := (List.pairwise_append.1 hacc).2.2 x hx1 first (List.mem_singleton_self _)
        exact hT val first x hvf this
      · rw [List.mem_singleton.1 hx1]
        exact hvf
    · rw [if_neg hc]
      exact unguardedLinearInsert_sorted comp T S hT hlt hnlt val acc hacc hS

theorem foldl_insertionSortStep_sorted {α : Type} (comp : α → α → Bool) (T S : α → α → Prop)
    (hT : ∀ a b c, T a b → T b c → T a c)
    (hlt : ∀ a b, S a b → comp b a = true → T b a)
    (hnlt : ∀ a b, S a b → comp b a = false → T a b)
    (l acc : List α) (hacc : acc.Pairwise (fun a b => T b a))
    (hS : ∀ x ∈ acc, ∀ y ∈ l, S x y) (hl : l.Pairwise S) :
    (l.foldl (insertionSortStep comp) acc).Pairwise (fun a b => T b a) := by
  induction l generalizing acc with
  | nil => exact hacc
  | cons val rest ih =>
    rw [List.foldl_cons]
    rw [List.pairwise_cons] at hl
    refine ih _ (insertionSortStep_sorted comp T S hT hlt hnlt val acc hacc
      (fun x hx => hS x hx val (List.mem_cons_self _ _))) ?_ hl.2
    intro x hx y hy
    rcases List.mem_cons.1 ((insertionSortStep_perm comp acc val).mem_iff.1 hx) with hx1 | hx1
    · rw [hx1]
      exact hl.1 y hy
    · exact hS x hx1 y (List.mem_cons_of_mem _ hy)

theorem insertionSort_sorted {α : Type} (comp : α → α → Bool) (T S : α → α → Prop)
    (hT : ∀ a b c, T a b → T b c → T a c)
    (hlt : ∀ a b, S a b → comp b a = true → T b a)
    (hnlt : ∀ a b, S a b → comp b a = false → T a b)
    (l : List α) (hl : l.Pairwise S) : (insertionSort comp l).Pairwise T := by
  unfold insertionSort
  rw [List.pairwise_reverse]
  exact foldl_insertionSortStep_sorted comp T S hT hlt hnlt l [] List.Pairwise.nil
    (fun x hx => absurd hx (List.not_mem_nil x)) hl

theorem moveMergeLoop_sorted {α : Type} (comp : α → α → Bool) (T S : α → α → Prop)
    (hT : ∀ a b c, T a b → T b c → T a c)
    (hlt : ∀ a b, S a b → comp b a = true → T b a)
    (hnlt : ∀ a b, S a b → comp b a = false → T a b)
    (fuel : Nat) (l1 l2 : List α) (hfuel : l1.length + l2.length ≤ fuel)
    (h1 : l1.Pairwise T) (h2 : l2.Pairwise T) (hS : ∀ x ∈ l1, ∀ y ∈ l2, S x y) :
    (moveMergeLoop comp fuel l1 l2).Pairwise T := by
  induction fuel generalizing l1 l2 with
  | zero =>
    have hl1 : l1 = [] := List.length_eq_zero.1 (by omega)
    have hl2 : l2 = [] := List.length_eq_zero.1 (by omega)
    subst hl1 hl2
    simp [moveMergeLoop]
  | succ fuel ih =>
    cases l1 with
    | nil => simpa [moveMergeLoop] using h2
    | cons x l1 =>
      cases l2 with
      | nil => simpa [moveMergeLoop] using h1
      | cons y l2 =>
        have hxy : S x y := hS x (List.mem_cons_self _ _) y (List.mem_cons_self _ _)
        simp only [List.length_cons] at hfuel
        simp only [moveMergeLoop]
        have h1c := List.pairwise_cons.1 h1
        have h2c := List.pairwise_cons.1 h2
        by_cases h : comp y x = true
        · rw [if_pos h]
          have hyx : T y x := hlt x y hxy h
          rw [List.pairwise_cons]
          refine ⟨?_, ih (x :: l1) l2 (by simp only [List.length_cons]; omega) h1 h2c.2
            (fun a ha b hb => hS a ha b (List.mem_cons_of_mem _ hb))⟩
          intro z hz
          have hz1 := (moveMergeLoop_perm comp fuel (x :: l1) l2).mem_iff.1 hz
          rcases List.mem_append.1 hz1 with hz2 | hz2
          · rcases List.mem_cons.1 hz2 with hz3 | hz3
            · rw [hz3]
              exact hyx
            · exact hT y x z hyx (h1c.1 z hz3)
          · exact h2c.1 z hz2
        · rw [if_neg h]
          have hf : comp y x = false := by simpa using h
          have hxyT : T x y := hnlt x y hxy hf
          rw [List.pairwise_cons]
          refine ⟨?_, ih l1 (y :: l2) (by simp only [List.length_cons]; omega) h1c.2 h2
            (fun a ha b hb => hS a (List.mem_cons_of_mem _ ha) b hb)⟩
          intro z hz
          have hz1 := (moveMergeLoop_perm comp fuel l1 (y :: l2)).mem_iff.1 hz
          rcases List.mem_append.1 hz1 with hz2 | hz2
          · exact h1c.1 z hz2
          · rcases List.mem_cons.1 hz2 with hz3 | hz3
            · rw [hz3]
              exact hxyT
            · exact hT x y z hxyT (h2c.1 z hz3)

theorem moveMerge_sorted {α : Type} (comp : α → α → Bool) (T S : α → α → Prop)
    (hT : ∀ a b c, T a b → T b c → T a c)
    (hlt : ∀ a b, S a b → comp b a = true → T b a)
    (hnlt : ∀ a b, S a b → comp b a = false → T a b)
    (l1 l2 : List α)
    (h1 : l1.Pairwise T) (h2 : l2.Pairwise T) (hS : ∀ x ∈ l1, ∀ y ∈ l2, S x y) :
    (moveMerge comp l1 l2).Pairwise T :=
  moveMergeLoop_sorted comp T S hT hlt hnlt _ l1 l2 (Nat.le_refl _) h1 h2 hS

theorem moveMergeAdaptiveBackward_sorted {α : Type} (comp : α → α → Bool)
    (T S : α → α → Prop)
    (hT : ∀ a b c, T a b → T b c → T a c)
    (hlt : ∀ a b, S a b → comp b a = true → T b a)
    (hnlt : ∀ a b, S a b → comp b a = false → T a b)
    (l1 l2 : List α)
    (h1 : l1.Pairwise T) (h2 : l2.Pairwise T) (hS : ∀ x ∈ l1, ∀ y ∈ l2, S x y) :
    (moveMergeAdaptiveBackward comp l1 l2).Pairwise T := by
  unfold moveMergeAdaptiveBackward
  rw [moveMergeBackwardLoop_eq, List.pairwise_reverse]
  refine moveMergeLoop_sorted (fun a b => comp b a) (fun a b => T b a) (fun a b => S b a)
    (fun a b c hab hbc => hT c b a hbc hab) (fun a b hab hc => hlt b a hab hc)
    (fun a b hab hc => hnlt b a hab hc) _ l2.reverse l1.reverse
    (by simp only [List.length_reverse]; omega) (List.pairwise_reverse.1 (by simpa using h2))
    (List.pairwise_reverse.1 (by simpa using h1)) ?_
  intro y hy x hx
  exact hS x (List.mem_reverse.1 hx) y (List.mem_reverse.1 hy)

theorem mergeAdaptive_sorted {α : Type} (comp : α → α → Bool) (T S : α → α → Prop)
    (hT : ∀ a b c, T a b → T b c → T a c)
    (hlt : ∀ a b, S a b → comp b a = true → T b a)
    (hnlt : ∀ a b, S a b → comp b a = false → T a b)
    (l1 l2 : List α)
    (h1 : l1.Pairwise T) (h2 : l2.Pairwise T) (hS : ∀ x ∈ l1, ∀ y ∈ l2, S x y) :
    (mergeAdaptive comp l1 l2).Pairwise T := by
  unfold mergeAdaptive
  by_cases h : l1.length ≤ l2.length
  · rw [if_pos h]
    exact moveMerge_sorted comp T S hT hlt hnlt l1 l2 h1 h2 hS
  · rw [if_neg h]
    exact moveMergeAdaptiveBackward_sorted comp T S hT hlt hnlt l1 l2 h1 h2 hS

theorem SortedBlocks.sorted_of_le {α : Type} {T S : α → α → Prop} {stepSize : Nat}
    {l : List α} (h : SortedBlocks T S stepSize l) (hlen : l.length ≤ stepSize) :
    l.Pairwise T := by
  cases h with
  | last a _ hs => exact hs
  | block a rest ha hs hsep hrest =>
    have hnil : rest = [] := List.length_eq_zero.1 (by
      simp only [List.length_append] at hlen
      omega)
    subst hnil
    simpa using hs

theorem SortedBlocks.split {α : Type} {T S : α → α → Prop} {stepSize : Nat}
    {l : List α} (h : SortedBlocks T S stepSize l) (hlen : stepSize ≤ l.length) :
    ∃ a rest, l = a ++ rest ∧ a.length = stepSize ∧ a.Pairwise T
      ∧ (∀ x ∈ a, ∀ y ∈ rest, S x y) ∧ SortedBlocks T S stepSize rest := by
  cases h with
  | last a hle hs =>
    exact ⟨l, [], by simp, by omega, hs, fun x _ y hy => absurd hy (List.not_mem_nil y),
      SortedBlocks.last [] (by simp) List.Pairwise.nil⟩
  | block a rest ha hs hsep hrest => exact ⟨a, rest, rfl, ha, hs, hsep, hrest⟩

theorem chunkInsertionSort_blocks {α : Type} (comp : α → α → Bool) (T S : α → α → Prop)
    (hT : ∀ a b c, T a b → T b c → T a c)
    (hlt : ∀ a b, S a b → comp b a = true → T b a)
    (hnlt : ∀ a b, S a b → comp b a = false → T a b)
    (chunkSize fuel : Nat) (hchunk : 0 < chunkSize) (l : List α) (hfuel : l.length ≤ fuel)
    (hl : l.Pairwise S) :
    SortedBlocks T S chunkSize (chunkInsertionSort comp chunkSize fuel l) := by
  induction fuel generalizing l with
  | zero =>
    unfold chunkInsertionSort
    refine SortedBlocks.last _ ?_ (insertionSort_sorted comp T S hT hlt hnlt l hl)
    rw [(insertionSort_perm comp l).length_eq]
    omega
  | succ fuel ih =>
    unfold chunkInsertionSort
    by_cases h : chunkSize ≤ l.length
    · rw [if_pos h]
      have hsplit : (l.take chunkSize ++ l.drop chunkSize).Pairwise S := by
        rw [List.take_append_drop]
        exact hl
      rw [List.pairwise_append] at hsplit
      refine SortedBlocks.block _ _ ?_
        (insertionSort_sorted comp T S hT hlt hnlt _ hsplit.1) ?_
        (ih _ (by rw [List.length_drop]; omega) hsplit.2.1)
      · rw [(insertionSort_perm comp _).length_eq, List.length_take]
        omega
      · intro x hx y hy
        exact hsplit.2.2 x ((insertionSort_perm comp _).mem_iff.1 hx) y
          ((chunkInsertionSort_perm comp _ _ _).mem_iff.1 hy)
    · rw [if_neg h]
      refine SortedBlocks.last _ ?_ (insertionSort_sorted comp T S hT hlt hnlt l hl)
      rw [(insertionSort_perm comp l).length_eq]
      omega

theorem mergeSortLoop_tail_blocks {α : Type} (comp : α → α → Bool) (T S : α → α → Prop)
    (hT : ∀ a b c, T a b → T b c → T a c)
    (hlt : ∀ a b, S a b → comp b a = true → T b a)
    (hnlt : ∀ a b, S a b → comp b a = false → T a b)
    (stepSize : Nat) (l : List α)
    (hl : SortedBlocks T S stepSize l) (hlen : l.length < 2 * stepSize) :
    SortedBlocks T S (2 * stepSize)
      (moveMerge comp (l.take (min l.length stepSize)) (l.drop (min l.length stepSize))) := by
  refine SortedBlocks.last _ ?_ ?_
  · rw [(moveMerge_perm comp _ _).length_eq, List.take_append_drop]
    omega
  · by_cases h : l.length ≤ stepSize
    · rw [Nat.min_eq_left h, List.take_length, List.drop_length]
      exact moveMerge_sorted comp T S hT hlt hnlt l [] (hl.sorted_of_le h) List.Pairwise.nil
        (fun x _ y hy => absurd hy (List.not_mem_nil y))
    · rw [Nat.min_eq_right (by omega)]
      obtain ⟨a, rest, hsplit, ha, hsa, hsep, hrest⟩ := hl.split (by omega)
      subst hsplit
      rw [List.take_left' ha, List.drop_left' ha]
      refine moveMerge_sorted comp T S hT hlt hnlt a rest hsa (hrest.sorted_of_le ?_) hsep
      simp only [List.length_append] at hlen
      omega

theorem mergeSortLoop_blocks {α : Type} (comp : α → α → Bool) (T S : α → α → Prop)
    (hT : ∀ a b c, T a b → T b c → T a c)
    (hlt : ∀ a b, S a b → comp b a = true → T b a)
    (hnlt : ∀ a b, S a b → comp b a = false → T a b)
    (stepSize fuel : Nat) (hstep : 0 < stepSize) (l : List α) (hfuel : l.length ≤ fuel)
    (hl : SortedBlocks T S stepSize l) :
    SortedBlocks T S (2 * stepSize) (mergeSortLoop comp stepSize fuel l) := by
  induction fuel generalizing l with
  | zero =>
    unfold mergeSortLoop
    exact mergeSortLoop_tail_blocks comp T S hT hlt hnlt stepSize l hl (by omega)
  | succ fuel ih =>
    unfold mergeSortLoop
    by_cases h : 2 * stepSize ≤ l.length
    · rw [if_pos h]
      obtain ⟨a, rest, hsplit, ha, hsa, hsepa, hrest⟩ := hl.split (by omega)
      subst hsplit
      simp only [List.length_append] at h hfuel
      obtain ⟨b, rest1, hsplit1, hb, hsb, hsepb, hrest1⟩ := hrest.split (by omega)
      subst hsplit1
      simp only [List.length_append] at h hfuel
      have h2 : (a ++ (b ++ rest1)).drop (2 * stepSize) = rest1 := by
        have h3 : 2 * stepSize = stepSize + stepSize := by omega
        rw [h3, ← List.drop_drop, List.drop_left' ha, List.drop_left' hb]
      rw [h2, List.take_left' ha, List.drop_left' ha, List.take_left' hb]
      refine SortedBlocks.block _ _ ?_
        (moveMerge_sorted comp T S hT hlt hnlt a b hsa hsb
          (fun x hx y hy => hsepa x hx y (List.mem_append_left _ hy))) ?_
        (ih rest1 (by omega) hrest1)
      · rw [(moveMerge_perm comp _ _).length_eq, List.length_append]
        omega
      · intro x hx y hy
        have hy1 := (mergeSortLoop_perm comp _ _ _).mem_iff.1 hy
        rcases List.mem_append.1 ((moveMerge_perm comp _ _).mem_iff.1 hx) with hx1 | hx1
        · exact hsepa x hx1 y (List.mem_append_right _ hy1)
        · exact hsepb x hx1 y hy1
    · rw [if_neg h]
      exact mergeSortLoop_tail_blocks comp T S hT hlt hnlt stepSize l hl (by omega)

theorem mergeSortPasses_sorted {α : Type} (comp : α → α → Bool) (T S : α → α → Prop)
    (hT : ∀ a b c, T a b → T b c → T a c)
    (hlt : ∀ a b, S a b → comp b a = true → T b a)
    (hnlt : ∀ a b, S a b → comp b a = false → T a b)
    (fuel stepSize : Nat) (hstep : 0 < stepSize) (l : List α)
    (hfuel : l.length ≤ stepSize + fuel) (hl : SortedBlocks T S stepSize l) :
    (mergeSortPasses comp fuel stepSize l).Pairwise T := by
  induction fuel generalizing stepSize l with
  | zero =>
    unfold mergeSortPasses
    exact hl.sorted_of_le (by omega)
  | succ fuel ih =>
    unfold mergeSortPasses
    by_cases h : stepSize < l.length
    · rw [if_pos h]
      have hlen1 : (mergeSortLoop comp stepSize l.length l).length = l.length :=
        (mergeSortLoop_perm comp _ _ _).length_eq
      have hlen2 : (mergeSortLoop comp (stepSize * 2) l.length
          (mergeSortLoop comp stepSize l.length l)).length = l.length :=
        ((mergeSortLoop_perm comp _ _ _).trans (mergeSortLoop_perm comp _ _ _)).length_eq
      have hb1 := mergeSortLoop_blocks comp T S hT hlt hnlt stepSize l.length hstep l
        (Nat.le_refl _) hl
      rw [Nat.mul_comm 2 stepSize] at hb1
      have hb2 := mergeSortLoop_blocks comp T S hT hlt hnlt (stepSize * 2) l.length
        (by omega) _ (by omega) hb1
      rw [Nat.mul_comm 2 (stepSize * 2)] at hb2
      exact ih (stepSize * 2 * 2) (by omega) _ (by omega) hb2
    · rw [if_neg h]
      exact hl.sorted_of_le (by omega)

theorem mergeSortWithBuffer_sorted {α : Type} (comp : α → α → Bool) (T S : α → α → Prop)
    (hT : ∀ a b c, T a b → T b c → T a c)
    (hlt : ∀ a b, S a b → comp b a = true → T b a)
    (hnlt : ∀ a b, S a b → comp b a = false → T a b)
    (l : List α) (hl : l.Pairwise S) : (mergeSortWithBuffer comp l).Pairwise T := by
  unfold mergeSortWithBuffer
  refine mergeSortPasses_sorted comp T S hT hlt hnlt _ 7 (by omega) _ ?_
    (chunkInsertionSort_blocks comp T S hT hlt hnlt 7 l.length (by omega) l (Nat.le_refl _) hl)
  rw [(chunkInsertionSort_perm comp _ _ _).length_eq]
  omega

theorem stableSort_sorted {α : Type} (lt : α → α → Bool) (T S : α → α → Prop)
    (hT : ∀ a b c, T a b → T b c → T a c)
    (hlt : ∀ a b, S a b → lt b a = true → T b a)
    (hnlt : ∀ a b, S a b → lt b a = false → T a b)
    (l : List α) (hl : l.Pairwise S) : (stableSort lt l).Pairwise T := by
  unfold stableSort
  by_cases h : l.isEmpty = true
  · rw [if_pos h]
    rw [List.isEmpty_iff.1 h]
    exact List.Pairwise.nil
  · rw [if_neg h]
    simp only []
    have hsplit : (l.take ((l.length + 1) / 2) ++ l.drop ((l.length + 1) / 2)).Pairwise S := by
      rw [List.take_append_drop]
      exact hl
    rw [List.pairwise_append] at hsplit
    refine mergeAdaptive_sorted lt T S hT hlt hnlt _ _
      (mergeSortWithBuffer_sorted lt T S hT hlt hnlt _ hsplit.1)
      (mergeSortWithBuffer_sorted lt T S hT hlt hnlt _ hsplit.2.1) ?_
    intro x hx y hy
    exact hsplit.2.2 x ((mergeSortWithBuffer_perm lt _).mem_iff.1 hx) y
      ((mergeSortWithBuffer_perm lt _).mem_iff.1 hy)

/-- For a comparator that is a strict weak ordering of the distinct elements of an
ascending list, the result of `std::stable_sort` is sorted (no element is less than one
before it) and stable (of two elements that the comparator leaves unordered, the one that
came first still comes first). -/
theorem stableSort_sorted_stable (lt : Int → Int → Bool) (l : List Int)
    (hl : l.Pairwise (fun a b => a < b))
    (hasym : ∀ a ∈ l, ∀ b ∈ l, a ≠ b → lt a b = true → lt b a = false)
    (htrans : ∀ a ∈ l, ∀ b ∈ l, ∀ c ∈ l, a ≠ b → b ≠ c → a ≠ c →
      lt b a = false → lt c b = false → lt c a = false) :
    (stableSort lt l).Pairwise (fun a b => lt b a = false ∧ (lt a b = false → a < b)) := by
  have hmain := stableSort_sorted lt
    (fun a b => a ∈ l ∧ b ∈ l ∧ a ≠ b ∧ lt b a = false ∧ (lt a b = false → a < b))
    (fun a b => a ∈ l ∧ b ∈ l ∧ a < b) ?_ ?_ ?_ l
    (hl.imp_of_mem (fun ha hb hab => ⟨ha, hb, hab⟩))
  · exact hmain.imp (fun h => ⟨h.2.2.2.1, h.2.2.2.2⟩)
  · rintro a b c ⟨ha, hb, hab, h1, h2⟩ ⟨_, hc, hbc, h3, h4⟩
    have hac : a ≠ c := by
      intro heq
      subst heq
      have := h2 h3
      have := h4 h1
      omega
    refine ⟨ha, hc, hac, htrans a ha b hb c hc hab hbc hac h1 h3, ?_⟩
    intro h5
    have h6 : lt a b = false :=
      htrans b hb c hc a ha hbc (Ne.symm hac) (Ne.symm hab) h3 h5
    have h7 : lt b c = false :=
      htrans c hc a ha b hb (Ne.symm hac) hab (Ne.symm hbc) h5 h1
    have := h2 h6
    have := h4 h7
    omega
  · rintro a b ⟨ha, hb, hab⟩ hc
    exact ⟨hb, ha, by omega, hasym b hb a ha (by omega) hc, fun h => by rw [hc] at h; cases h⟩
  · rintro a b ⟨ha, hb, hab⟩ hc
    exact ⟨ha, hb, by omega, hc, fun _ => hab⟩

/-! ## Lemmas: the seeded map -/

theorem intRange_ascending (lo hi : Int) : (intRange lo hi).Pairwise (fun a b => a < b) := by
  unfold intRange
  rw [List.pairwise_map]
  refine List.Pairwise.imp ?_ (List.pairwise_lt_range _)
  intro a b hab
  simp only [Int.ofNat_eq_coe]
  omega

theorem intRange_zero (n : Nat) : intRange 0 ((n : Int) - 1) = (List.range n).map Int.ofNat := by
  unfold intRange
  have h : ((n : Int) - 1 + 1 - 0).toNat = n := by omega
  rw [h]
  apply List.map_congr_left
  intro k _
  simp

theorem seedManualSortMap_permutation (m : Models) (st : State) :
    IsRowPermutation (seedManualSortMap m st) m.concat.length := by
  unfold IsRowPermutation seedManualSortMap
  rw [intRange_zero]
  exact stableSort_perm _ _

/-- In Alpha mode the comparator is not a strict weak ordering of the three rows of
`fireModels` ("Fire" is less than "Fire" followed by a title, in both directions); the
seeded map is what the library's merge steps give for it. -/
theorem seedManualSortMap_fireModels :
    TasksModelLessThan fireModels alphaState false 0 1 = true
    ∧ TasksModelLessThan fireModels alphaState false 1 0 = true
    ∧ seedManualSortMap fireModels alphaState = [1, 0, 2] := by
  refine ⟨by decide, by decide, by decide⟩

theorem tasksModelLessThan_disabled (m : Models) (st : State) (a b : Int)
    (hmode : st.sortMode = SortMode.SortDisabled) (hplace : st.launchInPlace = false) :
    TasksModelLessThan m st false a b
      = decide (launcherRank m st a < launcherRank m st b
          ∨ (launcherRank m st a = launcherRank m st b ∧ a < b)) := by
  unfold TasksModelLessThan Private.lessThan launcherOrder defaultOrder concatIndex launcherRank
  simp only [hmode, hplace]
  cases st.separateLaunchers <;> cases (dataAt m.concat a).isLauncher <;>
    cases (dataAt m.concat b).isLauncher <;> simp

theorem seedManualSortMap_sorted_stable (m : Models) (st : State)
    (hasym : ∀ a ∈ (List.range m.concat.length).map Int.ofNat,
      ∀ b ∈ (List.range m.concat.length).map Int.ofNat, a ≠ b →
        TasksModelLessThan m st false a b = true → TasksModelLessThan m st false b a = false)
    (htrans : ∀ a ∈ (List.range m.concat.length).map Int.ofNat,
      ∀ b ∈ (List.range m.concat.length).map Int.ofNat,
      ∀ c ∈ (List.range m.concat.length).map Int.ofNat, a ≠ b → b ≠ c → a ≠ c →
        TasksModelLessThan m st false b a = false → TasksModelLessThan m st false c b = false →
        TasksModelLessThan m st false c a = false) :
    (seedManualSortMap m st).Pairwise (fun a b =>
      TasksModelLessThan m st false b a = false
        ∧ (TasksModelLessThan m st false a b = false → a < b)) := by
  unfold seedManualSortMap
  have hasc := intRange_ascending 0 ((m.concat.length : Int) - 1)
  rw [intRange_zero] at hasc ⊢
  exact stableSort_sorted_stable _ _ hasc hasym htrans

theorem seedManualSortMap_sorted (m : Models) (st : State)
    (hmode : st.sortMode = SortMode.SortDisabled) (hplace : st.launchInPlace = false) :
    (seedManualSortMap m st).Pairwise (fun a b => TasksModelLessThan m st false b a = false) := by
  refine (seedManualSortMap_sorted_stable m st ?_ ?_).imp (fun h => h.1)
  · intro a _ b _ _
    rw [tasksModelLessThan_disabled m st b a hmode hplace,
      tasksModelLessThan_disabled m st a b hmode hplace]
    simp only [decide_eq_true_eq, decide_eq_false_iff_not]
    omega
  · intro a _ b _ c _ _ _ _
    rw [tasksModelLessThan_disabled m st b a hmode hplace,
      tasksModelLessThan_disabled m st c b hmode hplace,
      tasksModelLessThan_disabled m st c a hmode hplace]
    simp only [decide_eq_false_iff_not]
    omega

theorem seedManualSortMap_nonLaunchers (m : Models) (st : State)
    (hmode : st.sortMode = SortMode.SortDisabled) (hplace : st.launchInPlace = false) :
    ((seedManualSortMap m st).filter (fun row => !(dataAt m.concat row).isLauncher)).Pairwise
      (fun a b => a < b) := by
  have hsorted := (seedManualSortMap_sorted m st hmode hplace).filter
    (fun row => !(dataAt m.concat row).isLauncher)
  have hnodup : ((seedManualSortMap m st).filter
      (fun row => !(dataAt m.concat row).isLauncher)).Nodup :=
    (((isRowPermutation_iff _ _).1 (seedManualSortMap_permutation m st)).1).filter _
  refine List.Pairwise.imp_of_mem ?_ (hsorted.and hnodup)
  intro a b ha hb hab
  obtain ⟨h1, h2⟩ := hab
  have ha1 : (dataAt m.concat a).isLauncher = false := by
    simpa using (List.mem_filter.1 ha).2
  have hb1 : (dataAt m.concat b).isLauncher = false := by
    simpa using (List.mem_filter.1 hb).2
  rw [tasksModelLessThan_disabled m st b a hmode hplace] at h1
  simp only [launcherRank, ha1, hb1, Bool.and_false, decide_eq_false_iff_not] at h1
  simp at h1
  omega

/-! ## Lemmas: activity task counts -/

theorem lookup_qhashInsert (hash : List (String × Int)) (key a : String) (value : Int) :
    List.lookup a (qhashInsert hash key value)
      = if a = key then some value else List.lookup a hash := by
  induction hash with
  | nil =>
    by_cases h : a = key
    · subst h
      simp [qhashInsert, List.lookup]
    · have h' : (a == key) = false := by simpa using h
      simp [qhashInsert, List.lookup, h, h']
  | cons e rest ih =>
    obtain ⟨k, v⟩ := e
    unfold qhashInsert
    by_cases hk : key = k
    · subst hk
      rw [if_pos rfl]
      by_cases h : a = key
      · subst h
        simp [List.lookup]
      · have h' : (a == key) = false := by simpa using h
        simp [List.lookup, h, h']
    · rw [if_neg hk]
      by_cases h : a = k
      · subst h
        have : ¬ a = key := fun h' => hk h'.symm
        simp [List.lookup, this]
      · have h' : (a == k) = false := by simpa using h
        simp only [List.lookup, h']
        exact ih

theorem lookup_running (running : List String) (a : String) :
    ∀ hash : List (String × Int), (List.lookup a hash = some 0 ∨ a ∈ running) →
      List.lookup a (running.foldl (fun hash activity => qhashInsert hash activity 0) hash)
        = some 0 := by
  induction running with
  | nil =>
    intro hash h
    rcases h with h | h
    · simpa using h
    · simp at h
  | cons x rest ih =>
    intro hash h
    rw [List.foldl_cons]
    apply ih
    rw [lookup_qhashInsert]
    by_cases hx : a = x
    · left; simp [hx]
    · rcases h with h | h
      · left; simp [hx, h]
      · right
        rcases List.mem_cons.1 h with h1 | h1
        · exact absurd h1 hx
        · exact h1

theorem lookup_qhashIncrementAll (hash : List (String × Int)) (a : String) (c : Int)
    (h : List.lookup a hash = some c) :
    List.lookup a (qhashIncrementAll hash) = some (c + 1) := by
  induction hash with
  | nil => simp [List.lookup] at h
  | cons e rest ih =>
    obtain ⟨k, v⟩ := e
    unfold qhashIncrementAll at ih ⊢
    by_cases hk : a = k
    · subst hk
      simp [List.lookup] at h ⊢
      omega
    · have hk' : (a == k) = false := by simpa using hk
      simp only [List.lookup, hk', List.map_cons] at h ⊢
      exact ih h

theorem lookup_qhashIncrement (hash : List (String × Int)) (key a : String) (c : Int)
    (h : List.lookup a hash = some c) :
    List.lookup a (qhashIncrement hash key) = some (c + if key = a then 1 else 0) := by
  induction hash with
  | nil => simp [List.lookup] at h
  | cons e rest ih =>
    obtain ⟨k, v⟩ := e
    unfold qhashIncrement
    by_cases hk : key = k
    · subst hk
      rw [if_pos rfl]
      by_cases ha : a = key
      · subst ha
        simp [List.lookup] at h ⊢
        omega
      · have ha' : (a == key) = false := by simpa using ha
        have ha2 : ¬ key = a := fun h' => ha h'.symm
        simp only [List.lookup, ha', if_neg ha2, add_zero] at h ⊢
        exact h
    · rw [if_neg hk]
      by_cases ha : a = k
      · subst ha
        simp [List.lookup] at h ⊢
        subst h
        simp [hk]
      · have ha' : (a == k) = false := by simpa using ha
        simp only [List.lookup, ha'] at h ⊢
        exact ih h

theorem lookup_foldl_qhashIncrement (activities : List String) (a : String) :
    ∀ (hash : List (String × Int)) (c : Int), List.lookup a hash = some c →
      List.lookup a (activities.foldl qhashIncrement hash)
        = some (c + (activities.count a : Int)) := by
  induction activities with
  | nil => intro hash c h; simpa using h
  | cons x rest ih =>
    intro hash c h
    rw [List.foldl_cons, ih _ _ (lookup_qhashIncrement hash x a c h)]
    by_cases hx : x = a
    · subst hx
      simp
      omega
    · have : (x == a) = false := by simpa using hx
      simp [List.count_cons, hx, this]

theorem lookup_countWindow (hash : List (String × Int)) (w : TaskData) (a : String) (c : Int)
    (h : List.lookup a hash = some c) :
    List.lookup a (countWindow hash w)
      = some (c + ((if w.activities.isEmpty then 1 else 0) + (w.activities.count a : Int))) := by
  unfold countWindow
  by_cases he : w.activities.isEmpty = true
  · rw [if_pos he, if_pos he, lookup_qhashIncrementAll hash a c h]
    have : w.activities = [] := by simpa using he
    simp [this]
  · rw [if_neg he, if_neg he, lookup_foldl_qhashIncrement _ _ _ _ h]
    simp

theorem lookup_foldl_countWindow (windows : List TaskData) (a : String) :
    ∀ (hash : List (String × Int)) (c : Int), List.lookup a hash = some c →
      List.lookup a (windows.foldl countWindow hash)
        = some (c + ((windows.countP (fun w => w.activities.isEmpty) : Int)
            + (windows.map (fun w => (w.activities.count a : Int))).sum)) := by
  induction windows with
  | nil => intro hash c h; simpa using h
  | cons w rest ih =>
    intro hash c h
    rw [List.foldl_cons, ih _ _ (lookup_countWindow hash w a c h)]
    by_cases he : w.activities.isEmpty = true
    · simp only [he, if_true, List.countP_cons, List.map_cons, List.sum_cons]
      push_cast
      congr 1
      omega
    · simp only [he, if_false, List.countP_cons, List.map_cons, List.sum_cons]
      push_cast
      congr 1
      omega

/-! ## The launcher rules of the comparator -/

/-- C11: with `separateLaunchers` on, in every sort mode and for either value of
`sortOnlyLaunchers`, `Private::lessThan` (which is `TasksModel::lessThan` in the
non-Manual modes) puts a launcher row `L` before a non-launcher row `T` when
`launchInPlace` is off, orders two launcher rows by their row, and with `launchInPlace`
on compares a launcher and a non-launcher with a known launcher position (not `-1`) by
launcher position. -/
theorem lessThan_launcher_rules (m : Models) (st : State) (L T : Index) (b : Bool)
    (hsep : st.separateLaunchers = true)
    (hL : L.data.isLauncher = true) (hT : T.data.isLauncher = false) :
    (st.launchInPlace = false →
      Private.lessThan m st L T b = true ∧ Private.lessThan m st T L b = false)
    ∧ (∀ L2 : Index, L2.data.isLauncher = true →
      Private.lessThan m st L L2 b = decide (L.row < L2.row))
    ∧ (st.launchInPlace = true → launcherPosition m T.data.launcherUrlWithoutIcon ≠ -1 →
      Private.lessThan m st L T b
          = decide (launcherPosition m L.data.launcherUrlWithoutIcon
              < launcherPosition m T.data.launcherUrlWithoutIcon)
        ∧ Private.lessThan m st T L b
          = decide (launcherPosition m T.data.launcherUrlWithoutIcon
              < launcherPosition m L.data.launcherUrlWithoutIcon)) := by
  refine ⟨?_, ?_, ?_⟩
  · intro hplace
    constructor <;> simp [Private.lessThan, launcherOrder, hsep, hL, hT, hplace]
  · intro L2 hL2
    simp [Private.lessThan, launcherOrder, hsep, hL, hL2]
  · intro hplace hpos
    constructor <;> simp [Private.lessThan, launcherOrder, hsep, hL, hT, hplace, hpos]

/-- Witness for C11: launcher A (row 1), launcher B (row 2) and window W (row 0) in
Alpha mode; with launch-in-place, launcher B (position 1) and a window of A (position 0). -/
theorem lessThan_launcher_rules_witness :
    (Private.lessThan exampleModels alphaState { row := 1, data := launcherA }
        { row := 0, data := windowW } false = true
      ∧ Private.lessThan exampleModels alphaState { row := 0, data := windowW }
        { row := 1, data := launcherA } false = false)
    ∧ Private.lessThan exampleModels alphaState { row := 1, data := launcherA }
        { row := 2, data := launcherB } false = true
    ∧ (Private.lessThan exampleModels launchInPlaceState { row := 2, data := launcherB }
        windowOfA false = false
      ∧ Private.lessThan exampleModels launchInPlaceState windowOfA
        { row := 2, data := launcherB } false = true) :=
  ⟨(lessThan_launcher_rules exampleModels alphaState { row := 1, data := launcherA }
      { row := 0, data := windowW } false rfl rfl rfl).1 rfl,
   (lessThan_launcher_rules exampleModels alphaState { row := 1, data := launcherA }
      { row := 0, data := windowW } false rfl rfl rfl).2.1 { row := 2, data := launcherB } rfl,
   (lessThan_launcher_rules exampleModels launchInPlaceState { row := 2, data := launcherB }
      windowOfA false rfl rfl rfl).2.2 rfl (by decide)⟩

/-! ## Virtual desktop order -/

/-- C12 (counterexample): in VirtualDesktop mode a window on desktop 1 and a startup
notification without a desktop, neither ordered by the launcher rules: `lessThan` does
not hold from the window to the startup, and holds from the startup to the window. -/
theorem lessThan_virtualDesktop_counterexample :
    virtualDesktopState.sortMode = SortMode.SortVirtualDesktop
    ∧ launcherOrder exampleModels virtualDesktopState windowOnDesktopOne startupWithoutDesktop = none
    ∧ launcherOrder exampleModels virtualDesktopState startupWithoutDesktop windowOnDesktopOne = none
    ∧ windowOnDesktopOne.data.virtualDesktop = some 1
    ∧ startupWithoutDesktop.data.virtualDesktop = none
    ∧ ¬ (Private.lessThan exampleModels virtualDesktopState windowOnDesktopOne
          startupWithoutDesktop false = true
        ∧ Private.lessThan exampleModels virtualDesktopState startupWithoutDesktop
          windowOnDesktopOne false = false) := by
  refine ⟨rfl, by decide, by decide, rfl, rfl, by decide⟩

/-- C12 (amended): in VirtualDesktop mode, for two rows not ordered by the launcher
rules, a row without a numeric desktop sorts before a row with one:
`lessThan(numeric, nonNumeric)` is `false` and `lessThan(nonNumeric, numeric)` is `true`;
two rows with different numeric desktops are ordered by desktop number. -/
theorem lessThan_virtualDesktop (m : Models) (st : State) (a b : Index)
    (hmode : st.sortMode = SortMode.SortVirtualDesktop)
    (hab : launcherOrder m st a b = none) (hba : launcherOrder m st b a = none) :
    (∀ d : Int, a.data.virtualDesktop = some d → b.data.virtualDesktop = none →
      Private.lessThan m st a b false = false ∧ Private.lessThan m st b a false = true)
    ∧ (∀ d e : Int, a.data.virtualDesktop = some d → b.data.virtualDesktop = some e → d ≠ e →
      Private.lessThan m st a b false = decide (d < e)
        ∧ Private.lessThan m st b a false = decide (e < d)) := by
  rw [lessThan_of_launcherOrder_none m st a b hab, lessThan_of_launcherOrder_none m st b a hba]
  refine ⟨?_, ?_⟩
  · intro d ha hb
    simp [hmode, virtualDesktopOrder, ha, hb]
  · intro d e ha hb hde
    have hed : ¬ e = d := fun h => hde h.symm
    simp [hmode, virtualDesktopOrder, ha, hb, hde, hed]

/-- Witness for C12 (amended): the window on desktop 1 against the startup without a
desktop and against the window on desktop 2. -/
theorem lessThan_virtualDesktop_witness :
    (Private.lessThan exampleModels virtualDesktopState windowOnDesktopOne
        startupWithoutDesktop false = false
      ∧ Private.lessThan exampleModels virtualDesktopState startupWithoutDesktop
        windowOnDesktopOne false = true)
    ∧ (Private.lessThan exampleModels virtualDesktopState windowOnDesktopOne
        windowOnDesktopTwo false = true
      ∧ Private.lessThan exampleModels virtualDesktopState windowOnDesktopTwo
        windowOnDesktopOne false = false) :=
  ⟨(lessThan_virtualDesktop exampleModels virtualDesktopState windowOnDesktopOne
      startupWithoutDesktop rfl (by decide) (by decide)).1 1 rfl rfl,
   (lessThan_virtualDesktop exampleModels virtualDesktopState windowOnDesktopOne
      windowOnDesktopTwo rfl (by decide) (by decide)).2 1 2 rfl rfl (by decide)⟩

/-! ## Activity order -/

/-- C13 (evaluation of the code): Activity mode, launchers not separated, counts
work = 1 and home = 0. The window on "work" has the larger total (1 against 0) than the
launcher pinned on "home", both activity lists are non-empty, and `lessThan` holds from
the launcher to the window, not from the window to the launcher. -/
theorem lessThan_activity_zero_total :
    launcherOrder exampleModels activityState windowOnWork launcherOnHome = none
    ∧ launcherOrder exampleModels activityState launcherOnHome windowOnWork = none
    ∧ (windowOnWork.data.activities.map (countOf activityState.activityTaskCounts)).sum = 1
    ∧ (launcherOnHome.data.activities.map (countOf activityState.activityTaskCounts)).sum = 0
    ∧ Private.lessThan exampleModels activityState windowOnWork launcherOnHome false = false
    ∧ Private.lessThan exampleModels activityState launcherOnHome windowOnWork false = true := by
  refine ⟨by decide, by decide, by decide, by decide, by decide, by decide⟩

/-- C14 (evaluation of the code): Activity mode, the only activity "work" counts 2.
The window without activities scores the grand total 2; the window assigned to "work",
whose counts add up to the grand total as well, scores 1; the score comparison decides
their order, against the alphabetical order of "Zim" and "Ark". -/
theorem activityScore_off_by_one :
    (totalState.activityTaskCounts.map Prod.snd).sum = 2
    ∧ (assignedWindow.data.activities.map (countOf totalState.activityTaskCounts)).sum = 2
    ∧ activityScore totalState.activityTaskCounts unassignedWindow.data.activities = 2
    ∧ activityScore totalState.activityTaskCounts assignedWindow.data.activities = 1
    ∧ activityOrder totalState unassignedWindow assignedWindow = some true
    ∧ defaultOrder exampleModels totalState unassignedWindow assignedWindow = false
    ∧ Private.lessThan exampleModels totalState unassignedWindow assignedWindow false = true := by
  refine ⟨by decide, by decide, by decide, by decide, by decide, by decide, by decide⟩

/-! ## Disabled sorting -/

/-- C15 (counterexample): sorting Disabled with launchers separated (the default):
launcher B in row 2 is less than window W in row 0, although 2 is not smaller than 0. -/
theorem lessThan_disabled_counterexample :
    disabledState.sortMode = SortMode.SortDisabled
    ∧ ¬ (Private.lessThan exampleModels disabledState { row := 2, data := launcherB }
          { row := 0, data := windowW } false = true ↔ (2 : Int) < 0) := by
  refine ⟨rfl, by decide⟩

/-- C15 (amended): when `sortMode` is Disabled, for every two rows that the launcher
rules do not order, or that are both launchers, `lessThan(left, right)` holds exactly
when `left`'s row is smaller than `right`'s. -/
theorem lessThan_disabled (m : Models) (st : State) (left right : Index)
    (hmode : st.sortMode = SortMode.SortDisabled)
    (hrules : launcherOrder m st left right = none
      ∨ (left.data.isLauncher = true ∧ right.data.isLauncher = true)) :
    Private.lessThan m st left right false = true ↔ left.row < right.row := by
  by_cases hnone : launcherOrder m st left right = none
  · rw [lessThan_of_launcherOrder_none m st left right hnone]
    simp [hmode, defaultOrder]
  · rcases hrules with h | ⟨hl, hr⟩
    · exact absurd h hnone
    · have hsep : st.separateLaunchers = true := by
        by_contra hc
        exact hnone (launcherOrder_none_of_separate_off m st left right (by simpa using hc))
      simp [Private.lessThan, launcherOrder, hsep, hl, hr]

/-- Witness for C15 (amended): two windows, and two launchers, in Disabled mode. -/
theorem lessThan_disabled_witness :
    (Private.lessThan exampleModels disabledState firefoxWikipedia firefoxKde false = true
      ↔ (0 : Int) < 1)
    ∧ (Private.lessThan exampleModels disabledState { row := 2, data := launcherB }
        { row := 1, data := launcherA } false = true ↔ (2 : Int) < 1) :=
  ⟨lessThan_disabled exampleModels disabledState firefoxWikipedia firefoxKde rfl
      (Or.inl (by decide)),
   lessThan_disabled exampleModels disabledState { row := 2, data := launcherB }
      { row := 1, data := launcherA } rfl (Or.inr ⟨rfl, rfl⟩)⟩

/-! ## Seeding the manual sort map -/

/-- C16 (counterexample): two windows, Firefox in row 0 and Dolphin in row 1, no
launchers, no grouping, empty map. `setSortMode(Manual)` from Alpha mode seeds the map
`[1, 0]`: the non-launcher rows are not in source order; from Disabled mode it seeds
`[0, 1]`: the previous sort mode decides. -/
theorem setSortMode_manual_counterexample :
    alphaState.sortMode ≠ SortMode.SortManual
    ∧ alphaState.sortedPreFilterRows = []
    ∧ browserModels.concat.map (fun row => row.isLauncher) = [false, false]
    ∧ (setSortMode browserModels plainShared alphaState SortMode.SortManual).map
        (fun r => r.2.sortedPreFilterRows) = some [1, 0]
    ∧ seedManualSortMap browserModels alphaState = [1, 0]
    ∧ (setSortMode browserModels plainShared disabledState SortMode.SortManual).map
        (fun r => r.2.sortedPreFilterRows) = some [0, 1] := by
  refine ⟨by decide, rfl, by decide, by decide, by decide, by decide⟩

/-- C16 (amended): when `setSortMode(Manual)` is called from a non-Manual mode with an
empty map, the map before group consolidation is a permutation of the rows `0 .. n - 1`
ordered by the full comparator under the previously active sort mode: provided that
comparator is a strict weak ordering of the rows, no row of the map is less than a row
before it, and of two rows that the comparator leaves unordered the one with the lower
source row comes first. When the previous mode is Disabled and `launchInPlace` is off the
non-launcher rows appear in it in their relative source order. -/
theorem setSortMode_manual_seed (m : Models) (sh : Shared) (st : State)
    (hmode : st.sortMode ≠ SortMode.SortManual)
    (hempty : st.sortedPreFilterRows = []) :
    (setSortMode m sh st SortMode.SortManual).map (fun r => r.2.sortedPreFilterRows)
        = (if m.groupMode ≠ GroupMode.GroupDisabled then
            consolidateGroups m.grouping (seedManualSortMap m st)
          else some (seedManualSortMap m st))
    ∧ IsRowPermutation (seedManualSortMap m st) m.concat.length
    ∧ ((∀ a ∈ (List.range m.concat.length).map Int.ofNat,
          ∀ b ∈ (List.range m.concat.length).map Int.ofNat, a ≠ b →
            TasksModelLessThan m st false a b = true →
            TasksModelLessThan m st false b a = false) →
        (∀ a ∈ (List.range m.concat.length).map Int.ofNat,
          ∀ b ∈ (List.range m.concat.length).map Int.ofNat,
          ∀ c ∈ (List.range m.concat.length).map Int.ofNat, a ≠ b → b ≠ c → a ≠ c →
            TasksModelLessThan m st false b a = false →
            TasksModelLessThan m st false c b = false →
            TasksModelLessThan m st false c a = false) →
        (seedManualSortMap m st).Pairwise (fun a b =>
          TasksModelLessThan m st false b a = false
            ∧ (TasksModelLessThan m st false a b = false → a < b)))
    ∧ (st.sortMode = SortMode.SortDisabled → st.launchInPlace = false →
        ((seedManualSortMap m st).filter (fun row => !(dataAt m.concat row).isLauncher)).Pairwise
          (fun a b => a < b)) := by
  refine ⟨?_, seedManualSortMap_permutation m st, seedManualSortMap_sorted_stable m st,
    seedManualSortMap_nonLaunchers m st⟩
  unfold setSortMode
  rw [if_pos hmode]
  simp only [if_true]
  unfold updateManualSortMap
  simp only [hempty, List.isEmpty_nil, if_true]
  by_cases hg : m.groupMode ≠ GroupMode.GroupDisabled
  · simp only [hg, if_true, ne_eq, not_false_eq_true]
    cases consolidateGroups m.grouping (seedManualSortMap m st) with
    | none => simp
    | some rows =>
      by_cases ha : st.sortMode = SortMode.SortActivity <;> simp [ha]
  · simp only [hg, if_false]
    by_cases ha : st.sortMode = SortMode.SortActivity <;> simp [ha]

/-- Witness for C16 (amended): three windows, Firefox, W and Dolphin, seeded from Alpha
mode, where the comparator orders the three rows strictly, as Dolphin, Firefox, W; and
the windows W and V before the launchers A and B, seeded from Disabled mode, as A, B, W,
V. -/
theorem setSortMode_manual_seed_witness :
    ((setSortMode threeWindowModels plainShared alphaState SortMode.SortManual).map
        (fun r => r.2.sortedPreFilterRows) = some [2, 0, 1]
      ∧ IsRowPermutation (seedManualSortMap threeWindowModels alphaState) 3
      ∧ (seedManualSortMap threeWindowModels alphaState).Pairwise (fun a b =>
          TasksModelLessThan threeWindowModels alphaState false b a = false
            ∧ (TasksModelLessThan threeWindowModels alphaState false a b = false → a < b)))
    ∧ ((setSortMode fourModels plainShared disabledState SortMode.SortManual).map
        (fun r => r.2.sortedPreFilterRows) = some [2, 3, 0, 1]
      ∧ ((seedManualSortMap fourModels disabledState).filter
          (fun row => !(dataAt fourModels.concat row).isLauncher)).Pairwise
            (fun a b => a < b)) :=
  have h := setSortMode_manual_seed threeWindowModels plainShared alphaState (by decide) rfl
  have h4 := setSortMode_manual_seed fourModels plainShared disabledState (by decide) rfl
  ⟨⟨h.1.trans (by decide), h.2.1, h.2.2.1 (by decide) (by decide)⟩,
   h4.1.trans (by decide), h4.2.2.2 rfl rfl⟩

/-! ## The application-identity rule -/

/-- C17 (counterexample): a row whose AppId and AppName are both empty does not match
itself under the inline identity rule. -/
theorem identityMatches_counterexample :
    TaskData.invalid.appId = "" ∧ TaskData.invalid.appName = ""
    ∧ identityMatches TaskData.invalid.appId TaskData.invalid.appName TaskData.invalid = false := by
  refine ⟨rfl, rfl, by decide⟩

/-- C17 (amended): under the inline identity rule a row matches itself exactly when
its AppId or its AppName is non-empty; a row with both empty does not match itself. -/
theorem identityMatches_self (r : TaskData) :
    identityMatches r.appId r.appName r = true ↔ (r.appId ≠ "" ∨ r.appName ≠ "") := by
  unfold identityMatches
  simp

/-- C18: the inline identity rule is symmetric: `a` matches `b` (AppId of `a`
non-empty and equal to that of `b`, or AppName of `a` non-empty and equal to that of
`b`) if and only if `b` matches `a`. -/
theorem identityMatches_symmetric (a b : TaskData) :
    identityMatches a.appId a.appName b = true ↔ identityMatches b.appId b.appName a = true := by
  unfold identityMatches
  simp only [Bool.or_eq_true, Bool.and_eq_true, Bool.not_eq_true', decide_eq_false_iff_not,
    beq_iff_eq]
  constructor
  · rintro (⟨h1, h2⟩ | ⟨h1, h2⟩)
    · exact Or.inl ⟨fun h => h1 (h2.trans h), h2.symm⟩
    · exact Or.inr ⟨fun h => h1 (h2.trans h), h2.symm⟩
  · rintro (⟨h1, h2⟩ | ⟨h1, h2⟩)
    · exact Or.inl ⟨fun h => h1 (h2.trans h), h2.symm⟩
    · exact Or.inr ⟨fun h => h1 (h2.trans h), h2.symm⟩

/-! ## `forceResort` -/

/-- C19 (evaluation of the code): Alpha mode, two Firefox windows with titles. The
comparator pass turns the source order into Kde, Wikipedia; a second pass on that result
turns it back: the result of a pass is not left unchanged by the next pass. -/
theorem forceResort_not_idempotent :
    (forceResort exampleModels alphaState firefoxOrder).map (fun r => r.preFilterRow) = [1, 0]
    ∧ (forceResort exampleModels alphaState
        (forceResort exampleModels alphaState firefoxOrder)).map (fun r => r.preFilterRow) = [0, 1]
    ∧ forceResort exampleModels alphaState (forceResort exampleModels alphaState firefoxOrder)
        ≠ forceResort exampleModels alphaState firefoxOrder := by
  refine ⟨by decide, by decide, by decide⟩

/-! ## `updateActivityTaskCounts` -/

/-- C20: after `updateActivityTaskCounts()` with the window source and the activity
info present, the count stored for every running activity `a` is the number of window
tasks with an empty activity list plus the number of times `a` occurs in the activity
lists of the window tasks; without the window source or the activity info the counts
are empty. -/
theorem updateActivityTaskCounts_counts (m : Models) (sh : Shared) (st : State) :
    (sh.windowTasksModel = true → sh.activityInfo = true → ∀ a ∈ m.runningActivities,
      List.lookup a (updateActivityTaskCounts m sh st).activityTaskCounts
        = some ((m.windows.countP (fun w => w.activities.isEmpty) : Int)
            + (m.windows.map (fun w => (w.activities.count a : Int))).sum))
    ∧ ((sh.windowTasksModel = false ∨ sh.activityInfo = false) →
      (updateActivityTaskCounts m sh st).activityTaskCounts = []) := by
  refine ⟨?_, ?_⟩
  · intro hw hi a ha
    unfold updateActivityTaskCounts
    rw [if_neg (by simp [hw, hi])]
    simp only []
    rw [lookup_foldl_countWindow m.windows a _ 0 (lookup_running _ a [] (Or.inr ha))]
    simp
  · intro h
    unfold updateActivityTaskCounts
    rw [if_pos (by rcases h with h | h <;> simp [h])]

/-- Witness for C20: one window without activities and one on "work": the count
stored for the running activity "work" is `1 + 1`; without activity info the counts are
empty. -/
theorem updateActivityTaskCounts_counts_witness :
    List.lookup "work" (updateActivityTaskCounts totalModels activityShared totalState).activityTaskCounts
        = some (1 + 1)
    ∧ (updateActivityTaskCounts totalModels plainShared totalState).activityTaskCounts = [] :=
  ⟨(updateActivityTaskCounts_counts totalModels activityShared totalState).1 rfl rfl "work"
      (by decide),
   (updateActivityTaskCounts_counts totalModels plainShared totalState).2 (Or.inr rfl)⟩


/-! ## Lemmas: positions in the map -/

theorem indexOf_append_cons (a b : List Int) (x : Int) (h : x ∉ a) :
    indexOf (a ++ x :: b) x = (a.length : Int) := by
  induction a with
  | nil => simp [indexOf]
  | cons y a ih =>
    have hy : y ≠ x := fun h' => h (by simp [h'])
    have hx : x ∉ a := fun h' => h (by simp [h'])
    have ih' := ih hx
    show indexOf (y :: (a ++ x :: b)) x = _
    unfold indexOf
    rw [if_neg hy]
    simp only []
    rw [ih', if_neg (by omega)]
    simp

theorem eraseIdx_append_cons {α : Type} (a b : List α) (x : α) :
    (a ++ x :: b).eraseIdx a.length = a ++ b := by
  induction a with
  | nil => simp
  | cons y a ih => simp [ih]

theorem insertIdx_append_length {α : Type} (u v : List α) (x : α) :
    (u ++ v).insertIdx u.length x = u ++ x :: v := by
  induction u with
  | nil => cases v <;> simp [List.insertIdx]
  | cons y u ih =>
    simp only [List.cons_append, List.length_cons, List.insertIdx_succ_cons, ih]

theorem qlistMove_split (a b : List Int) (x : Int) (t : Nat) (ht : t ≤ a.length + b.length) :
    qlistMove (a ++ x :: b) (a.length : Int) (t : Int)
      = some ((a ++ b).insertIdx t x) := by
  unfold qlistMove
  have hlen : (a ++ x :: b).length = a.length + b.length + 1 := by simp; omega
  rw [if_pos (by rw [hlen]; omega)]
  simp only [Int.toNat_ofNat]
  have hget : (a ++ x :: b)[a.length]? = some x := by
    rw [List.getElem?_append_right (Nat.le_refl _)]
    simp
  rw [hget]
  simp only []
  rw [eraseIdx_append_cons]


theorem filter_not_mem_cons_of_not_mem (l rest : List Int) (c : Int) (h : c ∉ l) :
    l.filter (fun v => decide (v ∉ c :: rest)) = l.filter (fun v => decide (v ∉ rest)) := by
  apply List.filter_congr
  intro v hv
  have : v ≠ c := fun h' => h (h' ▸ hv)
  simp [this]

theorem filter_not_mem_cons_split (a b rest : List Int) (c : Int) (ha : c ∉ a) (hb : c ∉ b) :
    (a ++ c :: b).filter (fun v => decide (v ∉ c :: rest))
      = (a ++ b).filter (fun v => decide (v ∉ rest)) := by
  rw [List.filter_append, List.filter_append, List.filter_cons_of_neg (by simp),
    filter_not_mem_cons_of_not_mem a rest c ha, filter_not_mem_cons_of_not_mem b rest c hb]

theorem consolidateLoop_block (leader : Int) (rest : List Int) :
    ∀ (pre dt post : List Int),
      (pre ++ leader :: dt ++ post).Nodup → rest.Nodup →
      (∀ c ∈ rest, c ∈ pre ∨ c ∈ post) →
      ∃ pre1 post1,
        consolidateLoop leader rest ((dt.length : Int) + 1) (pre ++ leader :: dt ++ post)
            = some (pre1 ++ leader :: (dt ++ rest) ++ post1)
          ∧ pre1 ++ post1 = (pre ++ post).filter (fun v => decide (v ∉ rest)) := by
  induction rest with
  | nil =>
    intro pre dt post _ _ _
    exact ⟨pre, post, by simp [consolidateLoop], by simp⟩
  | cons c rest ih =>
    intro pre dt post hnd hrnd hmem
    have hc_rest : c ∉ rest := (List.nodup_cons.1 hrnd).1
    have hrnd' : rest.Nodup := (List.nodup_cons.1 hrnd).2
    have hleader : leader ∉ pre := by
      intro h
      have h1 : (pre ++ (leader :: dt ++ post)).Nodup := by simpa using hnd
      exact (List.nodup_append.1 h1).2.2 h (by simp)
    have hlp : indexOf (pre ++ leader :: dt ++ post) leader = (pre.length : Int) := by
      have e : pre ++ leader :: dt ++ post = pre ++ leader :: (dt ++ post) := by simp
      rw [e]
      exact indexOf_append_cons pre (dt ++ post) leader hleader
    unfold consolidateLoop
    simp only []
    rw [hlp]
    rcases hmem c (by simp) with hc | hc
    · -- the child stands before the leader
      obtain ⟨p1, p2, hpre⟩ := List.append_of_mem hc
      subst hpre
      have e : p1 ++ c :: p2 ++ leader :: dt ++ post = p1 ++ c :: (p2 ++ leader :: dt ++ post) := by
        simp
      have hnd1 : (p1 ++ c :: (p2 ++ leader :: dt ++ post)).Nodup := by rw [← e]; exact hnd
      have hc1 : c ∉ p1 := fun h => (List.nodup_append.1 hnd1).2.2 h (by simp)
      have hc2 : c ∉ p2 ++ leader :: dt ++ post :=
        (List.nodup_cons.1 (List.nodup_append.1 hnd1).2.1).1
      have hcp : indexOf (p1 ++ c :: p2 ++ leader :: dt ++ post) c = (p1.length : Int) := by
        rw [e]
        exact indexOf_append_cons p1 _ c hc1
      rw [hcp]
      have hpos : ((p1 ++ c :: p2).length : Int) + ((dt.length : Int) + 1)
          + (if ((p1 ++ c :: p2).length : Int) + ((dt.length : Int) + 1) > (p1.length : Int)
              then -1 else 0)
          = ((p1.length + p2.length + dt.length + 1 : Nat) : Int) := by
        rw [if_pos (by simp; omega)]
        simp
        omega
      rw [hpos, e, qlistMove_split p1 _ c _ (by simp; omega)]
      simp only []
      have e2 : (p1 ++ (p2 ++ leader :: dt ++ post)).insertIdx
          (p1.length + p2.length + dt.length + 1) c
          = (p1 ++ p2) ++ leader :: (dt ++ [c]) ++ post := by
        have e3 : p1 ++ (p2 ++ leader :: dt ++ post) = (p1 ++ p2 ++ leader :: dt) ++ post := by
          simp
        have e4 : p1.length + p2.length + dt.length + 1 = (p1 ++ p2 ++ leader :: dt).length := by
          simp; omega
        rw [e3, e4, insertIdx_append_length]
        simp
      rw [e2]
      have hnd2 : ((p1 ++ p2) ++ leader :: (dt ++ [c]) ++ post).Nodup := by
        refine (List.Perm.nodup_iff ?_).2 hnd1
        have : (p1 ++ p2) ++ leader :: (dt ++ [c]) ++ post
            = p1 ++ (p2 ++ leader :: dt) ++ c :: post := by simp
        rw [this]
        have e5 : p1 ++ c :: (p2 ++ leader :: dt ++ post)
            = p1 ++ c :: ((p2 ++ leader :: dt) ++ post) := by simp
        rw [e5]
        have : p1 ++ (p2 ++ leader :: dt) ++ c :: post
            = p1 ++ ((p2 ++ leader :: dt) ++ c :: post) := by simp
        rw [this]
        exact List.Perm.append_left p1 List.perm_middle
      have hmem2 : ∀ c' ∈ rest, c' ∈ p1 ++ p2 ∨ c' ∈ post := by
        intro c' hc'
        have hne : c' ≠ c := fun h => hc_rest (h ▸ hc')
        rcases hmem c' (by simp [hc']) with h | h
        · left
          simp only [List.mem_append, List.mem_cons] at h ⊢
          tauto
        · exact Or.inr h
      obtain ⟨pre1, post1, h1, h2⟩ := ih (p1 ++ p2) (dt ++ [c]) post hnd2 hrnd' hmem2
      refine ⟨pre1, post1, ?_, ?_⟩
      · have hi : ((dt.length : Int) + 1 + 1) = (((dt ++ [c]).length : Nat) : Int) + 1 := by simp
        rw [hi, h1]
        simp
      · rw [h2]
        have hcpost : c ∉ post := fun h => hc2 (by simp [h])
        have hcp2 : c ∉ p2 := fun h => hc2 (by simp [h])
        have e6 : p1 ++ c :: p2 ++ post = p1 ++ c :: (p2 ++ post) := by simp
        rw [e6, filter_not_mem_cons_split p1 (p2 ++ post) rest c hc1
          (by simp [hcp2, hcpost])]
        simp
    · -- the child stands after the leader's block
      obtain ⟨p1, p2, hpost⟩ := List.append_of_mem hc
      subst hpost
      have e : pre ++ leader :: dt ++ (p1 ++ c :: p2) = (pre ++ leader :: dt ++ p1) ++ c :: p2 := by
        simp
      have hnd1 : ((pre ++ leader :: dt ++ p1) ++ c :: p2).Nodup := by rw [← e]; exact hnd
      have hc1 : c ∉ pre ++ leader :: dt ++ p1 := fun h => (List.nodup_append.1 hnd1).2.2 h (by simp)
      have hc2 : c ∉ p2 := (List.nodup_cons.1 (List.nodup_append.1 hnd1).2.1).1
      have hcp : indexOf (pre ++ leader :: dt ++ (p1 ++ c :: p2)) c
          = ((pre ++ leader :: dt ++ p1).length : Int) := by
        rw [e]
        exact indexOf_append_cons _ p2 c hc1
      rw [hcp]
      have hpos : (pre.length : Int) + ((dt.length : Int) + 1)
          + (if (pre.length : Int) + ((dt.length : Int) + 1)
                > ((pre ++ leader :: dt ++ p1).length : Int) then -1 else 0)
          = ((pre.length + dt.length + 1 : Nat) : Int) := by
        rw [if_neg (by simp)]
        simp
        omega
      rw [hpos, e, qlistMove_split _ p2 c _ (by simp; omega)]
      simp only []
      have e2 : ((pre ++ leader :: dt ++ p1) ++ p2).insertIdx (pre.length + dt.length + 1) c
          = pre ++ leader :: (dt ++ [c]) ++ (p1 ++ p2) := by
        have e3 : (pre ++ leader :: dt ++ p1) ++ p2 = (pre ++ leader :: dt) ++ (p1 ++ p2) := by simp
        have e4 : pre.length + dt.length + 1 = (pre ++ leader :: dt).length := by simp; omega
        rw [e3, e4, insertIdx_append_length]
        simp
      rw [e2]
      have hnd2 : (pre ++ leader :: (dt ++ [c]) ++ (p1 ++ p2)).Nodup := by
        refine (List.Perm.nodup_iff ?_).2 hnd1
        have : pre ++ leader :: (dt ++ [c]) ++ (p1 ++ p2)
            = (pre ++ leader :: dt) ++ c :: (p1 ++ p2) := by simp
        rw [this]
        have e5 : (pre ++ leader :: dt ++ p1) ++ c :: p2
            = (pre ++ leader :: dt) ++ (p1 ++ c :: p2) := by simp
        rw [e5]
        exact List.Perm.append_left _ List.perm_middle.symm
      have hmem2 : ∀ c' ∈ rest, c' ∈ pre ∨ c' ∈ p1 ++ p2 := by
        intro c' hc'
        have hne : c' ≠ c := fun h => hc_rest (h ▸ hc')
        rcases hmem c' (by simp [hc']) with h | h
        · exact Or.inl h
        · right
          simp only [List.mem_append, List.mem_cons] at h ⊢
          tauto
      obtain ⟨pre1, post1, h1, h2⟩ := ih pre (dt ++ [c]) (p1 ++ p2) hnd2 hrnd' hmem2
      refine ⟨pre1, post1, ?_, ?_⟩
      · have hi : ((dt.length : Int) + 1 + 1) = (((dt ++ [c]).length : Nat) : Int) + 1 := by simp
        rw [hi, h1]
        simp
      · rw [h2]
        have hcpre : c ∉ pre := fun h => hc1 (by simp [h])
        have hcp1 : c ∉ p1 := fun h => hc1 (by simp [h])
        have e6 : pre ++ (p1 ++ c :: p2) = (pre ++ p1) ++ c :: p2 := by simp
        rw [e6, filter_not_mem_cons_split (pre ++ p1) p2 rest c (by simp [hcpre, hcp1]) hc2]
        simp


/-! ## Lemmas: placing a queued row -/

theorem getRow_natCast {α : Type} (l : List α) (k : Nat) : getRow l (k : Int) = l[k]? := by
  unfold getRow
  rw [if_neg (by omega)]
  simp

theorem findAppSibling_found (m : Models) (idx : TaskData) (pre : List Int) (r : Int)
    (hr : m.appsMatch (dataAt m.concat r) idx = true) (post : List Int) :
    ∀ tail : List Int, (∀ q ∈ post, m.appsMatch (dataAt m.concat q) idx = false) →
      findAppSibling m idx (pre.length + 1 + post.length) (pre ++ r :: post ++ tail)
        = some (some (pre.length : Int)) := by
  induction post using List.reverseRecOn with
  | nil =>
    intro tail _
    simp only [List.length_nil, Nat.add_zero]
    unfold findAppSibling
    rw [getRow_natCast]
    have hget : (pre ++ [r] ++ tail)[pre.length]? = some r := by
      have e : pre ++ [r] ++ tail = pre ++ r :: tail := by simp
      rw [e, List.getElem?_append_right (Nat.le_refl _)]
      simp
    rw [hget]
    simp only []
    rw [if_pos hr]
  | append_singleton l a ih =>
    intro tail hpost
    have ha : m.appsMatch (dataAt m.concat a) idx = false := hpost a (by simp)
    have hl : ∀ q ∈ l, m.appsMatch (dataAt m.concat q) idx = false :=
      fun q hq => hpost q (by simp [hq])
    have hk : pre.length + 1 + (l ++ [a]).length = (pre.length + 1 + l.length) + 1 := by
      simp; omega
    rw [hk]
    unfold findAppSibling
    rw [getRow_natCast]
    have e : pre ++ r :: (l ++ [a]) ++ tail = (pre ++ r :: l) ++ a :: tail := by simp
    have hget : (pre ++ r :: (l ++ [a]) ++ tail)[pre.length + 1 + l.length]? = some a := by
      rw [e, List.getElem?_append_right (by simp; omega)]
      simp
      have : pre.length + 1 + l.length - (pre.length + (l.length + 1)) = 0 := by omega
      rw [this]
      simp
    rw [hget]
    simp only []
    rw [if_neg (by simp [ha])]
    have e2 : pre ++ r :: (l ++ [a]) ++ tail = pre ++ r :: l ++ (a :: tail) := by simp
    rw [e2]
    exact ih (a :: tail) hl

theorem intRange_single (start : Int) : intRange start start = [start] := by
  unfold intRange
  have : (start + 1 - start).toNat = 1 := by omega
  rw [this]
  simp [List.range_succ]

theorem rowsAboutToBeInserted_single (st : State) (start : Int)
    (hmode : st.sortMode = SortMode.SortManual) (hsep : st.separateLaunchers = false) :
    rowsAboutToBeInserted st start start
      = { st with
          sortedPreFilterRows :=
            st.sortedPreFilterRows.map (fun v => if v ≥ start then v + 1 else v) ++ [start]
          sortRowInsertQueue :=
            st.sortRowInsertQueue ++ [(st.sortedPreFilterRows.length : Int)] } := by
  unfold rowsAboutToBeInserted
  rw [if_neg (by simp [hmode]), intRange_single]
  simp [hsep]

theorem placeQueuedRow_sibling (m : Models) (st : State) (start r : Int) (pre post : List Int)
    (hever : st.launchersEverSet = true)
    (hnon : (dataAt m.concat start).isLauncher = false)
    (hr : m.appsMatch (dataAt m.concat r) (dataAt m.concat start) = true)
    (hpost : ∀ q ∈ post, m.appsMatch (dataAt m.concat q) (dataAt m.concat start) = false) :
    placeQueuedRow m st (pre ++ r :: post ++ [start]) ((pre ++ r :: post).length : Int)
      = some (pre ++ r :: start :: post) := by
  unfold placeQueuedRow
  rw [getRow_natCast]
  have hget : (pre ++ r :: post ++ [start])[(pre ++ r :: post).length]? = some start := by
    rw [List.getElem?_append_right (Nat.le_refl _)]
    simp
  rw [hget]
  simp only [hever, hnon, Bool.not_false, Bool.and_self, if_true, Int.toNat_ofNat]
  have hlen : (pre ++ r :: post).length = pre.length + 1 + post.length := by simp; omega
  have hfind := findAppSibling_found m (dataAt m.concat start) pre r hr post [start] hpost
  rw [hlen, hfind]
  simp only []
  have hmove : qlistMove (pre ++ r :: post ++ [start]) ((pre.length + 1 + post.length : Nat) : Int)
      ((pre.length : Int) + 1) = some (pre ++ r :: start :: post) := by
    have e : ((pre.length : Int) + 1) = ((pre.length + 1 : Nat) : Int) := by simp
    have hq := qlistMove_split (pre ++ r :: post) [] start (pre.length + 1) (by simp)
    rw [hlen] at hq
    rw [e, hq]
    have e2 : pre ++ r :: post ++ [] = (pre ++ [r]) ++ post := by simp
    have e3 : pre.length + 1 = (pre ++ [r]).length := by simp
    rw [e2, e3, insertIdx_append_length]
    simp
  rw [hmove]
  simp

theorem placeQueuedRow_never_set (m : Models) (st : State) (start : Int) (rows : List Int)
    (hever : st.launchersEverSet = false)
    (hnon : (dataAt m.concat start).isLauncher = false) :
    placeQueuedRow m st (rows ++ [start]) (rows.length : Int) = some (rows ++ [start]) := by
  unfold placeQueuedRow
  rw [getRow_natCast]
  have hget : (rows ++ [start])[rows.length]? = some start := by
    rw [List.getElem?_append_right (Nat.le_refl _)]
    simp
  rw [hget]
  simp [hever, hnon]


theorem indexOf_block (pre block post : List Int) (i : Nat) (c : Int)
    (hnd : (pre ++ block ++ post).Nodup) (hc : block[i]? = some c) :
    indexOf (pre ++ block ++ post) c = (pre.length : Int) + i := by
  obtain ⟨hi, hget⟩ := List.getElem?_eq_some.1 hc
  have hsplit : block = block.take i ++ c :: block.drop (i + 1) := by
    conv_lhs => rw [← List.take_append_drop i block]
    rw [List.drop_eq_getElem_cons hi, hget]
  have e : pre ++ block ++ post = (pre ++ block.take i) ++ c :: (block.drop (i + 1) ++ post) := by
    conv_lhs => rw [hsplit]
    simp
  have hnd1 := hnd
  rw [e] at hnd1
  have hnot : c ∉ pre ++ block.take i := fun h => (List.nodup_append.1 hnd1).2.2 h (by simp)
  rw [e, indexOf_append_cons _ _ c hnot]
  simp
  omega


end TaskManager

namespace TaskManager

/-! ## Lemmas: the rows-removed handler -/

theorem foldl_erase_eq_filter (l : List Int) :
    ∀ rows : List Int, rows.Nodup →
      l.foldl (fun rows i => rows.erase i) rows = rows.filter (fun v => decide (v ∉ l)) := by
  induction l with
  | nil => intro rows _; simp
  | cons a l ih =>
    intro rows h
    rw [List.foldl_cons, ih _ (h.erase a), h.erase_eq_filter a, List.filter_filter]
    apply List.filter_congr
    intro v _
    by_cases hv : v = a <;> simp [hv]

/-! ## Lemmas: `syncLaunchers` and the dirty flag -/

/-- With the dirty flag clear or without a launcher source, `syncLaunchers` changes
nothing. -/
theorem syncLaunchers_nothing_to_do (m : Models) (st : State)
    (h : st.launcherSortingDirty = false ∨ m.launcher = none) :
    syncLaunchers m st = some (st, none) := by
  unfold syncLaunchers
  cases hl : m.launcher with
  | none => rfl
  | some l =>
    rcases h with h | h
    · simp [h]
    · rw [hl] at h; simp at h

/-- When `syncLaunchers` hands a list to `setLauncherList`, it clears the dirty flag. -/
theorem syncLaunchers_clears_flag (m : Models) (st st1 : State) (launchers : List String)
    (h : syncLaunchers m st = some (st1, some launchers)) :
    st1.launcherSortingDirty = false := by
  unfold syncLaunchers at h
  cases hl : m.launcher with
  | none => rw [hl] at h; simp at h
  | some l =>
    rw [hl] at h
    simp only [] at h
    split at h
    · simp at h
    · split at h
      · simp at h
      · simp only [Option.some.injEq, Prod.mk.injEq] at h
        rw [← h.1]

end TaskManager

/-! ## Lemmas: `ScreenPool` -/

theorem ScreenPool.firstAvailableIdLoop_spec (keys : List Int) :
    ∀ i : Int, keys.Pairwise (fun a b => a < b) → (∀ k ∈ keys, i ≤ k) →
      i ≤ ScreenPool.firstAvailableIdLoop keys i
        ∧ ScreenPool.firstAvailableIdLoop keys i ∉ keys
        ∧ ∀ j, i ≤ j → j < ScreenPool.firstAvailableIdLoop keys i → j ∈ keys := by
  induction keys with
  | nil =>
    intro i _ _
    simp only [ScreenPool.firstAvailableIdLoop]
    exact ⟨le_refl _, by simp, fun j h1 h2 => absurd h2 (by omega)⟩
  | cons k ks ih =>
    intro i hsorted hge
    have hk : i ≤ k := hge k (by simp)
    have hlt : ∀ k' ∈ ks, k < k' := (List.pairwise_cons.1 hsorted).1
    unfold ScreenPool.firstAvailableIdLoop
    by_cases hik : i ≠ k
    · rw [if_pos hik]
      refine ⟨le_refl _, ?_, fun j h1 h2 => absurd h2 (by omega)⟩
      intro hmem
      rcases List.mem_cons.1 hmem with h | h
      · exact hik h
      · have := hlt i h
        omega
    · rw [if_neg hik]
      have hik' : i = k := by simpa using hik
      obtain ⟨h1, h2, h3⟩ := ih (i + 1) (List.pairwise_cons.1 hsorted).2
        (fun k' hk' => by have := hlt k' hk'; omega)
      refine ⟨by omega, ?_, ?_⟩
      · intro hmem
        rcases List.mem_cons.1 hmem with h | h
        · omega
        · exact h2 h
      · intro j hj1 hj2
        by_cases hj : j = i
        · simp [hj, hik']
        · exact List.mem_cons_of_mem _ (h3 j (by omega) hj2)

/-- With ascending keys none of which is negative, `firstAvailableId` is the smallest
non-negative integer that is not a key. -/
theorem ScreenPool.firstAvailableId_of_nonnegative (p : ScreenPool)
    (hsorted : (p.connectorForId.map Prod.fst).Pairwise (fun a b => a < b))
    (hnonneg : ∀ k ∈ p.connectorForId.map Prod.fst, 0 ≤ k) :
    0 ≤ p.firstAvailableId
      ∧ p.firstAvailableId ∉ p.connectorForId.map Prod.fst
      ∧ ∀ j, 0 ≤ j → j < p.firstAvailableId → j ∈ p.connectorForId.map Prod.fst :=
  ScreenPool.firstAvailableIdLoop_spec _ 0 hsorted hnonneg


/-! ## Lemmas: `AutoStart` -/

theorem AutoStart.takeFirst_some (test : AutoStartItem → Bool) (l : List AutoStartItem) :
    ∀ (x : AutoStartItem) (rest : List AutoStartItem),
      AutoStart.takeFirst test l = some (x, rest) →
        ∃ pre post, l = pre ++ x :: post ∧ rest = pre ++ post ∧ test x = true := by
  induction l with
  | nil => intro x rest h; simp [AutoStart.takeFirst] at h
  | cons item l ih =>
    intro x rest h
    unfold AutoStart.takeFirst at h
    by_cases ht : test item = true
    · rw [if_pos ht] at h
      simp only [Option.some.injEq, Prod.mk.injEq] at h
      obtain ⟨h1, h2⟩ := h
      subst h1; subst h2
      exact ⟨[], l, rfl, rfl, ht⟩
    · rw [if_neg ht] at h
      cases hr : AutoStart.takeFirst test l with
      | none => rw [hr] at h; simp at h
      | some r =>
        obtain ⟨found, rest1⟩ := r
        rw [hr] at h
        simp only [Option.some.injEq, Prod.mk.injEq] at h
        obtain ⟨h1, h2⟩ := h
        subst h1; subst h2
        obtain ⟨pre, post, hl, hrest, hx⟩ := ih found rest1 hr
        exact ⟨item :: pre, post, by simp [hl], by simp [hrest], hx⟩

theorem AutoStart.takeFirst_none (test : AutoStartItem → Bool) (l : List AutoStartItem)
    (h : AutoStart.takeFirst test l = none) : ∀ y ∈ l, test y = false := by
  induction l with
  | nil => intro y hy; simp at hy
  | cons item l ih =>
    unfold AutoStart.takeFirst at h
    by_cases ht : test item = true
    · rw [if_pos ht] at h; simp at h
    · rw [if_neg ht] at h
      cases hr : AutoStart.takeFirst test l with
      | some r => rw [hr] at h; simp at h
      | none =>
        intro y hy
        rcases List.mem_cons.1 hy with h1 | h1
        · subst h1; simpa using ht
        · exact ih hr y h1

theorem AutoStart.startDependent_some (phase : Int) (startList : List AutoStartItem)
    (started : List String) :
    ∀ (started1 : List String) (x : AutoStartItem) (rest : List AutoStartItem),
      AutoStart.startDependent phase startList started = (started1, some (x, rest)) →
        ∃ pre post, startList = pre ++ x :: post ∧ rest = pre ++ post ∧ x.phase = phase := by
  induction started with
  | nil => intro s x rest h; simp [AutoStart.startDependent] at h
  | cons lastItem started ih =>
    intro s x rest h
    unfold AutoStart.startDependent at h
    cases hr : AutoStart.takeFirst
        (fun item => decide (item.phase = phase) && decide (item.startAfter = lastItem))
        startList with
    | none =>
      rw [hr] at h
      exact ih s x rest h
    | some r =>
      rw [hr] at h
      simp only [Prod.mk.injEq, Option.some.injEq] at h
      obtain ⟨_, h2⟩ := h
      subst h2
      obtain ⟨pre, post, hl, hrest, hx⟩ := AutoStart.takeFirst_some _ _ _ _ hr
      exact ⟨pre, post, hl, hrest, (by simp only [Bool.and_eq_true, decide_eq_true_eq] at hx; exact hx.1)⟩

/-- What one call of `startService` does when the current phase has an item left. -/
theorem AutoStart.startService_removes (a : AutoStart)
    (h : ∃ item ∈ a.startList, item.phase = a.phase) :
    ∃ pre item post, a.startList = pre ++ item :: post ∧ item.phase = a.phase
      ∧ (AutoStart.startService a).1 = item.service
      ∧ (AutoStart.startService a).2.startList = pre ++ post
      ∧ (AutoStart.startService a).2.phase = a.phase := by
  obtain ⟨w, hw, hwp⟩ := h
  have hne : a.startList.isEmpty = false := by
    cases hl : a.startList with
    | nil => rw [hl] at hw; simp at hw
    | cons _ _ => rfl
  unfold AutoStart.startService
  rw [if_neg (by simp [hne])]
  rcases hd : AutoStart.startDependent a.phase a.startList a.started with ⟨started, found⟩
  cases found with
  | some r =>
    obtain ⟨x, rest⟩ := r
    obtain ⟨pre, post, hl, hrest, hx⟩ := AutoStart.startDependent_some _ _ _ _ _ _ hd
    exact ⟨pre, x, post, hl, hx, rfl, hrest, rfl⟩
  | none =>
    simp only []
    cases h1 : AutoStart.takeFirst
        (fun item => decide (item.phase = a.phase) && item.startAfter.isEmpty) a.startList with
    | some r =>
      obtain ⟨x, rest⟩ := r
      obtain ⟨pre, post, hl, hrest, hx⟩ := AutoStart.takeFirst_some _ _ _ _ h1
      exact ⟨pre, x, post, hl, (by simp only [Bool.and_eq_true, decide_eq_true_eq] at hx; exact hx.1), rfl, hrest, rfl⟩
    | none =>
      simp only []
      cases h2 : AutoStart.takeFirst (fun item => decide (item.phase = a.phase)) a.startList with
      | some r =>
        obtain ⟨x, rest⟩ := r
        obtain ⟨pre, post, hl, hrest, hx⟩ := AutoStart.takeFirst_some _ _ _ _ h2
        exact ⟨pre, x, post, hl, by simpa using hx, rfl, hrest, rfl⟩
      | none =>
        have := AutoStart.takeFirst_none _ _ h2 w hw
        simp [hwp] at this

/-- What one call of `startService` does when the current phase has no item left. -/
theorem AutoStart.startService_nothing (a : AutoStart)
    (h : ∀ item ∈ a.startList, item.phase ≠ a.phase) :
    (AutoStart.startService a).1 = ""
      ∧ (AutoStart.startService a).2.startList = a.startList
      ∧ (AutoStart.startService a).2.phase = a.phase := by
  unfold AutoStart.startService
  by_cases he : a.startList.isEmpty = true
  · rw [if_pos he]
    exact ⟨rfl, rfl, rfl⟩
  · rw [if_neg he]
    rcases hd : AutoStart.startDependent a.phase a.startList a.started with ⟨started, found⟩
    cases found with
    | some r =>
      obtain ⟨x, rest⟩ := r
      obtain ⟨pre, post, hl, _, hx⟩ := AutoStart.startDependent_some _ _ _ _ _ _ hd
      exact absurd hx (h x (by rw [hl]; simp))
    | none =>
      simp only []
      cases h1 : AutoStart.takeFirst
          (fun item => decide (item.phase = a.phase) && item.startAfter.isEmpty) a.startList with
      | some r =>
        obtain ⟨x, rest⟩ := r
        obtain ⟨pre, post, hl, _, hx⟩ := AutoStart.takeFirst_some _ _ _ _ h1
        have hx' : x.phase = a.phase := (by simp only [Bool.and_eq_true, decide_eq_true_eq] at hx; exact hx.1)
        exact absurd hx' (h x (by rw [hl]; simp))
      | none =>
        simp only []
        cases h2 : AutoStart.takeFirst (fun item => decide (item.phase = a.phase)) a.startList with
        | some r =>
          obtain ⟨x, rest⟩ := r
          obtain ⟨pre, post, hl, _, hx⟩ := AutoStart.takeFirst_some _ _ _ _ h2
          have hx' : x.phase = a.phase := by simpa using hx
          exact absurd hx' (h x (by rw [hl]; simp))
        | none => exact ⟨rfl, rfl, rfl⟩

/-- After as many calls of `startService` as the phase has items, the start list holds
the items of the other phases, in place, and the returned services are those of the
items of the phase, each once. -/
theorem AutoStart.startServices_all (n : Nat) :
    ∀ a : AutoStart, (AutoStart.inPhase a).length = n →
      (AutoStart.startServices n a).2.startList
          = a.startList.filter (fun item => !decide (item.phase = a.phase))
        ∧ List.Perm (AutoStart.startServices n a).1
            ((AutoStart.inPhase a).map (fun item => item.service)) := by
  induction n with
  | zero =>
    intro a hn
    have hnil : AutoStart.inPhase a = [] := List.length_eq_zero.1 hn
    unfold AutoStart.startServices
    rw [hnil]
    refine ⟨?_, List.Perm.refl _⟩
    symm
    rw [List.filter_eq_self]
    intro item hitem
    unfold AutoStart.inPhase at hnil
    have := (List.filter_eq_nil_iff.1 hnil) item hitem
    simpa using this
  | succ n ih =>
    intro a hn
    have hex : ∃ item ∈ a.startList, item.phase = a.phase := by
      cases hl : AutoStart.inPhase a with
      | nil => rw [hl] at hn; simp at hn
      | cons x xs =>
        have hx : x ∈ AutoStart.inPhase a := by rw [hl]; simp
        unfold AutoStart.inPhase at hx
        obtain ⟨h1, h2⟩ := List.mem_filter.1 hx
        exact ⟨x, h1, by simpa using h2⟩
    obtain ⟨pre, item, post, hl, hphase, hsvc, hrest, hp⟩ := AutoStart.startService_removes a hex
    have hin : AutoStart.inPhase (AutoStart.startService a).2
        = (pre ++ post).filter (fun item => decide (item.phase = a.phase)) := by
      unfold AutoStart.inPhase
      rw [hrest, hp]
    have hina : AutoStart.inPhase a
        = pre.filter (fun item => decide (item.phase = a.phase))
          ++ item :: post.filter (fun item => decide (item.phase = a.phase)) := by
      unfold AutoStart.inPhase
      rw [hl, List.filter_append, List.filter_cons_of_pos (by simpa using hphase)]
    have hlen : (AutoStart.inPhase (AutoStart.startService a).2).length = n := by
      rw [hin, List.filter_append, List.length_append]
      rw [hina, List.length_append, List.length_cons] at hn
      omega
    obtain ⟨ih1, ih2⟩ := ih (AutoStart.startService a).2 hlen
    unfold AutoStart.startServices
    simp only []
    refine ⟨?_, ?_⟩
    · rw [ih1, hrest, hp, hl, List.filter_append, List.filter_append,
        List.filter_cons_of_neg (by simpa using hphase)]
    · rw [hsvc, hina, List.map_append, List.map_cons]
      refine List.Perm.trans (List.Perm.cons _ ih2) ?_
      rw [hin, List.filter_append, List.map_append]
      exact List.perm_middle.symm


namespace TaskManager

/-! ## The shared activity info -/

/-- C21 (evaluation of the code): two instances are constructed and the first enters
Activity mode: the shared activity info exists and has one user. Destroying that
instance leaves one live instance, none in Activity mode, zero users, and the activity
info still in existence; had the instance left Activity mode through `setSortMode`, the
activity info would have been deleted. -/
theorem activityInfo_survives_destroyed_user :
    (setSortMode browserModels (construct (construct {}).1).1 (construct {}).2
        SortMode.SortActivity).map
        (fun r => (r.1.instanceCount, r.1.activityInfo, r.1.activityInfoUsers, r.2.sortMode))
      = some (2, true, 1, SortMode.SortActivity)
    ∧ (construct (construct {}).1).2.sortMode = SortMode.SortAlpha
    ∧ (setSortMode browserModels (construct (construct {}).1).1 (construct {}).2
        SortMode.SortActivity).map (fun r => destroy r.1 r.2)
      = some { instanceCount := 1, windowTasksModel := true, startupTasksModel := true,
               activityInfo := true, activityInfoUsers := 0 }
    ∧ ((setSortMode browserModels (construct (construct {}).1).1 (construct {}).2
        SortMode.SortActivity).bind
          (fun r => setSortMode browserModels r.1 r.2 SortMode.SortAlpha)).map
        (fun r => (r.1.activityInfo, r.1.activityInfoUsers))
      = some (false, 0) := by
  refine ⟨by decide, by decide, by decide, by decide⟩

/-! ## Group consolidation -/

/-- C22: for a group with `k >= 1` distinct children whose pre-filter rows all occur in
a duplicate-free map, `consolidateManualSortMapForGroup` returns a map in which the
children stand next to each other in grouping order (child `i` at the leader's position
plus `i`), which is a permutation of the map before, and in which the entries outside
the group are in the same relative order as before. -/
theorem consolidateManualSortMapForGroup_block (children rows : List Int)
    (hk : children ≠ []) (hrows : rows.Nodup) (hchildren : children.Nodup)
    (hsub : ∀ c ∈ children, c ∈ rows) :
    ∃ rows1 pre post,
      consolidateManualSortMapForGroup children rows = some rows1
      ∧ rows1 = pre ++ children ++ post
      ∧ (∀ (i : Nat) (c : Int), children[i]? = some c →
          indexOf rows1 c = indexOf rows1 (children.head hk) + i)
      ∧ List.Perm rows1 rows
      ∧ rows1.filter (fun v => decide (v ∉ children))
          = rows.filter (fun v => decide (v ∉ children)) := by
  cases children with
  | nil => exact absurd rfl hk
  | cons leader rest =>
    obtain ⟨pre0, post0, hsplit⟩ := List.append_of_mem (hsub leader (by simp))
    subst hsplit
    have hl_rest : leader ∉ rest := (List.nodup_cons.1 hchildren).1
    have hl_pre : leader ∉ pre0 := fun h => (List.nodup_append.1 hrows).2.2 h (by simp)
    have hl_post : leader ∉ post0 := (List.nodup_cons.1 (List.nodup_append.1 hrows).2.1).1
    have hmem : ∀ c ∈ rest, c ∈ pre0 ∨ c ∈ post0 := by
      intro c hc
      have hne : c ≠ leader := fun h => hl_rest (h ▸ hc)
      have := hsub c (by simp [hc])
      simp only [List.mem_append, List.mem_cons] at this
      tauto
    have hnd0 : (pre0 ++ leader :: [] ++ post0).Nodup := by simpa using hrows
    obtain ⟨pre1, post1, h1, h2⟩ :=
      consolidateLoop_block leader rest pre0 [] post0 hnd0 (List.nodup_cons.1 hchildren).2 hmem
    have hrun : consolidateManualSortMapForGroup (leader :: rest) (pre0 ++ leader :: post0)
        = some (pre1 ++ (leader :: rest) ++ post1) := by
      unfold consolidateManualSortMapForGroup
      simp only []
      have e : pre0 ++ leader :: post0 = pre0 ++ leader :: [] ++ post0 := by simp
      rw [e]
      simpa using h1
    have hperm := consolidateManualSortMapForGroup_perm _ _ _ hrun
    have hnd1 : (pre1 ++ (leader :: rest) ++ post1).Nodup := (hperm.nodup_iff).2 hrows
    refine ⟨pre1 ++ (leader :: rest) ++ post1, pre1, post1, hrun, rfl, ?_, hperm, ?_⟩
    · intro i c hc
      have hlead := indexOf_block pre1 (leader :: rest) post1 0 leader hnd1 (by simp)
      rw [indexOf_block pre1 (leader :: rest) post1 i c hnd1 hc, List.head_cons, hlead]
      simp
    · have houtside : ∀ v ∈ pre1 ++ post1, v ∉ leader :: rest := by
        intro v hv
        rw [h2] at hv
        obtain ⟨hv1, hv2⟩ := List.mem_filter.1 hv
        have hv3 : v ∉ rest := by simpa using hv2
        have hv4 : v ≠ leader := by
          intro h
          subst h
          simp only [List.mem_append] at hv1
          tauto
        simp [hv3, hv4]
      have hleft : (pre1 ++ (leader :: rest) ++ post1).filter (fun v => decide (v ∉ leader :: rest))
          = pre1 ++ post1 := by
        have hblock : (leader :: rest).filter (fun v => decide (v ∉ leader :: rest)) = [] := by
          rw [List.filter_eq_nil_iff]
          intro v hv
          simp [hv]
        have hall : (pre1 ++ post1).filter (fun v => decide (v ∉ leader :: rest)) = pre1 ++ post1 := by
          rw [List.filter_eq_self]
          intro v hv
          simpa using houtside v hv
        rw [List.filter_append, List.filter_append, hblock, List.append_nil, ← List.filter_append,
          hall]
      rw [hleft, h2, filter_not_mem_cons_split pre0 post0 rest leader hl_pre hl_post]

/-- Witness for C22: the group of the rows 3 and 0 in the map `[0, 1, 2, 3]`. -/
theorem consolidateManualSortMapForGroup_block_witness :
    ∃ rows1 pre post,
      consolidateManualSortMapForGroup [3, 0] [0, 1, 2, 3] = some rows1
      ∧ rows1 = pre ++ [3, 0] ++ post
      ∧ (∀ (i : Nat) (c : Int), [3, 0][i]? = some c →
          indexOf rows1 c = indexOf rows1 ([3, 0].head (by decide)) + i)
      ∧ List.Perm rows1 [0, 1, 2, 3]
      ∧ rows1.filter (fun v => decide (v ∉ [3, 0]))
          = [0, 1, 2, 3].filter (fun v => decide (v ∉ [3, 0])) :=
  consolidateManualSortMapForGroup_block [3, 0] [0, 1, 2, 3] (by decide) (by decide) (by decide)
    (by decide)


/-! ## Placing a newly inserted row -/

/-- C23 (counterexample): Manual mode, launchers not separated, no launcher list ever
set, map `[0, 1]` for a Firefox and a Dolphin window. A second Firefox window is
inserted as row 2: after the two handlers its entry is at the end of the map, behind the
Dolphin window, not immediately after the matching entry 0. -/
theorem rowsInserted_counterexample :
    neverSetState.sortMode = SortMode.SortManual
    ∧ neverSetState.separateLaunchers = false
    ∧ (dataAt insertedModels.concat 2).isLauncher = false
    ∧ insertedModels.appsMatch (dataAt insertedModels.concat 0) (dataAt insertedModels.concat 2)
        = true
    ∧ (rowsInserted insertedModels (rowsAboutToBeInserted neverSetState 2 2)).map
        (fun s => s.sortedPreFilterRows) = some [0, 1, 2]
    ∧ (rowsInserted insertedModels (rowsAboutToBeInserted neverSetState 2 2)).map
        (fun s => s.sortedPreFilterRows) ≠ some [0, 2, 1] := by
  refine ⟨rfl, rfl, by decide, by decide, by decide, by decide⟩

/-- C23 (amended): in Manual mode with `separateLaunchers` off and an empty insert
queue, a single non-launcher row `start` is inserted and `r` is the right-most entry of
the map that matches it by app identity. If a launcher list has been set before
(`launchersEverSet`), the new row's entry stands immediately after `r` when
`updateManualSortMap()` has run; if none has ever been set, it stays at the end of the
map. -/
theorem rowsInserted_places_new_row (m : Models) (st : State) (start r : Int)
    (pre post : List Int)
    (hmode : st.sortMode = SortMode.SortManual)
    (hsep : st.separateLaunchers = false)
    (hqueue : st.sortRowInsertQueue = [])
    (hnon : (dataAt m.concat start).isLauncher = false)
    (hmap : st.sortedPreFilterRows.map (fun v => if v ≥ start then v + 1 else v)
      = pre ++ r :: post)
    (hr : m.appsMatch (dataAt m.concat r) (dataAt m.concat start) = true)
    (hpost : ∀ q ∈ post, m.appsMatch (dataAt m.concat q) (dataAt m.concat start) = false) :
    (st.launchersEverSet = true →
      (rowsInserted m (rowsAboutToBeInserted st start start)).map
        (fun s => s.sortedPreFilterRows) = some (pre ++ r :: start :: post))
    ∧ (st.launchersEverSet = false →
      (rowsInserted m (rowsAboutToBeInserted st start start)).map
        (fun s => s.sortedPreFilterRows) = some (pre ++ r :: post ++ [start])) := by
  have hlen : st.sortedPreFilterRows.length = (pre ++ r :: post).length := by
    rw [← hmap, List.length_map]
  obtain ⟨st1, hst1, h1, h2, h3, h4, h5⟩ :
      ∃ st1, rowsAboutToBeInserted st start start = st1
        ∧ st1.sortMode = SortMode.SortManual ∧ st1.separateLaunchers = false
        ∧ st1.sortedPreFilterRows = pre ++ r :: post ++ [start]
        ∧ st1.sortRowInsertQueue = [((pre ++ r :: post).length : Int)]
        ∧ st1.launchersEverSet = st.launchersEverSet := by
    refine ⟨_, rfl, ?_, ?_, ?_, ?_, ?_⟩ <;>
      rw [rowsAboutToBeInserted_single st start hmode hsep]
    · exact hmode
    · exact hsep
    · simp only [hmap]
    · simp only [hqueue, hlen, List.nil_append]
  rw [hst1]
  unfold rowsInserted
  rw [if_pos h1]
  unfold updateManualSortMap
  have hne : (pre ++ r :: post ++ [start]).isEmpty = false := by simp
  rw [h3, h4, hne, if_neg (by simp), if_neg (by simp [h2])]
  unfold processInsertQueue
  constructor
  · intro hever
    rw [placeQueuedRow_sibling m st1 start r pre post (h5.trans hever) hnon hr hpost]
    simp [processInsertQueue]
  · intro hever
    rw [placeQueuedRow_never_set m st1 start (pre ++ r :: post) (h5.trans hever) hnon]
    simp [processInsertQueue]

/-- Witness for C23 (amended): the second Firefox window, with and without a launcher
list ever set. -/
theorem rowsInserted_places_new_row_witness :
    (rowsInserted insertedModels
        (rowsAboutToBeInserted { neverSetState with launchersEverSet := true } 2 2)).map
        (fun s => s.sortedPreFilterRows) = some [0, 2, 1]
    ∧ (rowsInserted insertedModels (rowsAboutToBeInserted neverSetState 2 2)).map
        (fun s => s.sortedPreFilterRows) = some [0, 1, 2] :=
  ⟨(rowsInserted_places_new_row insertedModels { neverSetState with launchersEverSet := true }
      2 0 [] [1] rfl rfl rfl (by decide) (by decide) (by decide) (by decide)).1 rfl,
   (rowsInserted_places_new_row insertedModels neverSetState 2 0 [] [1] rfl rfl rfl (by decide)
      (by decide) (by decide) (by decide)).2 rfl⟩

/-! ## Moving a launcher with its windows -/

/-- C24 (evaluation of the code): Manual mode, launchers not separated, map
W, launcher, window 0, window 1, the two windows backed by the launcher. Moving the
launcher in front of W succeeds and gives the map launcher, window 1, W, window 0:
window 0 has the launcher's URL and is cut off from the launcher by W. -/
theorem move_launcher_leaves_window_behind :
    followModels.concat.map (fun row => row.launcherUrlWithoutIcon)
      = ["applications:firefox.desktop", "applications:firefox.desktop", "",
         "applications:firefox.desktop"]
    ∧ followState.sortedPreFilterRows = [2, 3, 0, 1]
    ∧ (move followModels followState 1 0).map (fun r => (r.1, r.2.sortedPreFilterRows))
      = some (true, [3, 1, 2, 0]) := by
  refine ⟨by decide, rfl, by decide⟩

/-! ## The handlers keep the order -/

/-- C25: in Manual mode the rows-about-to-be-inserted handler replaces every entry
`>= start` by the entry plus the inserted count, leaves the others as they are, each in
its place, and appends `start .. end` in ascending order; on a duplicate-free map the
rows-removed handler deletes the entries in `[first, last]`, decreases every entry
`> last` by the removed count and leaves the surviving entries in their order. -/
theorem handlers_keep_order (st : State) (hmode : st.sortMode = SortMode.SortManual) :
    (∀ start stop : Int,
      (rowsAboutToBeInserted st start stop).sortedPreFilterRows
          = st.sortedPreFilterRows.map (fun v => if v ≥ start then v + ((stop - start) + 1) else v)
            ++ intRange start stop
        ∧ (intRange start stop).Pairwise (fun a b => a < b)
        ∧ ∀ v, v ∈ intRange start stop ↔ (start ≤ v ∧ v ≤ stop))
    ∧ (st.sortedPreFilterRows.Nodup → ∀ first last : Int,
      (rowsRemoved st first last).sortedPreFilterRows
        = (st.sortedPreFilterRows.filter (fun v => decide (¬ (first ≤ v ∧ v ≤ last)))).map
            (fun v => if v > last then v - ((last - first) + 1) else v)) := by
  refine ⟨fun start stop => ⟨rowsAboutToBeInserted_rows st start stop hmode,
    intRange_ascending start stop, fun v => mem_intRange start stop v⟩, ?_⟩
  intro hnd first last
  unfold rowsRemoved
  rw [if_neg (by simp [hmode])]
  simp only []
  rw [foldl_erase_eq_filter _ _ hnd]
  congr 1
  apply List.filter_congr
  intro v _
  simp only [mem_intRange]

/-- Witness for C25: two rows inserted at row 1 of the map `[1, 2, 0]`, and the rows 0
and 1 removed from it. -/
theorem handlers_keep_order_witness :
    (rowsAboutToBeInserted exampleState 1 2).sortedPreFilterRows = [3, 4, 0] ++ [1, 2]
    ∧ (rowsRemoved exampleState 0 1).sortedPreFilterRows = [0] :=
  ⟨((handlers_keep_order exampleState rfl).1 1 2).1.trans (by decide),
   ((handlers_keep_order exampleState rfl).2 (by decide) 0 1).trans (by decide)⟩

/-! ## The dirty flag -/

/-- C26 (evaluation of the code): Manual mode, separate launchers, shown A, B, W, V.
The move of launcher A behind launcher B sets the dirty flag; the following move of
window W behind window V, a plain task, succeeds and clears it; `syncLaunchers` then
returns early and hands no list to `setLauncherList`, the map still showing B before A. -/
theorem move_of_task_clears_dirty_flag :
    (move fourModels fourState 0 1).map
        (fun r => (r.1, r.2.sortedPreFilterRows, r.2.launcherSortingDirty))
      = some (true, [3, 2, 0, 1], true)
    ∧ ((move fourModels fourState 0 1).bind (fun r => move fourModelsMoved r.2 2 3)).map
        (fun r => (r.1, r.2.sortedPreFilterRows, r.2.launcherSortingDirty))
      = some (true, [3, 2, 1, 0], false)
    ∧ (((move fourModels fourState 0 1).bind (fun r => move fourModelsMoved r.2 2 3)).bind
        (fun r => syncLaunchers fourModelsMoved r.2)).map
        (fun r => (r.1.sortedPreFilterRows, r.2))
      = some ([3, 2, 1, 0], none) := by
  refine ⟨by decide, by decide, by decide⟩

/-! ## Asymmetry of the comparator -/

/-- C27 (evaluation of the code): Alpha mode with the default settings, two Firefox
windows: `lessThan` holds from the first to the second and from the second to the
first, and from the first to itself. -/
theorem lessThan_not_asymmetric :
    Private.lessThan exampleModels alphaState firefoxWikipedia firefoxKde false = true
    ∧ Private.lessThan exampleModels alphaState firefoxKde firefoxWikipedia false = true
    ∧ Private.lessThan exampleModels alphaState firefoxWikipedia firefoxWikipedia false = true := by
  refine ⟨by decide, by decide, by decide⟩

/-! ## The map outside Manual mode -/

/-- C28 (evaluation of the code): a freshly constructed instance is in Alpha mode with
an empty map. `setSeparateLaunchers(false)` with two windows present fills the map,
although the mode is still Alpha; after a third row has been inserted (the handlers do
nothing outside Manual mode), `setSortMode(Manual)` keeps that map of two entries, which
is not a permutation of the three rows. -/
theorem setSeparateLaunchers_fills_map :
    (construct {}).2.sortMode = SortMode.SortAlpha
    ∧ (construct {}).2.sortedPreFilterRows = []
    ∧ (setSeparateLaunchers browserModels (construct {}).2 false).map
        (fun s => (s.sortMode, s.sortedPreFilterRows)) = some (SortMode.SortAlpha, [1, 0])
    ∧ ((setSeparateLaunchers browserModels (construct {}).2 false).bind
        (fun s => rowsInserted insertedModels (rowsAboutToBeInserted s 2 2))).map
        (fun s => (s.sortMode, s.sortedPreFilterRows)) = some (SortMode.SortAlpha, [1, 0])
    ∧ ((setSeparateLaunchers browserModels (construct {}).2 false).bind
        (fun s => setSortMode insertedModels (construct {}).1 s SortMode.SortManual)).map
        (fun r => (r.2.sortMode, r.2.sortedPreFilterRows)) = some (SortMode.SortManual, [1, 0])
    ∧ insertedModels.concat.length = 3
    ∧ ¬ IsRowPermutation [1, 0] 3 := by
  refine ⟨rfl, rfl, by decide, by decide, by decide, rfl, by decide⟩

end TaskManager

/-! ## `ScreenPool::firstAvailableId` -/

/-- C29 (evaluation of the code): the configuration group holds the key "-1" for the
connector "DP-9" and the primary screen is "eDP-1". `load` restores the ids -1 and 0;
`firstAvailableId` then returns 0, which is stored in the map, and mapping the connected
screen "HDMI-1" to it fails the assertion of `insertScreenMapping`. -/
theorem ScreenPool.firstAvailableId_returns_stored_id :
    (ScreenPool.restore ScreenPool.decimalToInt ScreenPool.negativeKeyPool
        (some "eDP-1")).connectorForId = [(-1, "DP-9"), (0, "eDP-1")]
    ∧ (ScreenPool.restore ScreenPool.decimalToInt ScreenPool.negativeKeyPool
        (some "eDP-1")).firstAvailableId = 0
    ∧ (ScreenPool.restore ScreenPool.decimalToInt ScreenPool.negativeKeyPool
        (some "eDP-1")).connectorForId.lookup 0 = some "eDP-1"
    ∧ ScreenPool.load ScreenPool.decimalToInt (fun i => toString i) ScreenPool.negativeKeyPool
        (some "eDP-1") ["eDP-1", "HDMI-1"] = none := by
  refine ⟨by decide, by decide, by decide, by decide⟩

/-! ## `AutoStart::startService` -/

/-- C30: with non-empty services, `startService()` returns the empty string exactly
when no item of the start list has the current phase, and then leaves the start list
unchanged; otherwise it returns the service of one item of the current phase and removes
that item, leaving the others in place; as many calls as the phase has items start each
of them once and leave the items of the other phases, whatever the `startAfter` entries. -/
theorem AutoStart.startService_starts_phase (a : AutoStart)
    (hservice : ∀ item ∈ a.startList, item.service ≠ "") :
    ((AutoStart.startService a).1 = "" ↔ ∀ item ∈ a.startList, item.phase ≠ a.phase)
    ∧ ((∀ item ∈ a.startList, item.phase ≠ a.phase) →
        (AutoStart.startService a).2.startList = a.startList)
    ∧ ((∃ item ∈ a.startList, item.phase = a.phase) →
        ∃ pre item post, a.startList = pre ++ item :: post ∧ item.phase = a.phase
          ∧ (AutoStart.startService a).1 = item.service
          ∧ (AutoStart.startService a).2.startList = pre ++ post)
    ∧ (AutoStart.startServices (AutoStart.inPhase a).length a).2.startList
        = a.startList.filter (fun item => !decide (item.phase = a.phase))
    ∧ List.Perm (AutoStart.startServices (AutoStart.inPhase a).length a).1
        ((AutoStart.inPhase a).map (fun item => item.service)) := by
  refine ⟨?_, fun h => (AutoStart.startService_nothing a h).2.1, ?_,
    (AutoStart.startServices_all _ a rfl).1, (AutoStart.startServices_all _ a rfl).2⟩
  · constructor
    · intro hempty item hitem hphase
      obtain ⟨pre, x, post, hl, _, hsvc, _, _⟩ :=
        AutoStart.startService_removes a ⟨item, hitem, hphase⟩
      exact hservice x (by rw [hl]; simp) (hsvc ▸ hempty)
    · intro h
      exact (AutoStart.startService_nothing a h).1
  · intro h
    obtain ⟨pre, x, post, hl, hp, hsvc, hrest, _⟩ := AutoStart.startService_removes a h
    exact ⟨pre, x, post, hl, hp, hsvc, hrest⟩

/-- Witness for C30: phase 1 with two items of the phase, one waiting for an item that
is never started, and one item of phase 2. -/
theorem AutoStart.startService_starts_phase_witness :
    (AutoStart.startService AutoStart.threeItems).1 ≠ ""
    ∧ (AutoStart.startServices 2 AutoStart.threeItems).2.startList
        = AutoStart.threeItems.startList.filter (fun item => !decide (item.phase = 1))
    ∧ List.Perm (AutoStart.startServices 2 AutoStart.threeItems).1
        ["/etc/xdg/autostart/baloo.desktop", "/etc/xdg/autostart/klipper.desktop"] :=
  have h := AutoStart.startService_starts_phase AutoStart.threeItems (by decide)
  ⟨fun hempty => absurd (h.1.1 hempty) (by decide), h.2.2.2.1, h.2.2.2.2⟩
